import Mathlib

/-!
# Coherency cache: a shallow embedding of `micro_service_tool/coherency_cache`

The Go package has three files of interest:

* `coherency_cache.go`: the `IStorage` interface, `BaseStorage` (the per-key lock table) and
  `CoherencyStorage` (cache in front of a source);
* `memory_storage.go`: `MemoryStorage`, a `sync.Map` behind the `IStorage` interface;
* `coherency_storage_test.go`: the scenarios the package is tested on.

Next to it, `block_call_with_timeout/block_call_with_timeout.go` has `BlockCallWithTimeout`.

Modelling decisions, all of them visible in the definitions below.

* A Go object is a table of methods acting on a *world* `W`, the state of everything the object
  can reach.  A method is a function `W → Outcome (result × W)`.
* `Outcome` separates a call that returns from one that does not: in a sequential run
  `sync.Mutex.Lock` on a held mutex waits forever (`blocked`), and `sync.Mutex.Unlock` on a mutex
  that is not held is the runtime's `fatal error: sync: unlock of unlocked mutex` (`fatal`).
* A pointer `*VT` is an `Option VT`, `none` being the nil pointer.  Keys are passed as non-nil
  pointers and dereferenced at once, so a key is a value of `KT`.
* An `error` is an `Option Error`, `none` being the nil error.
* A `context.Context` is what the code that holds it reads from it: the value of `Err()` at the
  moment of the look.  Time passes while an operation runs, and the deadline of a context made
  by `context.WithTimeout` passes when the timeout has elapsed, however small or large it is.
  The clock is not in the hands of the program, so its readings are an input: a context comes
  with the time that will have elapsed at each later look at a context derived from it, and
  every backend call of an operation is a look of its own.  `time.Duration` is the integer
  count of nanoseconds.
* Calls that run at the same time are interleavings of atomic steps, one step for each call of
  a backend method, for each send or receive on a channel and for each case of a `select`.
-/

set_option linter.unusedSectionVars false

namespace CoherencyCache

/-! ## Errors, durations and contexts -/

/-- The `error` values that occur: the two sentinel errors of package `context`, errors that
a backend makes up itself, told apart by a code, and errors that wrap another error (as
`fmt.Errorf("...: %w", cause)` does). -/
inductive Error where
  | Canceled
  | DeadlineExceeded
  | backend (code : Nat)
  | wrap (code : Nat) (cause : Error)
  deriving DecidableEq, Repr

/-- Go `errors.Is(err, target)`: `err` is `target`, or it wraps an error that is. -/
def Error.Is : Error → Error → Bool
  | Error.wrap code cause, target =>
    decide (Error.wrap code cause = target) || Error.Is cause target
  | e, target => decide (e = target)

/-- Go `time.Duration`: a count of nanoseconds. -/
abbrev Duration := Int

/-- Go `time.Millisecond`. -/
def Millisecond : Duration := 1000000

/-- Go `context.Context`, reduced to what the package reads from it.  `err` is what `ctx.Err()`
returns at the moment the holder of the context looks at it, and `ctx.Done()` is ready exactly
when `err` is not nil.  A context that `context.WithTimeout` derives from this one is looked at
later, by the backend calls it is handed to: `elapsed sites` is the time on the clock since the
derived context was made, at the moment of the look that the backend call at the call sites
`sites` takes.  A call site is a backend call of an operation; the call sites of an operation
are numbered from 0 in the order in which a run that goes through all of them makes them.
`sites` lists the call sites from the operation that this context is passed to down to the
backend call that looks: one call site when the backends are `MemoryStorage`s, one more for
every `CoherencyStorage` on the way. -/
structure Context where
  err : Option Error
  elapsed : List Nat → Duration

/-- Go `context.Background()`: never cancelled, no deadline.  `elapsed` are the readings of the
clock for the operation that the context is passed to. -/
def Context.Background (elapsed : List Nat → Duration) : Context := ⟨none, elapsed⟩

/-- Go `context.WithTimeout(parent, timeout)`, as the backend call at the call site `look`
finds it.  A parent that is done hands its error to the child.  Otherwise the child is done with
`DeadlineExceeded` once the timeout has elapsed: from the start when the timeout is not
positive, and for every timeout when the time elapsed at the look has reached it.  Otherwise
the child is live at that look.  The contexts derived from the child are looked at below the
call site `look`. -/
def Context.WithTimeout (parent : Context) (timeout : Duration) (look : Nat) : Context :=
  { err :=
      match parent.err with
      | some e => some e
      | none =>
        if timeout ≤ 0 ∨ timeout ≤ parent.elapsed [look] then some Error.DeadlineExceeded
        else none
    elapsed := fun sites => parent.elapsed (look :: sites) }

/-- The signal of an operation with this context and this timeout is live for the whole
operation: `subCtx` is live at the look of every backend call. -/
def Context.live (ctx : Context) (timeout : Duration) : Prop :=
  ∀ look : Nat, (ctx.WithTimeout timeout look).err = none

/-! ## Calls that may not return -/

/-- The result of a call in a sequential run: it returns `a`, or it waits forever on a mutex
(`blocked`), or the runtime stops the process (`fatal`). -/
inductive Outcome (α : Type) where
  | ok (a : α)
  | blocked
  | fatal
  deriving Repr

/-- Sequencing of calls: the second call is made only when the first has returned. -/
def Outcome.bind {α β : Type} (x : Outcome α) (f : α → Outcome β) : Outcome β :=
  match x with
  | Outcome.ok a => f a
  | Outcome.blocked => Outcome.blocked
  | Outcome.fatal => Outcome.fatal

/-! ## `coherency_cache.go`: `IStorage` and `BaseStorage` -/

/-- Go `IStorage[KT, VT]`, as a table of methods over the world `W`. -/
structure IStorage (KT VT W : Type) where
  Get : Context → KT → Duration → W → Outcome ((Option VT × Option Error) × W)
  Set : Context → KT → Option VT → Duration → W → Outcome (Option Error × W)
  Del : Context → KT → Duration → W → Outcome (Option Error × W)
  Lock : Context → KT → W → Outcome W
  Unlock : Context → KT → W → Outcome W
  Timeout : W → Duration

/-- Go `BaseStorage[KT]`: `lockMap` is the `sync.Map` from keys to `*sync.Mutex`.  `none` means
that no mutex was created for the key yet, `some held` is a mutex and whether it is held. -/
structure BaseStorage (KT : Type) where
  lockMap : KT → Option Bool

/-- Go `BaseStorage.Lock`: `LoadOrStore` creates the mutex on first use, then `Lock()` takes it,
waiting forever when it is held. -/
def BaseStorage.Lock {KT : Type} [DecidableEq KT] (b : BaseStorage KT) (_ctx : Context)
    (key : KT) : Outcome (BaseStorage KT) :=
  match b.lockMap key with
  | some true => Outcome.blocked
  | _ => Outcome.ok ⟨Function.update b.lockMap key (some true)⟩

/-- Go `BaseStorage.Unlock`: returns at once when `Load` finds no mutex, otherwise `Unlock()`,
which is a fatal runtime error on a mutex that is not held. -/
def BaseStorage.Unlock {KT : Type} [DecidableEq KT] (b : BaseStorage KT) (_ctx : Context)
    (key : KT) : Outcome (BaseStorage KT) :=
  match b.lockMap key with
  | none => Outcome.ok b
  | some true => Outcome.ok ⟨Function.update b.lockMap key (some false)⟩
  | some false => Outcome.fatal

/-! ## `memory_storage.go` -/

/-- Go `MemoryStorage[KT, VT]`: the embedded `BaseStorage` and the `sync.Map` named `cache`,
which holds `*VT` pointers.  `cache key = none` is a key that is not in the map,
`cache key = some none` a key that holds the nil pointer. -/
structure MemoryStorage (KT VT : Type) extends BaseStorage KT where
  cache : KT → Option (Option VT)

/-- Go `NewMemoryStorage`. -/
def NewMemoryStorage (KT VT : Type) : MemoryStorage KT VT :=
  { lockMap := fun _ => none, cache := fun _ => none }

/-- Go `MemoryStorage.Get`: `Load`, then the check of `ctx.Done()`, then the result. -/
def MemoryStorage.Get {KT VT : Type} (m : MemoryStorage KT VT) (ctx : Context) (key : KT)
    (_timeout : Duration) : (Option VT × Option Error) × MemoryStorage KT VT :=
  let value := m.cache key
  match ctx.err with
  | some e => ((none, some e), m)
  | none =>
    match value with
    | none => ((none, none), m)
    | some p => ((p, none), m)

/-- Go `MemoryStorage.Set`: `Store`, then the check of `ctx.Done()`. -/
def MemoryStorage.Set {KT VT : Type} [DecidableEq KT] (m : MemoryStorage KT VT) (ctx : Context)
    (key : KT) (value : Option VT) (_timeout : Duration) : Option Error × MemoryStorage KT VT :=
  let m1 : MemoryStorage KT VT := { m with cache := Function.update m.cache key (some value) }
  match ctx.err with
  | some e => (some e, m1)
  | none => (none, m1)

/-- Go `MemoryStorage.Del`: `Delete`, then the check of `ctx.Done()`. -/
def MemoryStorage.Del {KT VT : Type} [DecidableEq KT] (m : MemoryStorage KT VT) (ctx : Context)
    (key : KT) (_timeout : Duration) : Option Error × MemoryStorage KT VT :=
  let m1 : MemoryStorage KT VT := { m with cache := Function.update m.cache key none }
  match ctx.err with
  | some e => (some e, m1)
  | none => (none, m1)

/-- Go `MemoryStorage.Timeout`. -/
def MemoryStorage.Timeout : Duration := Millisecond * 100

/-- The type `MemoryStorage` satisfies `IStorage` (the Go assertion `var _ IStorage = (*MemoryStorage)(nil)`);
`Lock` and `Unlock` are the promoted methods of the embedded `BaseStorage`. -/
def MemoryStorage.toIStorage (KT VT : Type) [DecidableEq KT] :
    IStorage KT VT (MemoryStorage KT VT) where
  Get := fun ctx key timeout m => Outcome.ok (m.Get ctx key timeout)
  Set := fun ctx key value timeout m => Outcome.ok (m.Set ctx key value timeout)
  Del := fun ctx key timeout m => Outcome.ok (m.Del ctx key timeout)
  Lock := fun ctx key m =>
    (m.toBaseStorage.Lock ctx key).bind fun b => Outcome.ok { m with toBaseStorage := b }
  Unlock := fun ctx key m =>
    (m.toBaseStorage.Unlock ctx key).bind fun b => Outcome.ok { m with toBaseStorage := b }
  Timeout := fun _ => MemoryStorage.Timeout

/-! ## `coherency_cache.go`: `CoherencyStorage` -/

/-- Go `CoherencyStorage[KT, VT]`, the references it holds: the two backends, as method tables
over the world `W` in which both of them live. -/
structure CoherencyStorage (KT VT W : Type) where
  cache : IStorage KT VT W
  source : IStorage KT VT W

/-- The state a `CoherencyStorage` can reach: its own embedded `BaseStorage` (its own lock
table) and the world of its two backends. -/
structure CoherencyState (KT W : Type) extends BaseStorage KT where
  world : W

/-- Go `NewCoherencyStorage`: the method table. -/
def NewCoherencyStorage {KT VT W : Type} (cache source : IStorage KT VT W) :
    CoherencyStorage KT VT W :=
  { cache := cache, source := source }

/-- Go `NewCoherencyStorage`: the state of the new object, an empty lock table over the world of
the backends. -/
def NewCoherencyState {KT W : Type} (w : W) : CoherencyState KT W :=
  { lockMap := fun _ => none, world := w }

/-- Go `CoherencyStorage.Get`.  The backend calls are the call sites 0 to 5 (the deferred
`c.cache.Unlock` is the last), and `subCtx k` is `subCtx` as the backend call at call site `k`
finds it.  The
deferred `cancel()` only releases the timer of `subCtx`.  The deferred `c.cache.Unlock` runs on
each return path after `c.cache.Lock`. -/
def CoherencyStorage.Get {KT VT W : Type} (c : CoherencyStorage KT VT W) (ctx : Context)
    (key : KT) (timeout : Duration) (s : CoherencyState KT W) :
    Outcome ((Option VT × Option Error) × CoherencyState KT W) :=
  let subCtx := ctx.WithTimeout timeout
  (c.cache.Get (subCtx 0) key (c.cache.Timeout s.world) s.world).bind fun r1 =>
    if r1.1.2.isSome || r1.1.1.isSome then
      Outcome.ok (r1.1, { s with world := r1.2 })
    else
      (c.cache.Lock (subCtx 1) key r1.2).bind fun w2 =>
        let body : Outcome ((Option VT × Option Error) × W) :=
          (c.source.Get (subCtx 2) key (c.cache.Timeout w2) w2).bind fun r3 =>
            if r3.1.2.isSome || r3.1.1.isSome then
              Outcome.ok (r3.1, r3.2)
            else
              (c.source.Get (subCtx 3) key (c.cache.Timeout r3.2) r3.2).bind fun r4 =>
                if r4.1.2.isSome then
                  Outcome.ok ((none, r4.1.2), r4.2)
                else
                  (c.cache.Set (subCtx 4) key r4.1.1 (c.cache.Timeout r4.2) r4.2).bind fun r5 =>
                    if r5.1.isSome then
                      Outcome.ok ((none, r5.1), r5.2)
                    else
                      Outcome.ok ((r4.1.1, none), r5.2)
        body.bind fun r6 =>
          (c.cache.Unlock (subCtx 5) key r6.2).bind fun w7 =>
            Outcome.ok (r6.1, { s with world := w7 })

/-- Go `CoherencyStorage.Set`: the source under the source's lock, then the cache under the
cache's lock; each closure releases its lock when it returns.  The backend calls are the call
sites 0 to 5, and `subCtx k` is `subCtx` as the backend call at call site `k` finds it. -/
def CoherencyStorage.Set {KT VT W : Type} (c : CoherencyStorage KT VT W) (ctx : Context)
    (key : KT) (value : Option VT) (timeout : Duration) (s : CoherencyState KT W) :
    Outcome (Option Error × CoherencyState KT W) :=
  let subCtx := ctx.WithTimeout timeout
  let first : Outcome (Option Error × W) :=
    (c.source.Lock (subCtx 0) key s.world).bind fun w1 =>
      (c.source.Set (subCtx 1) key value (c.source.Timeout w1) w1).bind fun r2 =>
        (c.source.Unlock (subCtx 2) key r2.2).bind fun w3 =>
          Outcome.ok (r2.1, w3)
  first.bind fun r3 =>
    if r3.1.isSome then
      Outcome.ok (r3.1, { s with world := r3.2 })
    else
      let second : Outcome (Option Error × W) :=
        (c.cache.Lock (subCtx 3) key r3.2).bind fun w4 =>
          (c.cache.Set (subCtx 4) key value (c.cache.Timeout w4) w4).bind fun r5 =>
            (c.cache.Unlock (subCtx 5) key r5.2).bind fun w6 =>
              Outcome.ok (r5.1, w6)
      second.bind fun r6 =>
        if r6.1.isSome then
          Outcome.ok (r6.1, { s with world := r6.2 })
        else
          Outcome.ok (none, { s with world := r6.2 })

/-- Go `CoherencyStorage.Del`: as `Set`, with `Del` on the source and then on the cache. -/
def CoherencyStorage.Del {KT VT W : Type} (c : CoherencyStorage KT VT W) (ctx : Context)
    (key : KT) (timeout : Duration) (s : CoherencyState KT W) :
    Outcome (Option Error × CoherencyState KT W) :=
  let subCtx := ctx.WithTimeout timeout
  let first : Outcome (Option Error × W) :=
    (c.source.Lock (subCtx 0) key s.world).bind fun w1 =>
      (c.source.Del (subCtx 1) key (c.source.Timeout w1) w1).bind fun r2 =>
        (c.source.Unlock (subCtx 2) key r2.2).bind fun w3 =>
          Outcome.ok (r2.1, w3)
  first.bind fun r3 =>
    if r3.1.isSome then
      Outcome.ok (r3.1, { s with world := r3.2 })
    else
      let second : Outcome (Option Error × W) :=
        (c.cache.Lock (subCtx 3) key r3.2).bind fun w4 =>
          (c.cache.Del (subCtx 4) key (c.cache.Timeout w4) w4).bind fun r5 =>
            (c.cache.Unlock (subCtx 5) key r5.2).bind fun w6 =>
              Outcome.ok (r5.1, w6)
      second.bind fun r6 =>
        if r6.1.isSome then
          Outcome.ok (r6.1, { s with world := r6.2 })
        else
          Outcome.ok (none, { s with world := r6.2 })

/-- Go `CoherencyStorage.Lock`: the same body as `BaseStorage.Lock`, on its own `lockMap`. -/
def CoherencyStorage.Lock {KT VT W : Type} [DecidableEq KT] (_c : CoherencyStorage KT VT W)
    (_ctx : Context) (key : KT) (s : CoherencyState KT W) : Outcome (CoherencyState KT W) :=
  match s.lockMap key with
  | some true => Outcome.blocked
  | _ => Outcome.ok { s with lockMap := Function.update s.lockMap key (some true) }

/-- Go `CoherencyStorage.Unlock`: the same body as `BaseStorage.Unlock`, on its own `lockMap`. -/
def CoherencyStorage.Unlock {KT VT W : Type} [DecidableEq KT] (_c : CoherencyStorage KT VT W)
    (_ctx : Context) (key : KT) (s : CoherencyState KT W) : Outcome (CoherencyState KT W) :=
  match s.lockMap key with
  | none => Outcome.ok s
  | some true => Outcome.ok { s with lockMap := Function.update s.lockMap key (some false) }
  | some false => Outcome.fatal

/-- Go `CoherencyStorage.Timeout`. -/
def CoherencyStorage.Timeout {KT VT W : Type} (c : CoherencyStorage KT VT W)
    (s : CoherencyState KT W) : Duration :=
  c.cache.Timeout s.world

/-- The type `CoherencyStorage` satisfies `IStorage` (the Go assertion
`var _ IStorage = (*CoherencyStorage)(nil)`), which is what lets one be the backend of another. -/
def CoherencyStorage.toIStorage {KT VT W : Type} [DecidableEq KT] (c : CoherencyStorage KT VT W) :
    IStorage KT VT (CoherencyState KT W) where
  Get := c.Get
  Set := c.Set
  Del := c.Del
  Lock := c.Lock
  Unlock := c.Unlock
  Timeout := c.Timeout

/-! ## Backends side by side

`NewCoherencyStorage(cache, source)` is usually given two separate objects.  Their world is
the pair of their states: the cache acts on the first component, the source on the second. -/

/-- A storage with state `A`, placed as the first component of a pair of states. -/
def IStorage.onFst {KT VT A B : Type} (st : IStorage KT VT A) : IStorage KT VT (A × B) where
  Get := fun ctx key timeout w =>
    (st.Get ctx key timeout w.1).bind fun r => Outcome.ok (r.1, (r.2, w.2))
  Set := fun ctx key value timeout w =>
    (st.Set ctx key value timeout w.1).bind fun r => Outcome.ok (r.1, (r.2, w.2))
  Del := fun ctx key timeout w =>
    (st.Del ctx key timeout w.1).bind fun r => Outcome.ok (r.1, (r.2, w.2))
  Lock := fun ctx key w => (st.Lock ctx key w.1).bind fun a => Outcome.ok (a, w.2)
  Unlock := fun ctx key w => (st.Unlock ctx key w.1).bind fun a => Outcome.ok (a, w.2)
  Timeout := fun w => st.Timeout w.1

/-- A storage with state `B`, placed as the second component of a pair of states. -/
def IStorage.onSnd {KT VT A B : Type} (st : IStorage KT VT B) : IStorage KT VT (A × B) where
  Get := fun ctx key timeout w =>
    (st.Get ctx key timeout w.2).bind fun r => Outcome.ok (r.1, (w.1, r.2))
  Set := fun ctx key value timeout w =>
    (st.Set ctx key value timeout w.2).bind fun r => Outcome.ok (r.1, (w.1, r.2))
  Del := fun ctx key timeout w =>
    (st.Del ctx key timeout w.2).bind fun r => Outcome.ok (r.1, (w.1, r.2))
  Lock := fun ctx key w => (st.Lock ctx key w.2).bind fun b => Outcome.ok (w.1, b)
  Unlock := fun ctx key w => (st.Unlock ctx key w.2).bind fun b => Outcome.ok (w.1, b)
  Timeout := fun w => st.Timeout w.2

/-- The `CoherencyStorage` built by `NewCoherencyStorage(cache, source)` from two separate
backends, as an `IStorage` over its own lock table and the pair of their states. -/
def Coherent {KT VT A B : Type} [DecidableEq KT] (cache : IStorage KT VT A)
    (source : IStorage KT VT B) : IStorage KT VT (CoherencyState KT (A × B)) :=
  (NewCoherencyStorage cache.onFst source.onSnd).toIStorage

/-! ## Hierarchies of `MemoryStorage` leaves -/

/-- The way a hierarchy is put together: a `MemoryStorage`, or a `CoherencyStorage` whose cache
and source are hierarchies themselves. -/
inductive Shape where
  | memory
  | coherency (cache source : Shape)
  deriving DecidableEq, Repr

/-- The state of a hierarchy of the given shape. -/
def Shape.World (KT VT : Type) : Shape → Type
  | Shape.memory => MemoryStorage KT VT
  | Shape.coherency c s => CoherencyState KT (c.World KT VT × s.World KT VT)

/-- The outermost store of a hierarchy of the given shape. -/
def Shape.storage (KT VT : Type) [DecidableEq KT] :
    (sh : Shape) → IStorage KT VT (sh.World KT VT)
  | Shape.memory => MemoryStorage.toIStorage KT VT
  | Shape.coherency c s => Coherent (c.storage KT VT) (s.storage KT VT)

/-- The signal of an operation with this context and this timeout on the outermost store stays
live all the way down: every `MemoryStorage` of the hierarchy finds the context it is handed
live, at every look.  A `MemoryStorage` looks at the context it is handed; a `CoherencyStorage`
hands `subCtx` to its cache and to its source, which work with the timeout of a
`MemoryStorage`, the timeout that every store of a hierarchy reports. -/
def Shape.live : Shape → Context → Duration → Prop
  | Shape.memory, ctx, _ => ctx.err = none
  | Shape.coherency c s, ctx, timeout =>
    ∀ look : Nat, c.live (ctx.WithTimeout timeout look) MemoryStorage.Timeout ∧
      s.live (ctx.WithTimeout timeout look) MemoryStorage.Timeout

/-- The signal is live and no timeout runs out: the time elapsed at every look of the operation
is less than its timeout, and the time elapsed at every look further in is less than the timeout
of a `MemoryStorage`, with which the stores further in work. -/
def Context.staysLive (ctx : Context) (timeout : Duration) : Prop :=
  ctx.err = none ∧ 0 < timeout ∧ (∀ look : Nat, ctx.elapsed [look] < timeout) ∧
    ∀ (look : Nat) (sites : List Nat), sites ≠ [] →
      ctx.elapsed (look :: sites) < MemoryStorage.Timeout

/-- A hierarchy right after its constructors ran: empty maps, empty lock tables. -/
def Shape.fresh (KT VT : Type) : (sh : Shape) → sh.World KT VT
  | Shape.memory => NewMemoryStorage KT VT
  | Shape.coherency c s => NewCoherencyState (c.fresh KT VT, s.fresh KT VT)

/-- A chain of `n` `CoherencyStorage`s, each with a `MemoryStorage` of its own as cache and the
next level as source, over an innermost `MemoryStorage`. -/
def Shape.chain : Nat → Shape
  | 0 => Shape.memory
  | n + 1 => Shape.coherency Shape.memory (Shape.chain n)

/-- The lock table of the outermost store. -/
def Shape.own {KT VT : Type} : (sh : Shape) → sh.World KT VT → BaseStorage KT
  | Shape.memory, m => m.toBaseStorage
  | Shape.coherency _ _, s => s.toBaseStorage

/-- Replaces the lock table of the outermost store. -/
def Shape.setOwn {KT VT : Type} : (sh : Shape) → BaseStorage KT → sh.World KT VT → sh.World KT VT
  | Shape.memory, b, m => { m with toBaseStorage := b }
  | Shape.coherency _ _, b, s => { s with toBaseStorage := b }

/-- The property `P` holds of every store of the hierarchy, the outermost one included, each with the part of
the state that is its own. -/
def Shape.everyLevel {KT VT : Type} (P : (sh : Shape) → sh.World KT VT → Prop) :
    (sh : Shape) → sh.World KT VT → Prop
  | Shape.memory, m => P Shape.memory m
  | Shape.coherency c s, w =>
    P (Shape.coherency c s) w ∧ c.everyLevel P w.world.1 ∧ s.everyLevel P w.world.2

/-- What the map of a `MemoryStorage` has under a key that reads as absent: no entry, or the
nil pointer. -/
def ReadsAbsent {VT : Type} (x : Option (Option VT)) : Prop := x = none ∨ x = some none

/-- The property `P` holds of what the map of every `MemoryStorage` of the hierarchy has under `key`. -/
def Shape.leaves {KT VT : Type} (key : KT) (P : Option (Option VT) → Prop) :
    (sh : Shape) → sh.World KT VT → Prop
  | Shape.memory, m => P (m.cache key)
  | Shape.coherency c s, w => c.leaves key P w.world.1 ∧ s.leaves key P w.world.2

/-- No mutex for `key` is held in the lock table of any store below the outermost one. -/
def Shape.belowFree {KT VT : Type} (key : KT) : (sh : Shape) → sh.World KT VT → Prop
  | Shape.memory, _ => True
  | Shape.coherency c s, w =>
    ((c.own w.world.1).lockMap key ≠ some true ∧ c.belowFree key w.world.1) ∧
      ((s.own w.world.2).lockMap key ≠ some true ∧ s.belowFree key w.world.2)

/-- The chain holds `value` under `key` in its innermost `MemoryStorage` and nothing under
`key` in the cache of any level. -/
def Shape.onlyInnermost {KT VT : Type} (key : KT) (value : VT) :
    (n : Nat) → (Shape.chain n).World KT VT → Prop
  | 0, m => m.cache key = some (some value)
  | n + 1, w => w.world.1.cache key = none ∧ Shape.onlyInnermost key value n w.world.2

/-! ## Recording the calls a backend receives -/

/-- Which of the two backends of a `CoherencyStorage` a call went to. -/
inductive Tier where
  | cache
  | source
  deriving DecidableEq, Repr

/-- The methods of `IStorage` that take a key. -/
inductive Method where
  | Get
  | Set
  | Del
  | Lock
  | Unlock
  deriving DecidableEq, Repr

/-- One call that a backend received and returned from, with the error it returned. -/
structure Call (KT : Type) where
  tier : Tier
  method : Method
  key : KT
  err : Option Error
  deriving DecidableEq, Repr

/-- The data calls are `Get`, `Set` and `Del`. -/
def Call.isData {KT : Type} (c : Call KT) : Bool :=
  match c.method with
  | Method.Get => true
  | Method.Set => true
  | Method.Del => true
  | Method.Lock => false
  | Method.Unlock => false

/-- The backend `st` with a recorder in front of it: every call that returns is appended to a
log, which the backends of one `CoherencyStorage` share; results and states are those of `st`. -/
def IStorage.recorded {KT VT W : Type} (tier : Tier) (st : IStorage KT VT W) :
    IStorage KT VT (W × List (Call KT)) where
  Get := fun ctx key timeout w =>
    (st.Get ctx key timeout w.1).bind fun r =>
      Outcome.ok (r.1, (r.2, w.2 ++ [⟨tier, Method.Get, key, r.1.2⟩]))
  Set := fun ctx key value timeout w =>
    (st.Set ctx key value timeout w.1).bind fun r =>
      Outcome.ok (r.1, (r.2, w.2 ++ [⟨tier, Method.Set, key, r.1⟩]))
  Del := fun ctx key timeout w =>
    (st.Del ctx key timeout w.1).bind fun r =>
      Outcome.ok (r.1, (r.2, w.2 ++ [⟨tier, Method.Del, key, r.1⟩]))
  Lock := fun ctx key w =>
    (st.Lock ctx key w.1).bind fun w1 =>
      Outcome.ok (w1, w.2 ++ [⟨tier, Method.Lock, key, none⟩])
  Unlock := fun ctx key w =>
    (st.Unlock ctx key w.1).bind fun w1 =>
      Outcome.ok (w1, w.2 ++ [⟨tier, Method.Unlock, key, none⟩])
  Timeout := fun w => st.Timeout w.1

/-- The `CoherencyStorage` over `cache` and `source` with a recorder in front of each. -/
def Recorded {KT VT W : Type} (cache source : IStorage KT VT W) :
    CoherencyStorage KT VT (W × List (Call KT)) :=
  NewCoherencyStorage (cache.recorded Tier.cache) (source.recorded Tier.source)

/-- What the log of one operation looks like when errors stop it: whenever a data call in the
log returned an error, no data call comes after it in the log, and the error is the result of
the operation. -/
def StopsAtFirstError {KT : Type} (log : List (Call KT)) (result : Option Error) : Prop :=
  ∀ (before : List (Call KT)) (call : Call KT) (after : List (Call KT)),
    log = before ++ call :: after → call.isData = true → ∀ e, call.err = some e →
      (∀ later ∈ after, later.isData = false) ∧ result = some e

/-- The effect of one recorded call on the list of locks that are held: `Lock` adds the lock of
that backend for that key, `Unlock` takes it away, a data call changes nothing. -/
def Call.onHeld {KT : Type} [DecidableEq KT] (held : List (Tier × KT)) (c : Call KT) :
    List (Tier × KT) :=
  match c.method with
  | Method.Lock => (c.tier, c.key) :: held
  | Method.Unlock => held.erase (c.tier, c.key)
  | Method.Get => held
  | Method.Set => held
  | Method.Del => held

/-- The locks that are held after the calls of a log, starting with no lock held. -/
def heldLocks {KT : Type} [DecidableEq KT] (log : List (Call KT)) : List (Tier × KT) :=
  log.foldl Call.onHeld []

/-! ## Concurrent calls

Calls that run at the same time take their backend calls in turns: each call of a backend
method is one step (the methods of `sync.Map` and `sync.Mutex` are atomic), and a run is the
list of the calls that take the next step, in order.  `SetStep` and `GetStep` are
`CoherencyStorage.Set` and `CoherencyStorage.Get` cut at their backend calls; `SetRun` and
`GetRun` put the steps of one call back together. -/

/-- The backend call that a `CoherencyStorage.Set` makes next; `err` is the error that the
write before the `Unlock` returned and that the closure is about to return. -/
inductive SetPc where
  | sourceLock
  | sourceSet
  | sourceUnlock (err : Option Error)
  | cacheLock
  | cacheSet
  | cacheUnlock (err : Option Error)
  | returned (err : Option Error)
  deriving DecidableEq, Repr

/-- Go `CoherencyStorage.Set`, one backend call at a time.  A call that has returned has
nothing left to do. -/
def CoherencyStorage.SetStep {KT VT W : Type} (c : CoherencyStorage KT VT W) (ctx : Context)
    (key : KT) (value : Option VT) (timeout : Duration) (pc : SetPc) (w : W) :
    Outcome (SetPc × W) :=
  let subCtx := ctx.WithTimeout timeout
  match pc with
  | SetPc.sourceLock =>
    (c.source.Lock (subCtx 0) key w).bind fun w1 => Outcome.ok (SetPc.sourceSet, w1)
  | SetPc.sourceSet =>
    (c.source.Set (subCtx 1) key value (c.source.Timeout w) w).bind fun r =>
      Outcome.ok (SetPc.sourceUnlock r.1, r.2)
  | SetPc.sourceUnlock err =>
    (c.source.Unlock (subCtx 2) key w).bind fun w1 =>
      if err.isSome then Outcome.ok (SetPc.returned err, w1)
      else Outcome.ok (SetPc.cacheLock, w1)
  | SetPc.cacheLock =>
    (c.cache.Lock (subCtx 3) key w).bind fun w1 => Outcome.ok (SetPc.cacheSet, w1)
  | SetPc.cacheSet =>
    (c.cache.Set (subCtx 4) key value (c.cache.Timeout w) w).bind fun r =>
      Outcome.ok (SetPc.cacheUnlock r.1, r.2)
  | SetPc.cacheUnlock err =>
    (c.cache.Unlock (subCtx 5) key w).bind fun w1 => Outcome.ok (SetPc.returned err, w1)
  | SetPc.returned err => Outcome.ok (SetPc.returned err, w)

/-- The next `n` steps of one `Set`, with no other call in between. -/
def CoherencyStorage.SetRun {KT VT W : Type} (c : CoherencyStorage KT VT W) (ctx : Context)
    (key : KT) (value : Option VT) (timeout : Duration) : Nat → SetPc → W → Outcome (SetPc × W)
  | 0, pc, w => Outcome.ok (pc, w)
  | n + 1, pc, w =>
    (c.SetStep ctx key value timeout pc w).bind fun r =>
      CoherencyStorage.SetRun c ctx key value timeout n r.1 r.2

/-- The backend call that a `CoherencyStorage.Get` makes next; `sourceValue` is what the second
read of the source returned, `result` is what the call is about to return. -/
inductive GetPc (VT : Type) where
  | cacheGet
  | cacheLock
  | sourceGet
  | sourceGetAgain
  | cacheSet (sourceValue : Option VT)
  | cacheUnlock (result : Option VT × Option Error)
  | returned (result : Option VT × Option Error)
  deriving DecidableEq, Repr

/-- Go `CoherencyStorage.Get`, one backend call at a time.  A call that has returned has
nothing left to do. -/
def CoherencyStorage.GetStep {KT VT W : Type} (c : CoherencyStorage KT VT W) (ctx : Context)
    (key : KT) (timeout : Duration) (pc : GetPc VT) (w : W) : Outcome (GetPc VT × W) :=
  let subCtx := ctx.WithTimeout timeout
  match pc with
  | GetPc.cacheGet =>
    (c.cache.Get (subCtx 0) key (c.cache.Timeout w) w).bind fun r =>
      if r.1.2.isSome || r.1.1.isSome then Outcome.ok (GetPc.returned r.1, r.2)
      else Outcome.ok (GetPc.cacheLock, r.2)
  | GetPc.cacheLock =>
    (c.cache.Lock (subCtx 1) key w).bind fun w1 => Outcome.ok (GetPc.sourceGet, w1)
  | GetPc.sourceGet =>
    (c.source.Get (subCtx 2) key (c.cache.Timeout w) w).bind fun r =>
      if r.1.2.isSome || r.1.1.isSome then Outcome.ok (GetPc.cacheUnlock r.1, r.2)
      else Outcome.ok (GetPc.sourceGetAgain, r.2)
  | GetPc.sourceGetAgain =>
    (c.source.Get (subCtx 3) key (c.cache.Timeout w) w).bind fun r =>
      if r.1.2.isSome then Outcome.ok (GetPc.cacheUnlock (none, r.1.2), r.2)
      else Outcome.ok (GetPc.cacheSet r.1.1, r.2)
  | GetPc.cacheSet sourceValue =>
    (c.cache.Set (subCtx 4) key sourceValue (c.cache.Timeout w) w).bind fun r =>
      if r.1.isSome then Outcome.ok (GetPc.cacheUnlock (none, r.1), r.2)
      else Outcome.ok (GetPc.cacheUnlock (sourceValue, none), r.2)
  | GetPc.cacheUnlock result =>
    (c.cache.Unlock (subCtx 5) key w).bind fun w1 => Outcome.ok (GetPc.returned result, w1)
  | GetPc.returned result => Outcome.ok (GetPc.returned result, w)

/-- The next `n` steps of one `Get`, with no other call in between. -/
def CoherencyStorage.GetRun {KT VT W : Type} (c : CoherencyStorage KT VT W) (ctx : Context)
    (key : KT) (timeout : Duration) : Nat → GetPc VT → W → Outcome (GetPc VT × W)
  | 0, pc, w => Outcome.ok (pc, w)
  | n + 1, pc, w =>
    (c.GetStep ctx key timeout pc w).bind fun r =>
      CoherencyStorage.GetRun c ctx key timeout n r.1 r.2

/-- The calls that run at the same time, numbered from 0: the world they share and how far
each of them has got. -/
structure Concurrent (Pc W : Type) where
  world : W
  pcs : Nat → Pc

/-- The call `i` takes its next step.  A call that waits for a mutex cannot take a step, so there
is no such run (`none`); the same when the runtime stops the process. -/
def Concurrent.step {Pc W : Type} (stepOf : Nat → Pc → W → Outcome (Pc × W)) (i : Nat)
    (cfg : Concurrent Pc W) : Option (Concurrent Pc W) :=
  match stepOf i (cfg.pcs i) cfg.world with
  | Outcome.ok r => some { world := r.2, pcs := Function.update cfg.pcs i r.1 }
  | Outcome.blocked => none
  | Outcome.fatal => none

/-- A run: the calls that take the next step, in order (an interleaving of the steps of the
calls). -/
def Concurrent.run {Pc W : Type} (stepOf : Nat → Pc → W → Outcome (Pc × W)) :
    List Nat → Concurrent Pc W → Option (Concurrent Pc W)
  | [], cfg => some cfg
  | i :: rest, cfg =>
    match Concurrent.step stepOf i cfg with
    | some cfg1 => Concurrent.run stepOf rest cfg1
    | none => none

/-- The arguments of one `Set` call. -/
structure SetCall (VT : Type) where
  ctx : Context
  value : Option VT
  timeout : Duration

/-- The arguments of one `Get` call. -/
structure GetCall where
  ctx : Context
  timeout : Duration

/-- One `Get` of the same key after the other on the outermost store of a hierarchy, each with
a signal and a timeout of its own and each on the state the one before left: the results in
order, and the last state. -/
def Shape.repeatGet {KT VT : Type} [DecidableEq KT] (sh : Shape) (key : KT) :
    List GetCall → sh.World KT VT → Outcome (List (Option VT × Option Error) × sh.World KT VT)
  | [], w => Outcome.ok ([], w)
  | call :: rest, w =>
    ((Shape.storage KT VT sh).Get call.ctx key call.timeout w).bind fun r =>
      (Shape.repeatGet sh key rest r.2).bind fun rs =>
        Outcome.ok (r.1 :: rs.1, rs.2)

/-- A `Get` call holds the lock of the cache from the return of `c.cache.Lock` to the return of
the deferred `c.cache.Unlock`; the write that populates the cache, `cacheSet`, is in between. -/
def GetPc.holdsLock {VT : Type} : GetPc VT → Bool
  | GetPc.cacheGet => false
  | GetPc.cacheLock => false
  | GetPc.sourceGet => true
  | GetPc.sourceGetAgain => true
  | GetPc.cacheSet _ => true
  | GetPc.cacheUnlock _ => true
  | GetPc.returned _ => false

/-- A `Set` call is past its write to the cache. -/
def SetPc.wroteCache : SetPc → Bool
  | SetPc.cacheUnlock _ => true
  | SetPc.returned none => true
  | _ => false

/-! ## `block_call_with_timeout.go`

`BlockCallWithTimeout` runs `f` on a goroutine of its own and waits in a `select` for the
first of two events.  The two goroutines and the signal move independently, so the function is
given as a step function over the events that can happen, and a run is a list of events. -/

/-- What the goroutine that runs `f` has got to: `f` is still running; `f` has returned `r` and
the goroutine is at its `select`; it has sent `r` to `resultChan`; it has seen
`timeoutCtx.Done()` instead and dropped `r`. -/
inductive WorkerPc (RT : Type) where
  | running
  | selecting (r : Option RT × Option Error)
  | sent
  | abandoned
  deriving DecidableEq, Repr

/-- The case of the caller's `select` that was taken: `r := <-resultChan`, the completion of the
operation, or `<-timeoutCtx.Done()`. -/
inductive Race where
  | completion
  | done
  deriving DecidableEq, Repr

/-- What the caller has got to: it waits in its `select`, or it has returned `result` through
the case `taken`. -/
inductive CallerPc (RT : Type) where
  | waiting
  | returned (taken : Race) (result : Option RT × Option Error)
  deriving DecidableEq, Repr

/-- The state of one call of `BlockCallWithTimeout`: the two goroutines, `resultChan` (a
channel with room for one value) and `timeoutCtx`. -/
structure BlockCall (RT : Type) where
  worker : WorkerPc RT
  resultChan : Option (Option RT × Option Error)
  timeoutCtx : Context
  caller : CallerPc RT

/-- The events of a call: `f` returns; the worker's `select` takes the send; the worker's
`select` takes `Done`; `timeoutCtx` is done with error `e` (its timer, the ambient signal, or
the deferred `cancel()`); the caller's `select` takes the receive; the caller's `select` takes
`Done`. -/
inductive BlockEvent where
  | finish
  | send
  | abandon
  | fire (e : Error)
  | receive
  | timeout
  deriving DecidableEq, Repr

/-- Go `BlockCallWithTimeout`, up to the two `select`s: `timeoutCtx` is derived from `ctx` and
is in the state in which the first look finds it (a timeout that elapses later is the event
`fire`), `resultChan` is empty, the goroutine runs `f`, the caller waits. -/
def BlockCallWithTimeout.start (RT : Type) (ctx : Context) (timeout : Duration) : BlockCall RT :=
  { worker := WorkerPc.running, resultChan := none, timeoutCtx := ctx.WithTimeout timeout 0,
    caller := CallerPc.waiting }

/-- Go `BlockCallWithTimeout`, one event.  The operation `f` is given by what it does when
called: it returns a result and an error, or it never returns.  An event that cannot happen in
the state gives `none`. -/
def BlockCallWithTimeout.step {RT : Type} (f : Outcome (Option RT × Option Error))
    (ev : BlockEvent) (st : BlockCall RT) : Option (BlockCall RT) :=
  match ev with
  | BlockEvent.finish =>
    match st.worker, f with
    | WorkerPc.running, Outcome.ok r => some { st with worker := WorkerPc.selecting r }
    | _, _ => none
  | BlockEvent.send =>
    match st.worker, st.resultChan with
    | WorkerPc.selecting r, none => some { st with worker := WorkerPc.sent, resultChan := some r }
    | _, _ => none
  | BlockEvent.abandon =>
    match st.worker, st.timeoutCtx.err with
    | WorkerPc.selecting _, some _ => some { st with worker := WorkerPc.abandoned }
    | _, _ => none
  | BlockEvent.fire e =>
    match st.timeoutCtx.err with
    | none => some { st with timeoutCtx := { st.timeoutCtx with err := some e } }
    | some _ => none
  | BlockEvent.receive =>
    match st.caller, st.resultChan with
    | CallerPc.waiting, some r =>
      some { st with resultChan := none, caller := CallerPc.returned Race.completion r }
    | _, _ => none
  | BlockEvent.timeout =>
    match st.caller, st.timeoutCtx.err with
    | CallerPc.waiting, some e =>
      if e.Is Error.DeadlineExceeded then
        some { st with caller :=
          CallerPc.returned Race.done (none, some Error.DeadlineExceeded) }
      else
        some { st with caller := CallerPc.returned Race.done (none, some e) }
    | _, _ => none

/-- A run of `BlockCallWithTimeout`: the events in the order in which they happen. -/
def BlockCallWithTimeout.run {RT : Type} (f : Outcome (Option RT × Option Error)) :
    List BlockEvent → BlockCall RT → Option (BlockCall RT)
  | [], st => some st
  | ev :: rest, st =>
    match BlockCallWithTimeout.step f ev st with
    | some st1 => BlockCallWithTimeout.run f rest st1
    | none => none

/-- No mutex of the lock table is held. -/
def BaseStorage.noLockHeld {KT : Type} (b : BaseStorage KT) : Prop :=
  ∀ k, b.lockMap k ≠ some true

/-- No mutex is held in any of the three lock tables of a `CoherencyStorage` over two
`MemoryStorage`s: its own, the cache's and the source's. -/
def CoherencyState.noLockHeld {KT VT : Type}
    (s : CoherencyState KT (MemoryStorage KT VT × MemoryStorage KT VT)) : Prop :=
  s.toBaseStorage.noLockHeld ∧ s.world.1.toBaseStorage.noLockHeld ∧
    s.world.2.toBaseStorage.noLockHeld

/-! ## The scenarios of `coherency_storage_test.go` -/

/-- The clock of the scenarios: every look is taken one millisecond after the context that is
looked at was made. -/
def Scenario.clock : List Nat → Duration := fun _ => Millisecond

/-- The signal of the scenarios, `ctx := context.Background()`, under `Scenario.clock`. -/
def Scenario.ctx : Context := Context.Background Scenario.clock

/-- What a call returned, when it returned. -/
def Outcome.returned {α : Type} : Outcome α → Option α
  | Outcome.ok a => some a
  | Outcome.blocked => none
  | Outcome.fatal => none

/-- From `TestNestedCoherencyStorage`, "L1 Set and Consistency": the three levels after
`L1Cache.Set(ctx, "l1_set_key", "l1_set_value", 100ms)` on freshly constructed stores. -/
def Scenario.afterL1Set : (Shape.chain 2).World String String :=
  ((((Shape.storage String String (Shape.chain 2)).Set Scenario.ctx "l1_set_key"
    (some "l1_set_value") (Millisecond * 100) (Shape.fresh String String (Shape.chain 2))).returned).map
      fun r => r.2).getD (Shape.fresh String String (Shape.chain 2))

/-- From `TestNestedCoherencyStorage`, "Multi-level Cache Penetration": the three levels after
`L3Storage.Set(ctx, "nested_key", "nested_value", 100ms)` on freshly constructed stores. -/
def Scenario.afterL3Set : (Shape.chain 2).World String String :=
  NewCoherencyState (NewMemoryStorage String String,
    NewCoherencyState (NewMemoryStorage String String,
      ((NewMemoryStorage String String).Set Scenario.ctx "nested_key"
        (some "nested_value") (Millisecond * 100)).2))

/-- From `TestCacheMissScenario`: cache and source after
`cache.source.Set(ctx, "cache_miss_key", "cache_miss_value", 100ms)` on freshly constructed
stores. -/
def Scenario.afterSourceSet :
    CoherencyState String (MemoryStorage String String × MemoryStorage String String) :=
  NewCoherencyState (NewMemoryStorage String String,
    ((NewMemoryStorage String String).Set Scenario.ctx "cache_miss_key"
      (some "cache_miss_value") (Millisecond * 100)).2)

/-- A freshly constructed `CoherencyStorage` over two freshly constructed `MemoryStorage`s, with
an empty log for the recorders. -/
def Scenario.freshRecorded :
    CoherencyState String
      ((MemoryStorage String String × MemoryStorage String String) × List (Call String)) :=
  NewCoherencyState ((NewMemoryStorage String String, NewMemoryStorage String String), [])

/-- As `TestCacheMissScenario`, on freshly constructed stores that were never written, with
recorders: the state after `Get(ctx, "k", 100ms)`. -/
def Scenario.afterRecordedGet :
    CoherencyState String
      ((MemoryStorage String String × MemoryStorage String String) × List (Call String)) :=
  ((((Recorded (MemoryStorage.toIStorage String String).onFst
      (MemoryStorage.toIStorage String String).onSnd).Get Scenario.ctx "k"
      (Millisecond * 100) Scenario.freshRecorded).returned).map fun r => r.2).getD
    Scenario.freshRecorded

/-- A signal whose deadline has passed before the call. -/
def Scenario.expired : Context := { Scenario.ctx with err := some Error.DeadlineExceeded }

/-- A `CoherencyStorage` over two freshly constructed `MemoryStorage`s that both hold
`"k" ↦ "v"`, no lock held. -/
def Scenario.bothHold :
    CoherencyState String (MemoryStorage String String × MemoryStorage String String) :=
  NewCoherencyState
    (((NewMemoryStorage String String).Set Scenario.ctx "k" (some "v")
        (Millisecond * 100)).2,
     ((NewMemoryStorage String String).Set Scenario.ctx "k" (some "v")
        (Millisecond * 100)).2)

/-- A signal that was cancelled before the call. -/
def Scenario.cancelled : Context := { Scenario.ctx with err := some Error.Canceled }

/-! ## Chains of cache links -/

/-- Any implementation of `IStorage`, with the type of its state. -/
structure Backend (KT VT : Type) where
  State : Type
  storage : IStorage KT VT State

/-- A hierarchy given by its sources, outermost first: the cache of every `CoherencyStorage` is
the next level in, the innermost cache is a `MemoryStorage`, and each level has the source
listed for it, which may be any backend. -/
def CacheLinks {KT VT : Type} [DecidableEq KT] : List (Backend KT VT) → Backend KT VT
  | [] => ⟨MemoryStorage KT VT, MemoryStorage.toIStorage KT VT⟩
  | source :: inner =>
    ⟨CoherencyState KT ((CacheLinks inner).State × source.State),
      Coherent (CacheLinks inner).storage source.storage⟩

/-- The state of `Scenario.freshRecorded` after `Set(ctx, "k", "v", 100ms)` with a signal that
has expired. -/
def Scenario.afterExpiredSet :
    CoherencyState String
      ((MemoryStorage String String × MemoryStorage String String) × List (Call String)) :=
  ((((Recorded (MemoryStorage.toIStorage String String).onFst
      (MemoryStorage.toIStorage String String).onSnd).Set Scenario.expired "k" (some "v")
      (Millisecond * 100) Scenario.freshRecorded).returned).map fun r => r.2).getD
    Scenario.freshRecorded

/-- What holds of every state of a run of `BlockCallWithTimeout`: a result in the hands of the
worker, in `resultChan` or returned through the receive is the result of `f`; a result
returned through `Done` is nil with the error made from `timeoutCtx.Err()`. -/
def BlockCall.Consistent {RT : Type} (f : Outcome (Option RT × Option Error))
    (st : BlockCall RT) : Prop :=
  (∀ r, st.worker = WorkerPc.selecting r → f = Outcome.ok r) ∧
  (∀ r, st.resultChan = some r → f = Outcome.ok r) ∧
  (∀ x, st.caller = CallerPc.returned Race.completion x → f = Outcome.ok x) ∧
  (∀ x, st.caller = CallerPc.returned Race.done x →
    ∃ e, st.timeoutCtx.err = some e ∧
      x = (none, some (if e.Is Error.DeadlineExceeded = true then Error.DeadlineExceeded else e)))

/-- What holds of every state of a run of concurrent `Set` calls `0 … n-1` on a
`CoherencyStorage` over two `MemoryStorage`s, whatever their signals: once one of the calls is
past its write to the cache, the cache holds under `key` the value of one of the calls. -/
def SetsConsistent {KT VT : Type} (n : Nat) (key : KT) (calls : Nat → SetCall VT)
    (cfg : Concurrent SetPc (MemoryStorage KT VT × MemoryStorage KT VT)) : Prop :=
  (∃ i, i < n ∧ (cfg.pcs i).wroteCache = true) →
    ∃ j, j < n ∧ cfg.world.1.cache key = some (calls j).value

/-- What holds of every state of a run of concurrent `Set` calls `0 … n-1` whose signals are
live for the whole call: no call carries an error. -/
def SetsErrorFree (n : Nat) {W : Type} (cfg : Concurrent SetPc W) : Prop :=
  ∀ i, i < n → ∀ e, (cfg.pcs i = SetPc.sourceUnlock e ∨ cfg.pcs i = SetPc.cacheUnlock e ∨
    cfg.pcs i = SetPc.returned e) → e = none

/-- What holds of every state of a run of concurrent `Get` calls on a `CoherencyStorage` whose
cache and source are separate objects, `held` being the states of the cache in which its mutex
for the key is held: at most one call holds the lock of the cache for the key, and when one
does the mutex is held. -/
def GetsExclusive {VT A B : Type} (held : A → Prop)
    (cfg : Concurrent (GetPc VT) (A × B)) : Prop :=
  (∀ i j, (cfg.pcs i).holdsLock = true → (cfg.pcs j).holdsLock = true → i = j) ∧
  ((∃ i, (cfg.pcs i).holdsLock = true) → held cfg.world.1)

/-- From `TestConcurrentOperations`, "Same Key Concurrent Write", with two writers: writer `i`
calls `Set(ctx, "same_key", i*100, 100ms)`. -/
def Scenario.writers (i : Nat) : SetCall Nat :=
  { ctx := Scenario.ctx, value := some (i * 100), timeout := Millisecond * 100 }

/-- One interleaving of the two writers: writer 0 writes the source, writer 1 writes the source
and the cache, writer 0 writes the cache. -/
def Scenario.interleaving : List Nat := [0, 0, 0, 1, 1, 1, 1, 1, 1, 0, 0, 0]

/-- The two writers before their first step, on freshly constructed stores. -/
def Scenario.writersStart :
    Concurrent SetPc (MemoryStorage String Nat × MemoryStorage String Nat) :=
  { world := (NewMemoryStorage String Nat, NewMemoryStorage String Nat),
    pcs := fun _ => SetPc.sourceLock }

/-- The state after `Scenario.interleaving`. -/
def Scenario.writersDone :
    Concurrent SetPc (MemoryStorage String Nat × MemoryStorage String Nat) :=
  (Concurrent.run (fun k => (NewCoherencyStorage (MemoryStorage.toIStorage String Nat).onFst
      (MemoryStorage.toIStorage String Nat).onSnd).SetStep (Scenario.writers k).ctx "same_key"
      (Scenario.writers k).value (Scenario.writers k).timeout) Scenario.interleaving
    Scenario.writersStart).getD Scenario.writersStart

/-- Two concurrent `Get(ctx, "k", 100ms)` calls, as in `TestConcurrentOperations`. -/
def Scenario.readers (_i : Nat) : GetCall :=
  { ctx := Scenario.ctx, timeout := Millisecond * 100 }

/-- The readers before their first step, on freshly constructed stores. -/
def Scenario.readersStart :
    Concurrent (GetPc String) (MemoryStorage String String × MemoryStorage String String) :=
  { world := (NewMemoryStorage String String, NewMemoryStorage String String),
    pcs := fun _ => GetPc.cacheGet }

/-- The state after reader 0 has missed the cache and taken the lock, and reader 1 has missed
the cache. -/
def Scenario.readersMid :
    Concurrent (GetPc String) (MemoryStorage String String × MemoryStorage String String) :=
  (Concurrent.run (fun k => (NewCoherencyStorage (MemoryStorage.toIStorage String String).onFst
      (MemoryStorage.toIStorage String String).onSnd).GetStep (Scenario.readers k).ctx "k"
      (Scenario.readers k).timeout) [0, 0, 1] Scenario.readersStart).getD Scenario.readersStart

/-- A backend that stores what a `MemoryStorage` stores and whose `Lock` and `Unlock` return at
once: it has the methods of `IStorage`, and its `Lock` keeps nobody out. -/
def Scenario.lockless : IStorage String String (MemoryStorage String String) :=
  { MemoryStorage.toIStorage String String with
    Lock := fun _ _ m => Outcome.ok m
    Unlock := fun _ _ m => Outcome.ok m }

/-- Two readers on a `CoherencyStorage` whose cache is `Scenario.lockless`, after each of them
has missed the cache, passed `c.cache.Lock` and read the source twice. -/
def Scenario.readersBoth :
    Concurrent (GetPc String) (MemoryStorage String String × MemoryStorage String String) :=
  (Concurrent.run (fun k => (NewCoherencyStorage Scenario.lockless.onFst
      (MemoryStorage.toIStorage String String).onSnd).GetStep (Scenario.readers k).ctx "k"
      (Scenario.readers k).timeout) [0, 0, 0, 0, 1, 1, 1, 1] Scenario.readersStart).getD
    Scenario.readersStart

/-- A freshly constructed `CoherencyStorage` over two freshly constructed `MemoryStorage`s. -/
def Scenario.fresh :
    CoherencyState String (MemoryStorage String String × MemoryStorage String String) :=
  NewCoherencyState (NewMemoryStorage String String, NewMemoryStorage String String)

/-- The state of `Scenario.fresh` after `Get(ctx, "k", 100ms)`, a miss in cache and source. -/
def Scenario.afterMiss :
    CoherencyState String (MemoryStorage String String × MemoryStorage String String) :=
  ((((Coherent (MemoryStorage.toIStorage String String)
      (MemoryStorage.toIStorage String String)).Get Scenario.ctx "k"
      (Millisecond * 100) Scenario.fresh).returned).map fun r => r.2).getD Scenario.fresh

/-! # Lemmas -/

/-! ## Sequencing -/

@[simp]
theorem Outcome.bind_ok {α β : Type} (a : α) (f : α → Outcome β) :
    (Outcome.ok a).bind f = f a := rfl

theorem Outcome.bind_eq_ok {α β : Type} (x : Outcome α) (f : α → Outcome β) (b : β) :
    x.bind f = Outcome.ok b ↔ ∃ a, x = Outcome.ok a ∧ f a = Outcome.ok b := by
  cases x <;> simp [Outcome.bind]

/-! ## The paths through `CoherencyStorage.Get`, `Set` and `Del` -/

section Paths

variable {KT VT W : Type} (c : CoherencyStorage KT VT W) (ctx : Context) (key : KT)
  (timeout : Duration) (s : CoherencyState KT W)

/-- The first return of `Get`: the cache answered with a value or with an error. -/
theorem CoherencyStorage.Get_of_cache (v : Option VT) (e : Option Error) (w1 : W)
    (h1 : c.cache.Get (ctx.WithTimeout timeout 0) key (c.cache.Timeout s.world) s.world
      = Outcome.ok ((v, e), w1))
    (hv : (e.isSome || v.isSome) = true) :
    c.Get ctx key timeout s = Outcome.ok ((v, e), { s with world := w1 }) := by
  simp only [Bool.or_eq_true] at hv
  simp [CoherencyStorage.Get, h1, hv]

/-- The second return of `Get`: the cache missed, and the first read of the source answered
with a value or with an error. -/
theorem CoherencyStorage.Get_of_source (v : Option VT) (e : Option Error) (w1 w2 w3 w4 : W)
    (h1 : c.cache.Get (ctx.WithTimeout timeout 0) key (c.cache.Timeout s.world) s.world
      = Outcome.ok ((none, none), w1))
    (h2 : c.cache.Lock (ctx.WithTimeout timeout 1) key w1 = Outcome.ok w2)
    (h3 : c.source.Get (ctx.WithTimeout timeout 2) key (c.cache.Timeout w2) w2
      = Outcome.ok ((v, e), w3))
    (hv : (e.isSome || v.isSome) = true)
    (h4 : c.cache.Unlock (ctx.WithTimeout timeout 5) key w3 = Outcome.ok w4) :
    c.Get ctx key timeout s = Outcome.ok ((v, e), { s with world := w4 }) := by
  simp only [Bool.or_eq_true] at hv
  simp [CoherencyStorage.Get, h1, h2, h3, hv, h4]

/-- The last return of `Get`: the cache missed, the first read of the source found nothing,
the second read and the write to the cache returned no error. -/
theorem CoherencyStorage.Get_of_write (v : Option VT) (w1 w2 w3 w4 w5 w6 : W)
    (h1 : c.cache.Get (ctx.WithTimeout timeout 0) key (c.cache.Timeout s.world) s.world
      = Outcome.ok ((none, none), w1))
    (h2 : c.cache.Lock (ctx.WithTimeout timeout 1) key w1 = Outcome.ok w2)
    (h3 : c.source.Get (ctx.WithTimeout timeout 2) key (c.cache.Timeout w2) w2
      = Outcome.ok ((none, none), w3))
    (h4 : c.source.Get (ctx.WithTimeout timeout 3) key (c.cache.Timeout w3) w3
      = Outcome.ok ((v, none), w4))
    (h5 : c.cache.Set (ctx.WithTimeout timeout 4) key v (c.cache.Timeout w4) w4
      = Outcome.ok (none, w5))
    (h6 : c.cache.Unlock (ctx.WithTimeout timeout 5) key w5 = Outcome.ok w6) :
    c.Get ctx key timeout s = Outcome.ok ((v, none), { s with world := w6 }) := by
  simp [CoherencyStorage.Get, h1, h2, h3, h4, h5, h6]

/-- The successful path of `Set`. -/
theorem CoherencyStorage.Set_of_ok (value : Option VT) (w1 w2 w3 w4 w5 w6 : W)
    (h1 : c.source.Lock (ctx.WithTimeout timeout 0) key s.world = Outcome.ok w1)
    (h2 : c.source.Set (ctx.WithTimeout timeout 1) key value (c.source.Timeout w1) w1
      = Outcome.ok (none, w2))
    (h3 : c.source.Unlock (ctx.WithTimeout timeout 2) key w2 = Outcome.ok w3)
    (h4 : c.cache.Lock (ctx.WithTimeout timeout 3) key w3 = Outcome.ok w4)
    (h5 : c.cache.Set (ctx.WithTimeout timeout 4) key value (c.cache.Timeout w4) w4
      = Outcome.ok (none, w5))
    (h6 : c.cache.Unlock (ctx.WithTimeout timeout 5) key w5 = Outcome.ok w6) :
    c.Set ctx key value timeout s = Outcome.ok (none, { s with world := w6 }) := by
  simp [CoherencyStorage.Set, h1, h2, h3, h4, h5, h6]

/-- The successful path of `Del`. -/
theorem CoherencyStorage.Del_of_ok (w1 w2 w3 w4 w5 w6 : W)
    (h1 : c.source.Lock (ctx.WithTimeout timeout 0) key s.world = Outcome.ok w1)
    (h2 : c.source.Del (ctx.WithTimeout timeout 1) key (c.source.Timeout w1) w1
      = Outcome.ok (none, w2))
    (h3 : c.source.Unlock (ctx.WithTimeout timeout 2) key w2 = Outcome.ok w3)
    (h4 : c.cache.Lock (ctx.WithTimeout timeout 3) key w3 = Outcome.ok w4)
    (h5 : c.cache.Del (ctx.WithTimeout timeout 4) key (c.cache.Timeout w4) w4
      = Outcome.ok (none, w5))
    (h6 : c.cache.Unlock (ctx.WithTimeout timeout 5) key w5 = Outcome.ok w6) :
    c.Del ctx key timeout s = Outcome.ok (none, { s with world := w6 }) := by
  simp [CoherencyStorage.Del, h1, h2, h3, h4, h5, h6]

/-- The failing path of `Del`: the source reported an error, the cache is not called. -/
theorem CoherencyStorage.Del_of_source_error (e : Error) (w1 w2 w3 : W)
    (h1 : c.source.Lock (ctx.WithTimeout timeout 0) key s.world = Outcome.ok w1)
    (h2 : c.source.Del (ctx.WithTimeout timeout 1) key (c.source.Timeout w1) w1
      = Outcome.ok (some e, w2))
    (h3 : c.source.Unlock (ctx.WithTimeout timeout 2) key w2 = Outcome.ok w3) :
    c.Del ctx key timeout s = Outcome.ok (some e, { s with world := w3 }) := by
  simp [CoherencyStorage.Del, h1, h2, h3]

/-- The failing path of `Set`: the source reported an error, the cache is not called. -/
theorem CoherencyStorage.Set_of_source_error (value : Option VT) (e : Error) (w1 w2 w3 : W)
    (h1 : c.source.Lock (ctx.WithTimeout timeout 0) key s.world = Outcome.ok w1)
    (h2 : c.source.Set (ctx.WithTimeout timeout 1) key value (c.source.Timeout w1) w1
      = Outcome.ok (some e, w2))
    (h3 : c.source.Unlock (ctx.WithTimeout timeout 2) key w2 = Outcome.ok w3) :
    c.Set ctx key value timeout s = Outcome.ok (some e, { s with world := w3 }) := by
  simp [CoherencyStorage.Set, h1, h2, h3]

/-- A `Set` that returned no error went through both writes. -/
theorem CoherencyStorage.Set_inv {value : Option VT} {s1 : CoherencyState KT W}
    (h : c.Set ctx key value timeout s = Outcome.ok (none, s1)) :
    ∃ w1 w2 w3 w4 w5,
      c.source.Lock (ctx.WithTimeout timeout 0) key s.world = Outcome.ok w1 ∧
      c.source.Set (ctx.WithTimeout timeout 1) key value (c.source.Timeout w1) w1
        = Outcome.ok (none, w2) ∧
      c.source.Unlock (ctx.WithTimeout timeout 2) key w2 = Outcome.ok w3 ∧
      c.cache.Lock (ctx.WithTimeout timeout 3) key w3 = Outcome.ok w4 ∧
      c.cache.Set (ctx.WithTimeout timeout 4) key value (c.cache.Timeout w4) w4
        = Outcome.ok (none, w5) ∧
      c.cache.Unlock (ctx.WithTimeout timeout 5) key w5 = Outcome.ok s1.world ∧
      s1.toBaseStorage = s.toBaseStorage := by
  unfold CoherencyStorage.Set at h
  rcases h1 : c.source.Lock (ctx.WithTimeout timeout 0) key s.world with w1 | _ | _ <;>
    simp [h1, Outcome.bind] at h
  rcases h2 : c.source.Set (ctx.WithTimeout timeout 1) key value (c.source.Timeout w1) w1
    with ⟨e2, w2⟩ | _ | _ <;> simp [h2] at h
  rcases h3 : c.source.Unlock (ctx.WithTimeout timeout 2) key w2 with w3 | _ | _ <;>
    simp [h3] at h
  cases e2 <;> simp at h
  rcases h4 : c.cache.Lock (ctx.WithTimeout timeout 3) key w3 with w4 | _ | _ <;>
    simp [h4] at h
  rcases h5 : c.cache.Set (ctx.WithTimeout timeout 4) key value (c.cache.Timeout w4) w4
    with ⟨e5, w5⟩ | _ | _ <;> simp [h5] at h
  rcases h6 : c.cache.Unlock (ctx.WithTimeout timeout 5) key w5 with w6 | _ | _ <;>
    simp [h6] at h
  cases e5 <;> simp at h
  subst h
  exact ⟨w1, w2, w3, w4, w5, rfl, h2, h3, h4, h5, h6, rfl⟩

/-- Every way in which `Set` returns: the source reported an error and the cache was left
alone, or the source was written and the cache's answer is the result. -/
theorem CoherencyStorage.Set_cases {value : Option VT} {r : Option Error}
    {s1 : CoherencyState KT W} (h : c.Set ctx key value timeout s = Outcome.ok (r, s1)) :
    (∃ e w1 w2 w3,
      c.source.Lock (ctx.WithTimeout timeout 0) key s.world = Outcome.ok w1 ∧
      c.source.Set (ctx.WithTimeout timeout 1) key value (c.source.Timeout w1) w1
        = Outcome.ok (some e, w2) ∧
      c.source.Unlock (ctx.WithTimeout timeout 2) key w2 = Outcome.ok w3 ∧
      r = some e ∧ s1 = { s with world := w3 }) ∨
    (∃ w1 w2 w3 w4 w5 w6,
      c.source.Lock (ctx.WithTimeout timeout 0) key s.world = Outcome.ok w1 ∧
      c.source.Set (ctx.WithTimeout timeout 1) key value (c.source.Timeout w1) w1
        = Outcome.ok (none, w2) ∧
      c.source.Unlock (ctx.WithTimeout timeout 2) key w2 = Outcome.ok w3 ∧
      c.cache.Lock (ctx.WithTimeout timeout 3) key w3 = Outcome.ok w4 ∧
      c.cache.Set (ctx.WithTimeout timeout 4) key value (c.cache.Timeout w4) w4
        = Outcome.ok (r, w5) ∧
      c.cache.Unlock (ctx.WithTimeout timeout 5) key w5 = Outcome.ok w6 ∧
      s1 = { s with world := w6 }) := by
  unfold CoherencyStorage.Set at h
  rcases h1 : c.source.Lock (ctx.WithTimeout timeout 0) key s.world with w1 | _ | _ <;>
    simp [h1, Outcome.bind] at h
  rcases h2 : c.source.Set (ctx.WithTimeout timeout 1) key value (c.source.Timeout w1) w1
    with ⟨e2, w2⟩ | _ | _ <;> simp [h2] at h
  rcases h3 : c.source.Unlock (ctx.WithTimeout timeout 2) key w2 with w3 | _ | _ <;>
    simp [h3] at h
  cases e2 with
  | some e =>
    simp at h
    exact Or.inl ⟨e, w1, w2, w3, rfl, h2, h3, h.1.symm, h.2.symm⟩
  | none =>
    simp at h
    rcases h4 : c.cache.Lock (ctx.WithTimeout timeout 3) key w3 with w4 | _ | _ <;>
      simp [h4] at h
    rcases h5 : c.cache.Set (ctx.WithTimeout timeout 4) key value (c.cache.Timeout w4) w4
      with ⟨e5, w5⟩ | _ | _ <;> simp [h5] at h
    rcases h6 : c.cache.Unlock (ctx.WithTimeout timeout 5) key w5 with w6 | _ | _ <;>
      simp [h6] at h
    refine Or.inr ⟨w1, w2, w3, w4, w5, w6, rfl, h2, h3, h4, ?_, h6, ?_⟩
    · cases e5 <;> simp_all
    · cases e5 <;> simp_all

/-- Every way in which `Del` returns: the source reported an error and the cache was left
alone, or the source was deleted from and the cache's answer is the result. -/
theorem CoherencyStorage.Del_cases {r : Option Error}
    {s1 : CoherencyState KT W} (h : c.Del ctx key timeout s = Outcome.ok (r, s1)) :
    (∃ e w1 w2 w3,
      c.source.Lock (ctx.WithTimeout timeout 0) key s.world = Outcome.ok w1 ∧
      c.source.Del (ctx.WithTimeout timeout 1) key (c.source.Timeout w1) w1
        = Outcome.ok (some e, w2) ∧
      c.source.Unlock (ctx.WithTimeout timeout 2) key w2 = Outcome.ok w3 ∧
      r = some e ∧ s1 = { s with world := w3 }) ∨
    (∃ w1 w2 w3 w4 w5 w6,
      c.source.Lock (ctx.WithTimeout timeout 0) key s.world = Outcome.ok w1 ∧
      c.source.Del (ctx.WithTimeout timeout 1) key (c.source.Timeout w1) w1
        = Outcome.ok (none, w2) ∧
      c.source.Unlock (ctx.WithTimeout timeout 2) key w2 = Outcome.ok w3 ∧
      c.cache.Lock (ctx.WithTimeout timeout 3) key w3 = Outcome.ok w4 ∧
      c.cache.Del (ctx.WithTimeout timeout 4) key (c.cache.Timeout w4) w4
        = Outcome.ok (r, w5) ∧
      c.cache.Unlock (ctx.WithTimeout timeout 5) key w5 = Outcome.ok w6 ∧
      s1 = { s with world := w6 }) := by
  unfold CoherencyStorage.Del at h
  rcases h1 : c.source.Lock (ctx.WithTimeout timeout 0) key s.world with w1 | _ | _ <;>
    simp [h1, Outcome.bind] at h
  rcases h2 : c.source.Del (ctx.WithTimeout timeout 1) key (c.source.Timeout w1) w1
    with ⟨e2, w2⟩ | _ | _ <;> simp [h2] at h
  rcases h3 : c.source.Unlock (ctx.WithTimeout timeout 2) key w2 with w3 | _ | _ <;>
    simp [h3] at h
  cases e2 with
  | some e =>
    simp at h
    exact Or.inl ⟨e, w1, w2, w3, rfl, h2, h3, h.1.symm, h.2.symm⟩
  | none =>
    simp at h
    rcases h4 : c.cache.Lock (ctx.WithTimeout timeout 3) key w3 with w4 | _ | _ <;>
      simp [h4] at h
    rcases h5 : c.cache.Del (ctx.WithTimeout timeout 4) key (c.cache.Timeout w4) w4
      with ⟨e5, w5⟩ | _ | _ <;> simp [h5] at h
    rcases h6 : c.cache.Unlock (ctx.WithTimeout timeout 5) key w5 with w6 | _ | _ <;>
      simp [h6] at h
    refine Or.inr ⟨w1, w2, w3, w4, w5, w6, rfl, h2, h3, h4, ?_, h6, ?_⟩
    · cases e5 <;> simp_all
    · cases e5 <;> simp_all

/-- Every way in which `Get` returns.  Either the cache answered with a value or an error; or
it missed, the cache's lock was taken, and then: the first read of the source answered with a
value or an error, or the second read reported an error, or the cache was written and the
result is the error of that write or else the value of the second read.  In each of the
ways through the lock, the cache's `Unlock` is the last call. -/
theorem CoherencyStorage.Get_cases {r : Option VT × Option Error}
    {s1 : CoherencyState KT W} (h : c.Get ctx key timeout s = Outcome.ok (r, s1)) :
    (∃ w1,
      c.cache.Get (ctx.WithTimeout timeout 0) key (c.cache.Timeout s.world) s.world
        = Outcome.ok (r, w1) ∧
      (r.2.isSome = true ∨ r.1.isSome = true) ∧ s1 = { s with world := w1 }) ∨
    (∃ w1 w2,
      c.cache.Get (ctx.WithTimeout timeout 0) key (c.cache.Timeout s.world) s.world
        = Outcome.ok ((none, none), w1) ∧
      c.cache.Lock (ctx.WithTimeout timeout 1) key w1 = Outcome.ok w2 ∧
      ((∃ w3 w4,
          c.source.Get (ctx.WithTimeout timeout 2) key (c.cache.Timeout w2) w2
            = Outcome.ok (r, w3) ∧
          (r.2.isSome = true ∨ r.1.isSome = true) ∧
          c.cache.Unlock (ctx.WithTimeout timeout 5) key w3 = Outcome.ok w4 ∧
          s1 = { s with world := w4 }) ∨
        (∃ w3,
          c.source.Get (ctx.WithTimeout timeout 2) key (c.cache.Timeout w2) w2
            = Outcome.ok ((none, none), w3) ∧
          ((∃ v e w4 w5,
              c.source.Get (ctx.WithTimeout timeout 3) key (c.cache.Timeout w3) w3
                = Outcome.ok ((v, some e), w4) ∧
              c.cache.Unlock (ctx.WithTimeout timeout 5) key w4 = Outcome.ok w5 ∧
              r = (none, some e) ∧ s1 = { s with world := w5 }) ∨
            (∃ v e w4 w5 w6,
              c.source.Get (ctx.WithTimeout timeout 3) key (c.cache.Timeout w3) w3
                = Outcome.ok ((v, none), w4) ∧
              c.cache.Set (ctx.WithTimeout timeout 4) key v (c.cache.Timeout w4) w4
                = Outcome.ok (e, w5) ∧
              c.cache.Unlock (ctx.WithTimeout timeout 5) key w5 = Outcome.ok w6 ∧
              r = (if e.isSome then (none, e) else (v, none)) ∧
              s1 = { s with world := w6 }))))) := by
  unfold CoherencyStorage.Get at h
  rcases h1 : c.cache.Get (ctx.WithTimeout timeout 0) key (c.cache.Timeout s.world) s.world
    with ⟨⟨v1, e1⟩, w1⟩ | _ | _ <;> simp [h1, Outcome.bind] at h
  by_cases hv : e1.isSome = true ∨ v1.isSome = true
  · simp [hv] at h
    refine Or.inl ⟨w1, ?_, ?_, h.2.symm⟩
    · rw [← h.1]
    · rw [← h.1]; exact hv
  · simp [hv] at h
    have hv1 : v1 = none := by cases v1 <;> simp_all
    have he1 : e1 = none := by cases e1 <;> simp_all
    subst hv1 he1
    rcases h2 : c.cache.Lock (ctx.WithTimeout timeout 1) key w1 with w2 | _ | _ <;>
      simp [h2] at h
    refine Or.inr ⟨w1, w2, rfl, h2, ?_⟩
    rcases h3 : c.source.Get (ctx.WithTimeout timeout 2) key (c.cache.Timeout w2) w2
      with ⟨⟨v3, e3⟩, w3⟩ | _ | _ <;> simp [h3] at h
    by_cases hv3 : e3.isSome = true ∨ v3.isSome = true
    · simp [hv3] at h
      rcases h4 : c.cache.Unlock (ctx.WithTimeout timeout 5) key w3 with w4 | _ | _ <;>
        simp [h4] at h
      refine Or.inl ⟨w3, w4, ?_, ?_, h4, h.2.symm⟩
      · rw [← h.1]
      · rw [← h.1]; exact hv3
    · simp [hv3] at h
      have hv3n : v3 = none := by cases v3 <;> simp_all
      have he3n : e3 = none := by cases e3 <;> simp_all
      subst hv3n he3n
      refine Or.inr ⟨w3, rfl, ?_⟩
      rcases h4 : c.source.Get (ctx.WithTimeout timeout 3) key (c.cache.Timeout w3) w3
        with ⟨⟨v4, e4⟩, w4⟩ | _ | _ <;> simp [h4] at h
      cases e4 with
      | some e =>
        simp at h
        rcases h5 : c.cache.Unlock (ctx.WithTimeout timeout 5) key w4 with w5 | _ | _ <;>
          simp [h5] at h
        exact Or.inl ⟨v4, e, w4, w5, rfl, h5, h.1.symm, h.2.symm⟩
      | none =>
        simp at h
        rcases h5 : c.cache.Set (ctx.WithTimeout timeout 4) key v4 (c.cache.Timeout w4) w4
          with ⟨e5, w5⟩ | _ | _ <;> simp [h5] at h
        rcases h6 : c.cache.Unlock (ctx.WithTimeout timeout 5) key w5 with w6 | _ | _
        · refine Or.inr ⟨v4, e5, w4, w5, w6, rfl, h5, h6, ?_, ?_⟩
          · cases e5 <;> simp [h6] at h ⊢ <;> exact h.1.symm
          · cases e5 <;> simp [h6] at h ⊢ <;> exact h.2.symm
        · cases e5 <;> simp [h6] at h
        · cases e5 <;> simp [h6] at h

end Paths


/-! ## Recorded calls -/

section Recording

variable {KT VT W : Type} (st : IStorage KT VT W) (tier : Tier)

theorem IStorage.recorded_Get_inv {ctx : Context} {key : KT} {timeout : Duration}
    {w w1 : W × List (Call KT)} {r : Option VT × Option Error}
    (h : (st.recorded tier).Get ctx key timeout w = Outcome.ok (r, w1)) :
    st.Get ctx key timeout w.1 = Outcome.ok (r, w1.1) ∧
      w1.2 = w.2 ++ [⟨tier, Method.Get, key, r.2⟩] := by
  simp only [IStorage.recorded, Outcome.bind_eq_ok] at h
  obtain ⟨x, hx, h⟩ := h
  cases h
  exact ⟨hx, rfl⟩

theorem IStorage.recorded_Set_inv {ctx : Context} {key : KT} {value : Option VT}
    {timeout : Duration} {w w1 : W × List (Call KT)} {e : Option Error}
    (h : (st.recorded tier).Set ctx key value timeout w = Outcome.ok (e, w1)) :
    st.Set ctx key value timeout w.1 = Outcome.ok (e, w1.1) ∧
      w1.2 = w.2 ++ [⟨tier, Method.Set, key, e⟩] := by
  simp only [IStorage.recorded, Outcome.bind_eq_ok] at h
  obtain ⟨x, hx, h⟩ := h
  cases h
  exact ⟨hx, rfl⟩

theorem IStorage.recorded_Del_inv {ctx : Context} {key : KT}
    {timeout : Duration} {w w1 : W × List (Call KT)} {e : Option Error}
    (h : (st.recorded tier).Del ctx key timeout w = Outcome.ok (e, w1)) :
    st.Del ctx key timeout w.1 = Outcome.ok (e, w1.1) ∧
      w1.2 = w.2 ++ [⟨tier, Method.Del, key, e⟩] := by
  simp only [IStorage.recorded, Outcome.bind_eq_ok] at h
  obtain ⟨x, hx, h⟩ := h
  cases h
  exact ⟨hx, rfl⟩

theorem IStorage.recorded_Lock_inv {ctx : Context} {key : KT} {w w1 : W × List (Call KT)}
    (h : (st.recorded tier).Lock ctx key w = Outcome.ok w1) :
    st.Lock ctx key w.1 = Outcome.ok w1.1 ∧
      w1.2 = w.2 ++ [⟨tier, Method.Lock, key, none⟩] := by
  simp only [IStorage.recorded, Outcome.bind_eq_ok] at h
  obtain ⟨x, hx, h⟩ := h
  cases h
  exact ⟨hx, rfl⟩

theorem IStorage.recorded_Unlock_inv {ctx : Context} {key : KT} {w w1 : W × List (Call KT)}
    (h : (st.recorded tier).Unlock ctx key w = Outcome.ok w1) :
    st.Unlock ctx key w.1 = Outcome.ok w1.1 ∧
      w1.2 = w.2 ++ [⟨tier, Method.Unlock, key, none⟩] := by
  simp only [IStorage.recorded, Outcome.bind_eq_ok] at h
  obtain ⟨x, hx, h⟩ := h
  cases h
  exact ⟨hx, rfl⟩

end Recording

section Traces

variable {KT VT W : Type} (cache source : IStorage KT VT W) (ctx : Context) (key : KT)
  (timeout : Duration) (s s1 : CoherencyState KT (W × List (Call KT)))

/-- The calls of one `Set`, in order. -/
theorem Recorded_Set_trace {value : Option VT} {r : Option Error}
    (h : (Recorded cache source).Set ctx key value timeout s = Outcome.ok (r, s1)) :
    (∃ e, r = some e ∧ s1.world.2 = s.world.2 ++
      [⟨Tier.source, Method.Lock, key, none⟩, ⟨Tier.source, Method.Set, key, some e⟩,
       ⟨Tier.source, Method.Unlock, key, none⟩]) ∨
    s1.world.2 = s.world.2 ++
      [⟨Tier.source, Method.Lock, key, none⟩, ⟨Tier.source, Method.Set, key, none⟩,
       ⟨Tier.source, Method.Unlock, key, none⟩, ⟨Tier.cache, Method.Lock, key, none⟩,
       ⟨Tier.cache, Method.Set, key, r⟩, ⟨Tier.cache, Method.Unlock, key, none⟩] := by
  rcases CoherencyStorage.Set_cases _ _ _ _ _ h with
    ⟨e, w1, w2, w3, h1, h2, h3, hr, hs⟩ | ⟨w1, w2, w3, w4, w5, w6, h1, h2, h3, h4, h5, h6, hs⟩
  · have a1 := (IStorage.recorded_Lock_inv _ _ h1).2
    have a2 := (IStorage.recorded_Set_inv _ _ h2).2
    have a3 := (IStorage.recorded_Unlock_inv _ _ h3).2
    refine Or.inl ⟨e, hr, ?_⟩
    subst hs
    simp [a3, a2, a1]
  · have a1 := (IStorage.recorded_Lock_inv _ _ h1).2
    have a2 := (IStorage.recorded_Set_inv _ _ h2).2
    have a3 := (IStorage.recorded_Unlock_inv _ _ h3).2
    have a4 := (IStorage.recorded_Lock_inv _ _ h4).2
    have a5 := (IStorage.recorded_Set_inv _ _ h5).2
    have a6 := (IStorage.recorded_Unlock_inv _ _ h6).2
    refine Or.inr ?_
    subst hs
    simp [a6, a5, a4, a3, a2, a1]

/-- The calls of one `Del`, in order. -/
theorem Recorded_Del_trace {r : Option Error}
    (h : (Recorded cache source).Del ctx key timeout s = Outcome.ok (r, s1)) :
    (∃ e, r = some e ∧ s1.world.2 = s.world.2 ++
      [⟨Tier.source, Method.Lock, key, none⟩, ⟨Tier.source, Method.Del, key, some e⟩,
       ⟨Tier.source, Method.Unlock, key, none⟩]) ∨
    s1.world.2 = s.world.2 ++
      [⟨Tier.source, Method.Lock, key, none⟩, ⟨Tier.source, Method.Del, key, none⟩,
       ⟨Tier.source, Method.Unlock, key, none⟩, ⟨Tier.cache, Method.Lock, key, none⟩,
       ⟨Tier.cache, Method.Del, key, r⟩, ⟨Tier.cache, Method.Unlock, key, none⟩] := by
  rcases CoherencyStorage.Del_cases _ _ _ _ _ h with
    ⟨e, w1, w2, w3, h1, h2, h3, hr, hs⟩ | ⟨w1, w2, w3, w4, w5, w6, h1, h2, h3, h4, h5, h6, hs⟩
  · have a1 := (IStorage.recorded_Lock_inv _ _ h1).2
    have a2 := (IStorage.recorded_Del_inv _ _ h2).2
    have a3 := (IStorage.recorded_Unlock_inv _ _ h3).2
    refine Or.inl ⟨e, hr, ?_⟩
    subst hs
    simp [a3, a2, a1]
  · have a1 := (IStorage.recorded_Lock_inv _ _ h1).2
    have a2 := (IStorage.recorded_Del_inv _ _ h2).2
    have a3 := (IStorage.recorded_Unlock_inv _ _ h3).2
    have a4 := (IStorage.recorded_Lock_inv _ _ h4).2
    have a5 := (IStorage.recorded_Del_inv _ _ h5).2
    have a6 := (IStorage.recorded_Unlock_inv _ _ h6).2
    refine Or.inr ?_
    subst hs
    simp [a6, a5, a4, a3, a2, a1]

/-- The calls of one `Get`, in order: the cache lookup alone when it answered with a value or
an error; otherwise the cache lookup, the cache's `Lock`, the calls in between, and the cache's
`Unlock`.  The state of the `CoherencyStorage` itself, its own lock table, is not touched. -/
theorem Recorded_Get_trace {r : Option VT × Option Error}
    (h : (Recorded cache source).Get ctx key timeout s = Outcome.ok (r, s1)) :
    s1.toBaseStorage = s.toBaseStorage ∧
    ((∃ w1, cache.Get (ctx.WithTimeout timeout 0) key (cache.Timeout s.world.1) s.world.1
          = Outcome.ok (r, w1) ∧
        (r.2.isSome = true ∨ r.1.isSome = true) ∧
        s1.world.2 = s.world.2 ++ [⟨Tier.cache, Method.Get, key, r.2⟩]) ∨
      (∃ w1 between,
        cache.Get (ctx.WithTimeout timeout 0) key (cache.Timeout s.world.1) s.world.1
          = Outcome.ok ((none, none), w1) ∧
        s1.world.2 = s.world.2 ++ ([⟨Tier.cache, Method.Get, key, none⟩,
          ⟨Tier.cache, Method.Lock, key, none⟩] ++ between ++
          [⟨Tier.cache, Method.Unlock, key, none⟩]) ∧
        ((between = [⟨Tier.source, Method.Get, key, r.2⟩] ∧
            (r.2.isSome = true ∨ r.1.isSome = true)) ∨
          (∃ e, between = [⟨Tier.source, Method.Get, key, none⟩,
              ⟨Tier.source, Method.Get, key, some e⟩] ∧ r = (none, some e)) ∨
          (∃ e, between = [⟨Tier.source, Method.Get, key, none⟩,
              ⟨Tier.source, Method.Get, key, none⟩, ⟨Tier.cache, Method.Set, key, some e⟩] ∧
            r = (none, some e)) ∨
          (between = [⟨Tier.source, Method.Get, key, none⟩,
              ⟨Tier.source, Method.Get, key, none⟩, ⟨Tier.cache, Method.Set, key, none⟩] ∧
            r.2 = none)))) := by
  rcases CoherencyStorage.Get_cases _ _ _ _ _ h with
    ⟨w1, h1, hv, hs⟩ | ⟨w1, w2, h1, h2, hrest⟩
  · obtain ⟨b1, a1⟩ := IStorage.recorded_Get_inv _ _ h1
    subst hs
    exact ⟨rfl, Or.inl ⟨w1.1, b1, hv, a1⟩⟩
  · obtain ⟨b1, a1⟩ := IStorage.recorded_Get_inv _ _ h1
    have a2 := (IStorage.recorded_Lock_inv _ _ h2).2
    rcases hrest with ⟨w3, w4, h3, hv, h4, hs⟩ | ⟨w3, h3, hrest⟩
    · have a3 := (IStorage.recorded_Get_inv _ _ h3).2
      have a4 := (IStorage.recorded_Unlock_inv _ _ h4).2
      subst hs
      refine ⟨rfl, Or.inr ⟨w1.1, [⟨Tier.source, Method.Get, key, r.2⟩], b1, ?_, Or.inl ⟨rfl, hv⟩⟩⟩
      simp [a4, a3, a2, a1]
    · have a3 := (IStorage.recorded_Get_inv _ _ h3).2
      rcases hrest with ⟨v, e, w4, w5, h4, h5, hr, hs⟩ | ⟨v, e, w4, w5, w6, h4, h5, h6, hr, hs⟩
      · have a4 := (IStorage.recorded_Get_inv _ _ h4).2
        have a5 := (IStorage.recorded_Unlock_inv _ _ h5).2
        subst hs
        refine ⟨rfl, Or.inr ⟨w1.1, _, b1, ?_, Or.inr (Or.inl ⟨e, rfl, hr⟩)⟩⟩
        simp [a5, a4, a3, a2, a1]
      · have a4 := (IStorage.recorded_Get_inv _ _ h4).2
        have a5 := (IStorage.recorded_Set_inv _ _ h5).2
        have a6 := (IStorage.recorded_Unlock_inv _ _ h6).2
        subst hs
        cases e with
        | some e =>
          refine ⟨rfl, Or.inr ⟨w1.1, _, b1, ?_, Or.inr (Or.inr (Or.inl ⟨e, rfl, by simpa using hr⟩))⟩⟩
          simp [a6, a5, a4, a3, a2, a1]
        | none =>
          refine ⟨rfl, Or.inr ⟨w1.1, _, b1, ?_, Or.inr (Or.inr (Or.inr ⟨rfl, by simp [hr]⟩))⟩⟩
          simp [a6, a5, a4, a3, a2, a1]

theorem StopsAtFirstError_nil (result : Option Error) :
    StopsAtFirstError ([] : List (Call KT)) result := by
  intro before call after h
  simp at h

theorem StopsAtFirstError_cons (call : Call KT) (rest : List (Call KT)) (result : Option Error)
    (hcall : call.isData = true → ∀ e, call.err = some e →
      (∀ later ∈ rest, later.isData = false) ∧ result = some e)
    (hrest : StopsAtFirstError rest result) :
    StopsAtFirstError (call :: rest) result := by
  intro before c after h
  cases before with
  | nil =>
    simp only [List.nil_append, List.cons.injEq] at h
    obtain ⟨rfl, rfl⟩ := h
    exact hcall
  | cons b before =>
    simp only [List.cons_append, List.cons.injEq] at h
    exact hrest before c after h.2

theorem StopsAtFirstError_cons_iff (call : Call KT) (rest : List (Call KT))
    (result : Option Error) :
    StopsAtFirstError (call :: rest) result ↔
      (call.isData = true → ∀ e, call.err = some e →
        (∀ later ∈ rest, later.isData = false) ∧ result = some e) ∧
      StopsAtFirstError rest result := by
  constructor
  · intro h
    exact ⟨h [] call rest rfl, fun before c after hb => h (call :: before) c after (by rw [hb]; rfl)⟩
  · intro h
    exact StopsAtFirstError_cons call rest result h.1 h.2

end Traces

/-! ## Hierarchies: locks -/

section Hierarchy

variable {KT VT : Type} [DecidableEq KT]

theorem MemoryStorage.Timeout_pos : 0 < MemoryStorage.Timeout := by decide

/-- A live parent and a timeout that has not elapsed at the look: the child is live. -/
theorem Context.WithTimeout_live {ctx : Context} {timeout : Duration} {look : Nat}
    (hctx : ctx.err = none) (ht : 0 < timeout) (hlook : ctx.elapsed [look] < timeout) :
    (ctx.WithTimeout timeout look).err = none := by
  simp [Context.WithTimeout, hctx, not_le.mpr ht, not_le.mpr hlook]

/-- A timeout that has elapsed at the look, however long it is: the child of a live parent is
done with `DeadlineExceeded`. -/
theorem Context.WithTimeout_elapsed (ctx : Context) (timeout : Duration) (look : Nat)
    (hctx : ctx.err = none) (hlook : timeout ≤ ctx.elapsed [look]) :
    (ctx.WithTimeout timeout look).err = some Error.DeadlineExceeded := by
  simp [Context.WithTimeout, hctx, hlook]

/-- A parent that is done hands its error to the child, whatever the timeout and the clock. -/
theorem Context.WithTimeout_done {ctx : Context} {timeout : Duration} {look : Nat} {e : Error}
    (hctx : ctx.err = some e) : (ctx.WithTimeout timeout look).err = some e := by
  simp [Context.WithTimeout, hctx]

/-- The child is live at a look exactly when the parent is live and the timeout is positive and
has not elapsed at the look. -/
theorem Context.WithTimeout_err_none {ctx : Context} {timeout : Duration} {look : Nat} :
    (ctx.WithTimeout timeout look).err = none ↔
      ctx.err = none ∧ 0 < timeout ∧ ctx.elapsed [look] < timeout := by
  constructor
  · intro h
    cases hc : ctx.err with
    | some e => simp [Context.WithTimeout, hc] at h
    | none =>
      simp only [Context.WithTimeout, hc] at h
      by_cases hle : timeout ≤ 0 ∨ timeout ≤ ctx.elapsed [look]
      · simp [hle] at h
      · simp only [not_or, not_le] at hle
        exact ⟨rfl, hle.1, hle.2⟩
  · rintro ⟨hc, ht, hl⟩
    exact Context.WithTimeout_live hc ht hl

theorem Context.live_iff {ctx : Context} {timeout : Duration} :
    ctx.live timeout ↔
      ctx.err = none ∧ 0 < timeout ∧ ∀ look : Nat, ctx.elapsed [look] < timeout := by
  constructor
  · intro h
    have h0 := Context.WithTimeout_err_none.mp (h 0)
    exact ⟨h0.1, h0.2.1, fun look => (Context.WithTimeout_err_none.mp (h look)).2.2⟩
  · rintro ⟨hc, ht, hl⟩ look
    exact Context.WithTimeout_live hc ht (hl look)

theorem Context.err_of_live {ctx : Context} {timeout : Duration} (h : ctx.live timeout) :
    ctx.err = none :=
  (Context.live_iff.mp h).1

/-- With a live signal, when the time elapsed at every look is below a bound that is less than
the timeout of the operation and less than the timeout of a `MemoryStorage`, the signal stays
live all the way down. -/
theorem Context.staysLive_of_bound {ctx : Context} {timeout : Duration} (bound : Duration)
    (hctx : ctx.err = none) (ht : 0 < timeout) (hbound : ∀ sites, ctx.elapsed sites ≤ bound)
    (h1 : bound < timeout) (h2 : bound < MemoryStorage.Timeout) : ctx.staysLive timeout :=
  ⟨hctx, ht, fun _ => lt_of_le_of_lt (hbound _) h1,
    fun _ _ _ => lt_of_le_of_lt (hbound _) h2⟩

/-- The signal of the scenarios stays live all the way down with a timeout of more than a
millisecond. -/
theorem Scenario.ctx_staysLive {timeout : Duration} (ht : Millisecond < timeout) :
    Scenario.ctx.staysLive timeout :=
  Context.staysLive_of_bound Millisecond rfl (lt_trans (by decide) ht) (fun _ => le_refl _) ht
    (by decide)

theorem Scenario.ctx_live {timeout : Duration} (ht : Millisecond < timeout) :
    Scenario.ctx.live timeout :=
  Context.live_iff.mpr ⟨rfl, lt_trans (by decide) ht, fun _ => ht⟩

theorem Context.staysLive_WithTimeout {ctx : Context} {timeout : Duration}
    (h : ctx.staysLive timeout) (look : Nat) :
    (ctx.WithTimeout timeout look).staysLive MemoryStorage.Timeout := by
  obtain ⟨hc, ht, hl, hdeep⟩ := h
  refine ⟨Context.WithTimeout_live hc ht (hl look), MemoryStorage.Timeout_pos, ?_, ?_⟩
  · intro k
    exact hdeep look [k] (by simp)
  · intro k sites _
    exact hdeep look (k :: sites) (by simp)

/-- A signal that stays live in the sense of the clock stays live all the way down every
hierarchy. -/
theorem Shape.live_of_staysLive (sh : Shape) :
    ∀ (ctx : Context) (timeout : Duration), ctx.staysLive timeout → sh.live ctx timeout := by
  induction sh with
  | memory => intro ctx timeout h; exact h.1
  | coherency c s ihc ihs =>
    intro ctx timeout h look
    exact ⟨ihc _ _ (Context.staysLive_WithTimeout h look),
      ihs _ _ (Context.staysLive_WithTimeout h look)⟩

/-- A `CoherencyStorage` over two `MemoryStorage`s: the signal stays live all the way down
exactly when `subCtx` is live at every look. -/
theorem Shape.live_chain_one (ctx : Context) (timeout : Duration) :
    (Shape.chain 1).live ctx timeout ↔ ctx.live timeout := by
  simp only [Shape.chain, Shape.live, Context.live, and_self]

/-- Every hierarchy reports the timeout of the `MemoryStorage` at the end of its cache links. -/
theorem Shape.storage_Timeout (sh : Shape) (w : sh.World KT VT) :
    (Shape.storage KT VT sh).Timeout w = MemoryStorage.Timeout := by
  induction sh with
  | memory => rfl
  | coherency c s ihc _ => exact ihc w.world.1

@[simp]
theorem Shape.own_setOwn (sh : Shape) (b : BaseStorage KT) (w : sh.World KT VT) :
    sh.own (sh.setOwn b w) = b := by
  cases sh <;> rfl

@[simp]
theorem Shape.leaves_setOwn (sh : Shape) (key : KT) (P : Option (Option VT) → Prop)
    (b : BaseStorage KT) (w : sh.World KT VT) :
    sh.leaves key P (sh.setOwn b w) ↔ sh.leaves key P w := by
  cases sh <;> rfl

@[simp]
theorem Shape.belowFree_setOwn (sh : Shape) (key : KT) (b : BaseStorage KT)
    (w : sh.World KT VT) : sh.belowFree key (sh.setOwn b w) ↔ sh.belowFree key w := by
  cases sh <;> rfl

theorem Shape.leaves_mono (sh : Shape) (key : KT) {P Q : Option (Option VT) → Prop}
    (hPQ : ∀ x, P x → Q x) (w : sh.World KT VT) (h : sh.leaves key P w) : sh.leaves key Q w := by
  induction sh with
  | memory => exact hPQ _ h
  | coherency c s ihc ihs => exact ⟨ihc _ h.1, ihs _ h.2⟩

/-- The `Lock` of any store of a hierarchy is `BaseStorage.Lock` on its own lock table. -/
theorem Shape.storage_Lock (sh : Shape) (ctx : Context) (key : KT) (w : sh.World KT VT) :
    (Shape.storage KT VT sh).Lock ctx key w
      = ((sh.own w).Lock ctx key).bind fun b => Outcome.ok (sh.setOwn b w) := by
  cases sh with
  | memory => rfl
  | coherency c s =>
    show CoherencyStorage.Lock
      (NewCoherencyStorage (Shape.storage KT VT c).onFst (Shape.storage KT VT s).onSnd) ctx key w = _
    unfold CoherencyStorage.Lock BaseStorage.Lock Shape.own
    split <;> simp_all [Outcome.bind, Shape.setOwn]

/-- The `Unlock` of any store of a hierarchy is `BaseStorage.Unlock` on its own lock table. -/
theorem Shape.storage_Unlock (sh : Shape) (ctx : Context) (key : KT) (w : sh.World KT VT) :
    (Shape.storage KT VT sh).Unlock ctx key w
      = ((sh.own w).Unlock ctx key).bind fun b => Outcome.ok (sh.setOwn b w) := by
  cases sh with
  | memory => rfl
  | coherency c s =>
    show CoherencyStorage.Unlock
      (NewCoherencyStorage (Shape.storage KT VT c).onFst (Shape.storage KT VT s).onSnd) ctx key w = _
    unfold CoherencyStorage.Unlock BaseStorage.Unlock Shape.own
    split <;> simp_all [Outcome.bind, Shape.setOwn]
    rfl

theorem Shape.storage_Lock_free (sh : Shape) (ctx : Context) (key : KT) (w : sh.World KT VT)
    (h : (sh.own w).lockMap key ≠ some true) :
    (Shape.storage KT VT sh).Lock ctx key w
      = Outcome.ok (sh.setOwn ⟨Function.update (sh.own w).lockMap key (some true)⟩ w) := by
  rw [Shape.storage_Lock]
  unfold BaseStorage.Lock
  split
  · simp_all
  · rfl

theorem Shape.storage_Unlock_held (sh : Shape) (ctx : Context) (key : KT) (w : sh.World KT VT)
    (h : (sh.own w).lockMap key = some true) :
    (Shape.storage KT VT sh).Unlock ctx key w
      = Outcome.ok (sh.setOwn ⟨Function.update (sh.own w).lockMap key (some false)⟩ w) := by
  rw [Shape.storage_Unlock]
  unfold BaseStorage.Unlock
  split <;> simp_all

/-- A `Lock` changes nothing but the lock table of the store it is called on. -/
theorem Shape.storage_Lock_frame (sh : Shape) (ctx : Context) (key : KT) (w w1 : sh.World KT VT)
    (h : (Shape.storage KT VT sh).Lock ctx key w = Outcome.ok w1) :
    ∃ b, w1 = sh.setOwn b w := by
  rw [Shape.storage_Lock, Outcome.bind_eq_ok] at h
  obtain ⟨b, _, hb⟩ := h
  exact ⟨b, by simpa using hb.symm⟩

/-- An `Unlock` changes nothing but the lock table of the store it is called on. -/
theorem Shape.storage_Unlock_frame (sh : Shape) (ctx : Context) (key : KT)
    (w w1 : sh.World KT VT) (h : (Shape.storage KT VT sh).Unlock ctx key w = Outcome.ok w1) :
    ∃ b, w1 = sh.setOwn b w := by
  rw [Shape.storage_Unlock, Outcome.bind_eq_ok] at h
  obtain ⟨b, _, hb⟩ := h
  exact ⟨b, by simpa using hb.symm⟩

/-! ## Hierarchies: `Set`, `Del` and `Get` on a quiet hierarchy -/

/-- A `Set` whose signal stays live all the way down, on a hierarchy in which no lock below the outermost store is held,
returns no error, writes the value to every `MemoryStorage`, and leaves every lock as it was. -/
theorem Shape.Set_ok (sh : Shape) (key : KT) (value : Option VT) :
    ∀ (ctx : Context) (timeout : Duration) (w : sh.World KT VT),
      sh.live ctx timeout → sh.belowFree key w →
      ∃ w1, (Shape.storage KT VT sh).Set ctx key value timeout w = Outcome.ok (none, w1) ∧
        sh.own w1 = sh.own w ∧ sh.belowFree key w1 ∧ sh.leaves key (fun x => x = some value) w1 := by
  induction sh with
  | memory =>
    intro ctx timeout m hctx _
    have hctx : ctx.err = none := hctx
    refine ⟨(m.Set ctx key value timeout).2, ?_, ?_, trivial, ?_⟩
    · simp [Shape.storage, MemoryStorage.toIStorage, MemoryStorage.Set, hctx]
    · simp [Shape.own, MemoryStorage.Set, hctx]
    · simp [Shape.leaves, MemoryStorage.Set, hctx]
  | coherency c s ihc ihs =>
    intro ctx timeout w hlive hfree
    have hlive : ∀ look : Nat, c.live (ctx.WithTimeout timeout look) MemoryStorage.Timeout ∧
        s.live (ctx.WithTimeout timeout look) MemoryStorage.Timeout := hlive
    obtain ⟨⟨hcf, hcb⟩, ⟨hsf, hsb⟩⟩ := hfree
    obtain ⟨ws2, hs2, hso, hsb2, hsl⟩ := ihs (ctx.WithTimeout timeout 1) MemoryStorage.Timeout
      (s.setOwn ⟨Function.update (s.own w.world.2).lockMap key (some true)⟩ w.world.2)
      (hlive 1).2 (by simpa using hsb)
    obtain ⟨wc2, hc2, hco, hcb2, hcl⟩ := ihc (ctx.WithTimeout timeout 4) MemoryStorage.Timeout
      (c.setOwn ⟨Function.update (c.own w.world.1).lockMap key (some true)⟩ w.world.1)
      (hlive 4).1 (by simpa using hcb)
    simp only [Shape.own_setOwn] at hso hco
    refine ⟨{ w with world :=
        (c.setOwn ⟨Function.update (c.own wc2).lockMap key (some false)⟩ wc2,
         s.setOwn ⟨Function.update (s.own ws2).lockMap key (some false)⟩ ws2) }, ?_, rfl, ?_, ?_⟩
    · refine CoherencyStorage.Set_of_ok
        (NewCoherencyStorage (Shape.storage KT VT c).onFst (Shape.storage KT VT s).onSnd)
        ctx key timeout w value
        (w.world.1,
          s.setOwn ⟨Function.update (s.own w.world.2).lockMap key (some true)⟩ w.world.2)
        (w.world.1, ws2)
        (w.world.1, s.setOwn ⟨Function.update (s.own ws2).lockMap key (some false)⟩ ws2)
        (c.setOwn ⟨Function.update (c.own w.world.1).lockMap key (some true)⟩ w.world.1,
          s.setOwn ⟨Function.update (s.own ws2).lockMap key (some false)⟩ ws2)
        (wc2, s.setOwn ⟨Function.update (s.own ws2).lockMap key (some false)⟩ ws2)
        _ ?_ ?_ ?_ ?_ ?_ ?_
      · simp [NewCoherencyStorage, IStorage.onSnd, Shape.storage_Lock_free _ _ _ _ hsf]
      · simp [NewCoherencyStorage, IStorage.onSnd, Shape.storage_Timeout, hs2]
      · simp [NewCoherencyStorage, IStorage.onSnd,
          Shape.storage_Unlock_held s _ key ws2 (by simp [hso])]
      · simp [NewCoherencyStorage, IStorage.onFst, Shape.storage_Lock_free _ _ _ _ hcf]
      · simp [NewCoherencyStorage, IStorage.onFst, Shape.storage_Timeout, hc2]
      · simp [NewCoherencyStorage, IStorage.onFst,
          Shape.storage_Unlock_held c _ key wc2 (by simp [hco])]
    · simp [Shape.belowFree, hcb2, hsb2]
    · simp [Shape.leaves, hcl, hsl]

/-- A `Del` whose signal stays live all the way down, on a hierarchy in which no lock below the outermost store is held,
returns no error, removes the key from every `MemoryStorage`, and leaves every lock as it was. -/
theorem Shape.Del_ok (sh : Shape) (key : KT) :
    ∀ (ctx : Context) (timeout : Duration) (w : sh.World KT VT),
      sh.live ctx timeout → sh.belowFree key w →
      ∃ w1, (Shape.storage KT VT sh).Del ctx key timeout w = Outcome.ok (none, w1) ∧
        sh.own w1 = sh.own w ∧ sh.belowFree key w1 ∧ sh.leaves key (fun x => x = none) w1 := by
  induction sh with
  | memory =>
    intro ctx timeout m hctx _
    have hctx : ctx.err = none := hctx
    refine ⟨(m.Del ctx key timeout).2, ?_, ?_, trivial, ?_⟩
    · simp [Shape.storage, MemoryStorage.toIStorage, MemoryStorage.Del, hctx]
    · simp [Shape.own, MemoryStorage.Del, hctx]
    · simp [Shape.leaves, MemoryStorage.Del, hctx]
  | coherency c s ihc ihs =>
    intro ctx timeout w hlive hfree
    have hlive : ∀ look : Nat, c.live (ctx.WithTimeout timeout look) MemoryStorage.Timeout ∧
        s.live (ctx.WithTimeout timeout look) MemoryStorage.Timeout := hlive
    obtain ⟨⟨hcf, hcb⟩, ⟨hsf, hsb⟩⟩ := hfree
    obtain ⟨ws2, hs2, hso, hsb2, hsl⟩ := ihs (ctx.WithTimeout timeout 1) MemoryStorage.Timeout
      (s.setOwn ⟨Function.update (s.own w.world.2).lockMap key (some true)⟩ w.world.2)
      (hlive 1).2 (by simpa using hsb)
    obtain ⟨wc2, hc2, hco, hcb2, hcl⟩ := ihc (ctx.WithTimeout timeout 4) MemoryStorage.Timeout
      (c.setOwn ⟨Function.update (c.own w.world.1).lockMap key (some true)⟩ w.world.1)
      (hlive 4).1 (by simpa using hcb)
    simp only [Shape.own_setOwn] at hso hco
    refine ⟨{ w with world :=
        (c.setOwn ⟨Function.update (c.own wc2).lockMap key (some false)⟩ wc2,
         s.setOwn ⟨Function.update (s.own ws2).lockMap key (some false)⟩ ws2) }, ?_, rfl, ?_, ?_⟩
    · refine CoherencyStorage.Del_of_ok
        (NewCoherencyStorage (Shape.storage KT VT c).onFst (Shape.storage KT VT s).onSnd)
        ctx key timeout w
        (w.world.1,
          s.setOwn ⟨Function.update (s.own w.world.2).lockMap key (some true)⟩ w.world.2)
        (w.world.1, ws2)
        (w.world.1, s.setOwn ⟨Function.update (s.own ws2).lockMap key (some false)⟩ ws2)
        (c.setOwn ⟨Function.update (c.own w.world.1).lockMap key (some true)⟩ w.world.1,
          s.setOwn ⟨Function.update (s.own ws2).lockMap key (some false)⟩ ws2)
        (wc2, s.setOwn ⟨Function.update (s.own ws2).lockMap key (some false)⟩ ws2)
        _ ?_ ?_ ?_ ?_ ?_ ?_
      · simp [NewCoherencyStorage, IStorage.onSnd, Shape.storage_Lock_free _ _ _ _ hsf]
      · simp [NewCoherencyStorage, IStorage.onSnd, Shape.storage_Timeout, hs2]
      · simp [NewCoherencyStorage, IStorage.onSnd,
          Shape.storage_Unlock_held s _ key ws2 (by simp [hso])]
      · simp [NewCoherencyStorage, IStorage.onFst, Shape.storage_Lock_free _ _ _ _ hcf]
      · simp [NewCoherencyStorage, IStorage.onFst, Shape.storage_Timeout, hc2]
      · simp [NewCoherencyStorage, IStorage.onFst,
          Shape.storage_Unlock_held c _ key wc2 (by simp [hco])]
    · simp [Shape.belowFree, hcb2, hsb2]
    · simp [Shape.leaves, hcl, hsl]

/-- A `Get` whose signal stays live all the way down, on a hierarchy that holds the value in
every `MemoryStorage`, returns it from the first cache lookup, takes no lock and changes
nothing. -/
theorem Shape.Get_hit (sh : Shape) (key : KT) (v : VT) :
    ∀ (ctx : Context) (timeout : Duration) (w : sh.World KT VT),
      sh.live ctx timeout → sh.leaves key (fun x => x = some (some v)) w →
      (Shape.storage KT VT sh).Get ctx key timeout w = Outcome.ok ((some v, none), w) := by
  induction sh with
  | memory =>
    intro ctx timeout m hctx h
    have hctx : ctx.err = none := hctx
    simp only [Shape.leaves] at h
    simp [Shape.storage, MemoryStorage.toIStorage, MemoryStorage.Get, hctx, h]
  | coherency c s ihc _ =>
    intro ctx timeout w hlive h
    have hlive : ∀ look : Nat, c.live (ctx.WithTimeout timeout look) MemoryStorage.Timeout ∧
        s.live (ctx.WithTimeout timeout look) MemoryStorage.Timeout := hlive
    have h1 := ihc (ctx.WithTimeout timeout 0) MemoryStorage.Timeout w.world.1 (hlive 0).1 h.1
    exact CoherencyStorage.Get_of_cache
      (NewCoherencyStorage (Shape.storage KT VT c).onFst (Shape.storage KT VT s).onSnd)
      ctx key timeout w _ _ w.world
      (by simp [NewCoherencyStorage, IStorage.onFst, Shape.storage_Timeout, h1]) rfl

/-- A `Get` whose signal stays live all the way down, on a quiet hierarchy in which the key reads as absent in every
`MemoryStorage` returns absent and no error; the key still reads as absent everywhere
afterwards and every lock is free again. -/
theorem Shape.Get_absent (sh : Shape) (key : KT) :
    ∀ (ctx : Context) (timeout : Duration) (w : sh.World KT VT),
      sh.live ctx timeout → sh.belowFree key w → sh.leaves key ReadsAbsent w →
      ∃ w1, (Shape.storage KT VT sh).Get ctx key timeout w = Outcome.ok ((none, none), w1) ∧
        sh.own w1 = sh.own w ∧ sh.belowFree key w1 ∧ sh.leaves key ReadsAbsent w1 := by
  induction sh with
  | memory =>
    intro ctx timeout m hctx _ h
    have hctx : ctx.err = none := hctx
    refine ⟨m, ?_, rfl, trivial, h⟩
    simp only [Shape.leaves, ReadsAbsent] at h
    rcases h with h | h <;>
      simp [Shape.storage, MemoryStorage.toIStorage, MemoryStorage.Get, hctx, h]
  | coherency c s ihc ihs =>
    intro ctx timeout w hlive hfree hl
    have hlive : ∀ look : Nat, c.live (ctx.WithTimeout timeout look) MemoryStorage.Timeout ∧
        s.live (ctx.WithTimeout timeout look) MemoryStorage.Timeout := hlive
    obtain ⟨⟨hcf, hcb⟩, ⟨hsf, hsb⟩⟩ := hfree
    obtain ⟨wc1, hc1, hco1, hcb1, _⟩ := ihc (ctx.WithTimeout timeout 0) MemoryStorage.Timeout
      w.world.1 (hlive 0).1 hcb hl.1
    obtain ⟨ws1, hs1, hso1, hsb1, hsl1⟩ := ihs (ctx.WithTimeout timeout 2) MemoryStorage.Timeout
      w.world.2 (hlive 2).2 hsb hl.2
    obtain ⟨ws2, hs2, hso2, hsb2, hsl2⟩ := ihs (ctx.WithTimeout timeout 3) MemoryStorage.Timeout
      ws1 (hlive 3).2 hsb1 hsl1
    obtain ⟨wc2, hc2, hco2, hcb2, hcl2⟩ := Shape.Set_ok c key (none : Option VT)
      (ctx.WithTimeout timeout 4) MemoryStorage.Timeout
      (c.setOwn ⟨Function.update (c.own wc1).lockMap key (some true)⟩ wc1)
      (hlive 4).1 (by simpa using hcb1)
    simp only [Shape.own_setOwn] at hco2
    refine ⟨{ w with world :=
        (c.setOwn ⟨Function.update (c.own wc2).lockMap key (some false)⟩ wc2, ws2) },
      ?_, rfl, ?_, ?_⟩
    · refine CoherencyStorage.Get_of_write
        (NewCoherencyStorage (Shape.storage KT VT c).onFst (Shape.storage KT VT s).onSnd)
        ctx key timeout w
        none
        (wc1, w.world.2)
        (c.setOwn ⟨Function.update (c.own wc1).lockMap key (some true)⟩ wc1, w.world.2)
        (c.setOwn ⟨Function.update (c.own wc1).lockMap key (some true)⟩ wc1, ws1)
        (c.setOwn ⟨Function.update (c.own wc1).lockMap key (some true)⟩ wc1, ws2)
        (wc2, ws2)
        _ ?_ ?_ ?_ ?_ ?_ ?_
      · simp [NewCoherencyStorage, IStorage.onFst, Shape.storage_Timeout, hc1]
      · simp [NewCoherencyStorage, IStorage.onFst,
          Shape.storage_Lock_free c _ key wc1 (by rw [hco1]; exact hcf)]
      · simp [NewCoherencyStorage, IStorage.onFst, IStorage.onSnd, Shape.storage_Timeout, hs1]
      · simp [NewCoherencyStorage, IStorage.onFst, IStorage.onSnd, Shape.storage_Timeout, hs2]
      · simp [NewCoherencyStorage, IStorage.onFst, Shape.storage_Timeout, hc2]
      · simp [NewCoherencyStorage, IStorage.onFst,
          Shape.storage_Unlock_held c _ key wc2 (by simp [hco2])]
    · simp [Shape.belowFree, hcb2, hsb2, hso2, hso1, hsf]
    · refine ⟨?_, hsl2⟩
      simp only [Shape.leaves_setOwn]
      exact Shape.leaves_mono c key (fun _ hx => Or.inr hx) wc2 hcl2

/-- In a chain that holds the value in its innermost `MemoryStorage` only, `Get` with a signal
that stays live all the way down, on a quiet chain, returns the value, and the chain is afterwards as it was found: the
value in the innermost store only, every lock free. -/
theorem Shape.chain_Get (key : KT) (v : VT) :
    ∀ (n : Nat) (ctx : Context) (timeout : Duration) (w : (Shape.chain n).World KT VT),
      (Shape.chain n).live ctx timeout → (Shape.chain n).belowFree key w →
      Shape.onlyInnermost key v n w →
      ∃ w1, (Shape.storage KT VT (Shape.chain n)).Get ctx key timeout w
          = Outcome.ok ((some v, none), w1) ∧
        (Shape.chain n).own w1 = (Shape.chain n).own w ∧ (Shape.chain n).belowFree key w1 ∧
        Shape.onlyInnermost key v n w1 := by
  intro n
  induction n with
  | zero =>
    intro ctx timeout m hctx _ h
    have hctx : ctx.err = none := hctx
    refine ⟨m, ?_, rfl, trivial, h⟩
    simp only [Shape.onlyInnermost] at h
    simp [Shape.chain, Shape.storage, MemoryStorage.toIStorage, MemoryStorage.Get, hctx, h]
  | succ n ih =>
    intro ctx timeout w hlive hfree h
    have hlive : ∀ look : Nat, (ctx.WithTimeout timeout look).err = none ∧
        (Shape.chain n).live (ctx.WithTimeout timeout look) MemoryStorage.Timeout := hlive
    have hsub := (hlive 0).1
    obtain ⟨⟨hcf, _⟩, ⟨hsf, hsb⟩⟩ := hfree
    obtain ⟨hc, hs⟩ := h
    obtain ⟨ws1, hs1, hso1, hsb1, hsl1⟩ := ih (ctx.WithTimeout timeout 2) MemoryStorage.Timeout
      w.world.2 (hlive 2).2 hsb hs
    refine ⟨{ w with world :=
        (Shape.memory.setOwn ⟨Function.update (Shape.memory.own (Shape.memory.setOwn
            ⟨Function.update (Shape.memory.own w.world.1).lockMap key (some true)⟩
            w.world.1)).lockMap key (some false)⟩
          (Shape.memory.setOwn
            ⟨Function.update (Shape.memory.own w.world.1).lockMap key (some true)⟩ w.world.1),
         ws1) },
      ?_, rfl, ⟨⟨?_, trivial⟩, ⟨?_, hsb1⟩⟩, ?_⟩
    · refine CoherencyStorage.Get_of_source
        (NewCoherencyStorage (Shape.storage KT VT Shape.memory).onFst
          (Shape.storage KT VT (Shape.chain n)).onSnd)
        ctx key timeout w
        (some v) none
        w.world
        (Shape.memory.setOwn
          ⟨Function.update (Shape.memory.own w.world.1).lockMap key (some true)⟩ w.world.1,
          w.world.2)
        (Shape.memory.setOwn
          ⟨Function.update (Shape.memory.own w.world.1).lockMap key (some true)⟩ w.world.1, ws1)
        _ ?_ ?_ ?_ rfl ?_
      · simp [NewCoherencyStorage, IStorage.onFst, Shape.storage, MemoryStorage.toIStorage,
          MemoryStorage.Get, hsub, hc]
      · simp [NewCoherencyStorage, IStorage.onFst,
          Shape.storage_Lock_free Shape.memory _ key w.world.1 hcf]
      · simp [NewCoherencyStorage, IStorage.onFst, IStorage.onSnd, Shape.storage_Timeout, hs1]
      · simp only [NewCoherencyStorage, IStorage.onFst]
        rw [Shape.storage_Unlock_held Shape.memory _ key _ (by simp)]
        rfl
    · simp
    · rw [hso1]; exact hsf
    · exact ⟨hc, hsl1⟩

/-! ## Hierarchies: what a successful `Set` leaves behind -/

theorem IStorage.onSnd_Set_inv {A B : Type} (st : IStorage KT VT B) {ctx : Context} {key : KT}
    {value : Option VT} {timeout : Duration} {w w1 : A × B} {e : Option Error}
    (h : (st.onSnd (A := A)).Set ctx key value timeout w = Outcome.ok (e, w1)) :
    st.Set ctx key value timeout w.2 = Outcome.ok (e, w1.2) ∧ w1.1 = w.1 := by
  simp only [IStorage.onSnd, Outcome.bind_eq_ok] at h
  obtain ⟨r, hr, h⟩ := h
  cases h
  exact ⟨hr, rfl⟩

theorem IStorage.onFst_Set_inv {A B : Type} (st : IStorage KT VT A) {ctx : Context} {key : KT}
    {value : Option VT} {timeout : Duration} {w w1 : A × B} {e : Option Error}
    (h : (st.onFst (B := B)).Set ctx key value timeout w = Outcome.ok (e, w1)) :
    st.Set ctx key value timeout w.1 = Outcome.ok (e, w1.1) ∧ w1.2 = w.2 := by
  simp only [IStorage.onFst, Outcome.bind_eq_ok] at h
  obtain ⟨r, hr, h⟩ := h
  cases h
  exact ⟨hr, rfl⟩

theorem IStorage.onSnd_Lock_inv {A B : Type} (st : IStorage KT VT B) {ctx : Context} {key : KT}
    {w w1 : A × B} (h : (st.onSnd (A := A)).Lock ctx key w = Outcome.ok w1) :
    st.Lock ctx key w.2 = Outcome.ok w1.2 ∧ w1.1 = w.1 := by
  simp only [IStorage.onSnd, Outcome.bind_eq_ok] at h
  obtain ⟨r, hr, h⟩ := h
  cases h
  exact ⟨hr, rfl⟩

theorem IStorage.onFst_Lock_inv {A B : Type} (st : IStorage KT VT A) {ctx : Context} {key : KT}
    {w w1 : A × B} (h : (st.onFst (B := B)).Lock ctx key w = Outcome.ok w1) :
    st.Lock ctx key w.1 = Outcome.ok w1.1 ∧ w1.2 = w.2 := by
  simp only [IStorage.onFst, Outcome.bind_eq_ok] at h
  obtain ⟨r, hr, h⟩ := h
  cases h
  exact ⟨hr, rfl⟩

theorem IStorage.onSnd_Unlock_inv {A B : Type} (st : IStorage KT VT B) {ctx : Context} {key : KT}
    {w w1 : A × B} (h : (st.onSnd (A := A)).Unlock ctx key w = Outcome.ok w1) :
    st.Unlock ctx key w.2 = Outcome.ok w1.2 ∧ w1.1 = w.1 := by
  simp only [IStorage.onSnd, Outcome.bind_eq_ok] at h
  obtain ⟨r, hr, h⟩ := h
  cases h
  exact ⟨hr, rfl⟩

theorem IStorage.onFst_Unlock_inv {A B : Type} (st : IStorage KT VT A) {ctx : Context} {key : KT}
    {w w1 : A × B} (h : (st.onFst (B := B)).Unlock ctx key w = Outcome.ok w1) :
    st.Unlock ctx key w.1 = Outcome.ok w1.1 ∧ w1.2 = w.2 := by
  simp only [IStorage.onFst, Outcome.bind_eq_ok] at h
  obtain ⟨r, hr, h⟩ := h
  cases h
  exact ⟨hr, rfl⟩

/-- A `Set` that returned no error, whatever the locks were, wrote the value to every
`MemoryStorage` of the hierarchy. -/
theorem Shape.Set_holds (sh : Shape) (key : KT) (value : Option VT) :
    ∀ (ctx : Context) (timeout : Duration) (w w1 : sh.World KT VT),
      (Shape.storage KT VT sh).Set ctx key value timeout w = Outcome.ok (none, w1) →
      sh.leaves key (fun x => x = some value) w1 := by
  induction sh with
  | memory =>
    intro ctx timeout m m1 h
    simp only [Shape.storage, MemoryStorage.toIStorage, Outcome.ok.injEq] at h
    have h2 : m1 = (m.Set ctx key value timeout).2 := by rw [h]
    subst h2
    unfold MemoryStorage.Set
    cases ctx.err <;> simp [Shape.leaves]
  | coherency c s ihc ihs =>
    intro ctx timeout w w1 h
    obtain ⟨v1, v2, v3, v4, v5, _, h2, h3, h4, h5, h6, _⟩ := CoherencyStorage.Set_inv
      (NewCoherencyStorage (Shape.storage KT VT c).onFst (Shape.storage KT VT s).onSnd)
      ctx key timeout w h
    obtain ⟨h2, _⟩ := IStorage.onSnd_Set_inv _ h2
    obtain ⟨h3, _⟩ := IStorage.onSnd_Unlock_inv _ h3
    obtain ⟨_, h4⟩ := IStorage.onFst_Lock_inv _ h4
    obtain ⟨h5, h5b⟩ := IStorage.onFst_Set_inv _ h5
    obtain ⟨h6, h6b⟩ := IStorage.onFst_Unlock_inv _ h6
    obtain ⟨b3, hb3⟩ := Shape.storage_Unlock_frame s _ key _ _ h3
    obtain ⟨b6, hb6⟩ := Shape.storage_Unlock_frame c _ key _ _ h6
    have hs := ihs _ _ _ _ h2
    have hc := ihc _ _ _ _ h5
    refine ⟨?_, ?_⟩
    · rw [hb6]; simpa using hc
    · rw [h6b, h5b, h4, hb3]; simpa using hs

end Hierarchy

/-! ## One call, step by step -/

section Steps

variable {KT VT W : Type} (c : CoherencyStorage KT VT W) (ctx : Context) (key : KT)
  (timeout : Duration) (s : CoherencyState KT W)

/-- The six steps of `SetStep`, taken with no other call in between, are
`CoherencyStorage.Set`. -/
theorem CoherencyStorage.SetRun_eq_Set (value : Option VT) :
    c.SetRun ctx key value timeout 6 SetPc.sourceLock s.world
      = (c.Set ctx key value timeout s).bind fun r =>
          Outcome.ok (SetPc.returned r.1, r.2.world) := by
  simp only [CoherencyStorage.SetRun, CoherencyStorage.SetStep, CoherencyStorage.Set]
  rcases c.source.Lock (ctx.WithTimeout timeout 0) key s.world with w1 | _ | _ <;>
    simp [Outcome.bind]
  rcases c.source.Set (ctx.WithTimeout timeout 1) key value (c.source.Timeout w1) w1
    with ⟨e2, w2⟩ | _ | _ <;> simp
  rcases c.source.Unlock (ctx.WithTimeout timeout 2) key w2 with w3 | _ | _ <;> simp
  cases e2 with
  | some e => simp [CoherencyStorage.SetStep]
  | none =>
    simp
    rcases c.cache.Lock (ctx.WithTimeout timeout 3) key w3 with w4 | _ | _ <;> simp
    rcases c.cache.Set (ctx.WithTimeout timeout 4) key value (c.cache.Timeout w4) w4
      with ⟨e5, w5⟩ | _ | _ <;> simp
    rcases c.cache.Unlock (ctx.WithTimeout timeout 5) key w5 with w6 | _ | _ <;> simp
    cases e5 <;> simp

/-- The six steps of `GetStep`, taken with no other call in between, are
`CoherencyStorage.Get`. -/
theorem CoherencyStorage.GetRun_eq_Get :
    c.GetRun ctx key timeout 6 GetPc.cacheGet s.world
      = (c.Get ctx key timeout s).bind fun r =>
          Outcome.ok (GetPc.returned r.1, r.2.world) := by
  simp only [CoherencyStorage.GetRun, CoherencyStorage.GetStep, CoherencyStorage.Get]
  rcases c.cache.Get (ctx.WithTimeout timeout 0) key (c.cache.Timeout s.world) s.world
    with ⟨⟨v1, e1⟩, w1⟩ | _ | _ <;> simp [Outcome.bind]
  by_cases hv : e1.isSome = true ∨ v1.isSome = true
  · simp [hv, CoherencyStorage.GetStep]
  · simp [hv]
    rcases c.cache.Lock (ctx.WithTimeout timeout 1) key w1 with w2 | _ | _ <;> simp
    rcases c.source.Get (ctx.WithTimeout timeout 2) key (c.cache.Timeout w2) w2
      with ⟨⟨v3, e3⟩, w3⟩ | _ | _ <;> simp
    by_cases hv3 : e3.isSome = true ∨ v3.isSome = true
    · simp [hv3]
      rcases c.cache.Unlock (ctx.WithTimeout timeout 5) key w3 with w4 | _ | _ <;>
        simp [CoherencyStorage.GetStep]
    · simp [hv3]
      rcases c.source.Get (ctx.WithTimeout timeout 3) key (c.cache.Timeout w3) w3
        with ⟨⟨v4, e4⟩, w4⟩ | _ | _ <;> simp
      cases e4 with
      | some e =>
        simp
        rcases c.cache.Unlock (ctx.WithTimeout timeout 5) key w4 with w5 | _ | _ <;>
          simp [CoherencyStorage.GetStep]
      | none =>
        simp
        rcases c.cache.Set (ctx.WithTimeout timeout 4) key v4 (c.cache.Timeout w4) w4
          with ⟨e5, w5⟩ | _ | _ <;> simp
        cases e5 <;> simp <;>
          rcases c.cache.Unlock (ctx.WithTimeout timeout 5) key w5 with w6 | _ | _ <;> simp

end Steps

/-! ## Concurrent `Set` calls on two `MemoryStorage`s -/

section ConcurrentSets

variable {KT VT : Type} [DecidableEq KT]

/-- What one step of a `Set` does, whatever its signal, on a `CoherencyStorage` over two
`MemoryStorage`s: only the step `cacheSet` changes what the cache holds under the key, and it
puts the value of the call there; the call is past its write to the cache afterwards only if it
was before or the step was `cacheSet`. -/
theorem CoherencyStorage.SetStep_memory (ctx : Context) (key : KT) (value : Option VT)
    (timeout : Duration) (pc pc1 : SetPc)
    (w w1 : MemoryStorage KT VT × MemoryStorage KT VT)
    (h : (NewCoherencyStorage (MemoryStorage.toIStorage KT VT).onFst
        (MemoryStorage.toIStorage KT VT).onSnd).SetStep ctx key value timeout pc w
      = Outcome.ok (pc1, w1)) :
    (pc = SetPc.cacheSet → w1.1.cache key = some value) ∧
    (pc ≠ SetPc.cacheSet → w1.1.cache key = w.1.cache key) ∧
    (pc1.wroteCache = true → pc.wroteCache = true ∨ pc = SetPc.cacheSet) := by
  cases pc with
  | sourceLock =>
    simp only [CoherencyStorage.SetStep, NewCoherencyStorage, IStorage.onSnd,
      MemoryStorage.toIStorage, Outcome.bind_eq_ok] at h
    obtain ⟨a, ⟨b, ⟨m, _, hm⟩, hb⟩, ha⟩ := h
    simp only [Outcome.ok.injEq, Prod.mk.injEq] at hm hb ha
    obtain ⟨rfl, rfl⟩ := ha
    subst hb
    simp [SetPc.wroteCache]
  | sourceSet =>
    simp only [CoherencyStorage.SetStep, NewCoherencyStorage, IStorage.onSnd,
      MemoryStorage.toIStorage, Outcome.bind_ok, Outcome.ok.injEq, Prod.mk.injEq] at h
    obtain ⟨rfl, rfl⟩ := h
    simp [SetPc.wroteCache]
  | sourceUnlock err =>
    simp only [CoherencyStorage.SetStep, NewCoherencyStorage, IStorage.onSnd,
      MemoryStorage.toIStorage, Outcome.bind_eq_ok] at h
    obtain ⟨a, ⟨b, ⟨m, _, hm⟩, hb⟩, ha⟩ := h
    simp only [Outcome.ok.injEq] at hm hb
    subst hb
    cases err with
    | none =>
      simp only [Option.isSome_none, Bool.false_eq_true, if_false, Outcome.ok.injEq,
        Prod.mk.injEq] at ha
      obtain ⟨rfl, rfl⟩ := ha
      simp [SetPc.wroteCache]
    | some e =>
      simp only [Option.isSome_some, if_true, Outcome.ok.injEq, Prod.mk.injEq] at ha
      obtain ⟨rfl, rfl⟩ := ha
      simp [SetPc.wroteCache]
  | cacheLock =>
    simp only [CoherencyStorage.SetStep, NewCoherencyStorage, IStorage.onFst,
      MemoryStorage.toIStorage, Outcome.bind_eq_ok] at h
    obtain ⟨a, ⟨b, ⟨m, _, hm⟩, hb⟩, ha⟩ := h
    simp only [Outcome.ok.injEq, Prod.mk.injEq] at hm hb ha
    obtain ⟨rfl, rfl⟩ := ha
    subst hb
    subst hm
    simp [SetPc.wroteCache]
  | cacheSet =>
    simp only [CoherencyStorage.SetStep, NewCoherencyStorage, IStorage.onFst,
      MemoryStorage.toIStorage, Outcome.bind_ok, Outcome.ok.injEq, Prod.mk.injEq] at h
    obtain ⟨rfl, rfl⟩ := h
    refine ⟨fun _ => ?_, fun hne => absurd rfl hne, fun _ => Or.inr rfl⟩
    unfold MemoryStorage.Set
    cases (ctx.WithTimeout timeout 4).err <;> simp
  | cacheUnlock err =>
    simp only [CoherencyStorage.SetStep, NewCoherencyStorage, IStorage.onFst,
      MemoryStorage.toIStorage, Outcome.bind_eq_ok] at h
    obtain ⟨a, ⟨b, ⟨m, _, hm⟩, hb⟩, ha⟩ := h
    simp only [Outcome.ok.injEq, Prod.mk.injEq] at hm hb ha
    obtain ⟨rfl, rfl⟩ := ha
    subst hb
    subst hm
    cases err <;> simp [SetPc.wroteCache]
  | returned err =>
    simp only [CoherencyStorage.SetStep, Outcome.ok.injEq, Prod.mk.injEq] at h
    obtain ⟨rfl, rfl⟩ := h
    simp

/-- What one step of a `Set` whose signal is live for the whole call does, on a
`CoherencyStorage` over two `MemoryStorage`s: an error that the call carries afterwards it
carried before. -/
theorem CoherencyStorage.SetStep_memory_live (ctx : Context) (key : KT) (value : Option VT)
    (timeout : Duration) (pc pc1 : SetPc)
    (w w1 : MemoryStorage KT VT × MemoryStorage KT VT)
    (hlive : ctx.live timeout)
    (h : (NewCoherencyStorage (MemoryStorage.toIStorage KT VT).onFst
        (MemoryStorage.toIStorage KT VT).onSnd).SetStep ctx key value timeout pc w
      = Outcome.ok (pc1, w1)) :
    ∀ e, (pc1 = SetPc.sourceUnlock e ∨ pc1 = SetPc.cacheUnlock e ∨ pc1 = SetPc.returned e) →
      e = none ∨ (pc = SetPc.sourceUnlock e ∨ pc = SetPc.cacheUnlock e ∨ pc = SetPc.returned e) := by
  cases pc with
  | sourceLock =>
    simp only [CoherencyStorage.SetStep, Outcome.bind_eq_ok] at h
    obtain ⟨a, _, ha⟩ := h
    simp only [Outcome.ok.injEq, Prod.mk.injEq] at ha
    obtain ⟨rfl, rfl⟩ := ha
    simp
  | sourceSet =>
    simp only [CoherencyStorage.SetStep, NewCoherencyStorage, IStorage.onSnd,
      MemoryStorage.toIStorage, MemoryStorage.Set, hlive 1, Outcome.bind_ok, Outcome.ok.injEq,
      Prod.mk.injEq] at h
    obtain ⟨rfl, rfl⟩ := h
    simp
  | sourceUnlock err =>
    simp only [CoherencyStorage.SetStep, Outcome.bind_eq_ok] at h
    obtain ⟨a, _, ha⟩ := h
    cases err with
    | none =>
      simp only [Option.isSome_none, Bool.false_eq_true, if_false, Outcome.ok.injEq,
        Prod.mk.injEq] at ha
      obtain ⟨rfl, rfl⟩ := ha
      simp
    | some e =>
      simp only [Option.isSome_some, if_true, Outcome.ok.injEq, Prod.mk.injEq] at ha
      obtain ⟨rfl, rfl⟩ := ha
      simp
  | cacheLock =>
    simp only [CoherencyStorage.SetStep, Outcome.bind_eq_ok] at h
    obtain ⟨a, _, ha⟩ := h
    simp only [Outcome.ok.injEq, Prod.mk.injEq] at ha
    obtain ⟨rfl, rfl⟩ := ha
    simp
  | cacheSet =>
    simp only [CoherencyStorage.SetStep, NewCoherencyStorage, IStorage.onFst,
      MemoryStorage.toIStorage, MemoryStorage.Set, hlive 4, Outcome.bind_ok, Outcome.ok.injEq,
      Prod.mk.injEq] at h
    obtain ⟨rfl, rfl⟩ := h
    simp
  | cacheUnlock err =>
    simp only [CoherencyStorage.SetStep, Outcome.bind_eq_ok] at h
    obtain ⟨a, _, ha⟩ := h
    simp only [Outcome.ok.injEq, Prod.mk.injEq] at ha
    obtain ⟨rfl, rfl⟩ := ha
    simp
  | returned err =>
    simp only [CoherencyStorage.SetStep, Outcome.ok.injEq, Prod.mk.injEq] at h
    obtain ⟨rfl, rfl⟩ := h
    simp

/-- One step of one of the calls `0 … n-1` keeps `SetsConsistent`. -/
theorem SetsConsistent_step (n : Nat) (key : KT) (calls : Nat → SetCall VT)
    (i : Nat) (hi : i < n)
    (cfg cfg1 : Concurrent SetPc (MemoryStorage KT VT × MemoryStorage KT VT))
    (hinv : SetsConsistent n key calls cfg)
    (h : Concurrent.step (fun k => (NewCoherencyStorage (MemoryStorage.toIStorage KT VT).onFst
        (MemoryStorage.toIStorage KT VT).onSnd).SetStep (calls k).ctx key (calls k).value
        (calls k).timeout) i cfg = some cfg1) :
    SetsConsistent n key calls cfg1 := by
  unfold Concurrent.step at h
  split at h
  · rename_i r hr
    simp only [Option.some.injEq] at h
    subst h
    obtain ⟨hset, hkeep, hwrote⟩ := CoherencyStorage.SetStep_memory (calls i).ctx key
      (calls i).value (calls i).timeout (cfg.pcs i) r.1 cfg.world r.2 hr
    have hheld := hinv
    have hafter : (cfg.pcs i = SetPc.cacheSet ∨ ∃ j, j < n ∧ (cfg.pcs j).wroteCache = true) →
        ∃ j, j < n ∧ r.2.1.cache key = some (calls j).value := by
      intro hor
      by_cases hpc : cfg.pcs i = SetPc.cacheSet
      · exact ⟨i, hi, hset hpc⟩
      · rcases hor with hor | hor
        · exact absurd hor hpc
        · obtain ⟨j, hj, hjv⟩ := hheld hor
          exact ⟨j, hj, by rw [hkeep hpc]; exact hjv⟩
    rintro ⟨k, hk, hkw⟩
    apply hafter
    by_cases hki : k = i
    · subst hki
      simp only [Function.update_same] at hkw
      rcases hwrote hkw with hw | hw
      · exact Or.inr ⟨k, hk, hw⟩
      · exact Or.inl hw
    · simp only [Function.update_noteq hki] at hkw
      exact Or.inr ⟨k, hk, hkw⟩
  · simp at h
  · simp at h

/-- Every run of the calls `0 … n-1` keeps `SetsConsistent`. -/
theorem SetsConsistent_run (n : Nat) (key : KT) (calls : Nat → SetCall VT)
    (schedule : List Nat) :
    ∀ (cfg cfg1 : Concurrent SetPc (MemoryStorage KT VT × MemoryStorage KT VT)),
      (∀ i ∈ schedule, i < n) → SetsConsistent n key calls cfg →
      Concurrent.run (fun k => (NewCoherencyStorage (MemoryStorage.toIStorage KT VT).onFst
        (MemoryStorage.toIStorage KT VT).onSnd).SetStep (calls k).ctx key (calls k).value
        (calls k).timeout) schedule cfg = some cfg1 →
      SetsConsistent n key calls cfg1 := by
  induction schedule with
  | nil =>
    intro cfg cfg1 _ hinv h
    simp only [Concurrent.run, Option.some.injEq] at h
    exact h ▸ hinv
  | cons i rest ih =>
    intro cfg cfg1 hs hinv h
    simp only [Concurrent.run] at h
    split at h
    · rename_i cfg2 h2
      exact ih cfg2 cfg1 (fun k hk => hs k (List.mem_cons_of_mem _ hk))
        (SetsConsistent_step n key calls i (hs i (List.mem_cons_self _ _)) cfg cfg2 hinv h2)
        h
    · simp at h

/-- One step of one of the calls `0 … n-1`, whose signals are live for the whole call, keeps
`SetsErrorFree`. -/
theorem SetsErrorFree_step (n : Nat) (key : KT) (calls : Nat → SetCall VT)
    (hlive : ∀ i, i < n → (calls i).ctx.live (calls i).timeout)
    (i : Nat) (hi : i < n)
    (cfg cfg1 : Concurrent SetPc (MemoryStorage KT VT × MemoryStorage KT VT))
    (hinv : SetsErrorFree n cfg)
    (h : Concurrent.step (fun k => (NewCoherencyStorage (MemoryStorage.toIStorage KT VT).onFst
        (MemoryStorage.toIStorage KT VT).onSnd).SetStep (calls k).ctx key (calls k).value
        (calls k).timeout) i cfg = some cfg1) :
    SetsErrorFree n cfg1 := by
  unfold Concurrent.step at h
  split at h
  · rename_i r hr
    simp only [Option.some.injEq] at h
    subst h
    have herr := CoherencyStorage.SetStep_memory_live (calls i).ctx key
      (calls i).value (calls i).timeout (cfg.pcs i) r.1 cfg.world r.2 (hlive i hi) hr
    intro k hk e hke
    by_cases hki : k = i
    · subst hki
      simp only [Function.update_same] at hke
      rcases herr e hke with he | he
      · exact he
      · exact hinv k hk e he
    · simp only [Function.update_noteq hki] at hke
      exact hinv k hk e hke
  · simp at h
  · simp at h

/-- Every run of the calls `0 … n-1`, whose signals are live for the whole call, keeps
`SetsErrorFree`. -/
theorem SetsErrorFree_run (n : Nat) (key : KT) (calls : Nat → SetCall VT)
    (hlive : ∀ i, i < n → (calls i).ctx.live (calls i).timeout)
    (schedule : List Nat) :
    ∀ (cfg cfg1 : Concurrent SetPc (MemoryStorage KT VT × MemoryStorage KT VT)),
      (∀ i ∈ schedule, i < n) → SetsErrorFree n cfg →
      Concurrent.run (fun k => (NewCoherencyStorage (MemoryStorage.toIStorage KT VT).onFst
        (MemoryStorage.toIStorage KT VT).onSnd).SetStep (calls k).ctx key (calls k).value
        (calls k).timeout) schedule cfg = some cfg1 →
      SetsErrorFree n cfg1 := by
  induction schedule with
  | nil =>
    intro cfg cfg1 _ hinv h
    simp only [Concurrent.run, Option.some.injEq] at h
    exact h ▸ hinv
  | cons i rest ih =>
    intro cfg cfg1 hs hinv h
    simp only [Concurrent.run] at h
    split at h
    · rename_i cfg2 h2
      exact ih cfg2 cfg1 (fun k hk => hs k (List.mem_cons_of_mem _ hk))
        (SetsErrorFree_step n key calls hlive i (hs i (List.mem_cons_self _ _)) cfg cfg2 hinv
          h2) h
    · simp at h

end ConcurrentSets

/-! ## The lock tables of two `MemoryStorage`s across one operation -/

section LockTables

variable {KT VT : Type} [DecidableEq KT]

theorem IStorage.onSnd_Get_inv {A B : Type} (st : IStorage KT VT B) {ctx : Context} {key : KT}
    {timeout : Duration} {w w1 : A × B} {r : Option VT × Option Error}
    (h : (st.onSnd (A := A)).Get ctx key timeout w = Outcome.ok (r, w1)) :
    st.Get ctx key timeout w.2 = Outcome.ok (r, w1.2) ∧ w1.1 = w.1 := by
  simp only [IStorage.onSnd, Outcome.bind_eq_ok] at h
  obtain ⟨x, hx, h⟩ := h
  cases h
  exact ⟨hx, rfl⟩

theorem IStorage.onFst_Get_inv {A B : Type} (st : IStorage KT VT A) {ctx : Context} {key : KT}
    {timeout : Duration} {w w1 : A × B} {r : Option VT × Option Error}
    (h : (st.onFst (B := B)).Get ctx key timeout w = Outcome.ok (r, w1)) :
    st.Get ctx key timeout w.1 = Outcome.ok (r, w1.1) ∧ w1.2 = w.2 := by
  simp only [IStorage.onFst, Outcome.bind_eq_ok] at h
  obtain ⟨x, hx, h⟩ := h
  cases h
  exact ⟨hx, rfl⟩

theorem IStorage.onSnd_Del_inv {A B : Type} (st : IStorage KT VT B) {ctx : Context} {key : KT}
    {timeout : Duration} {w w1 : A × B} {e : Option Error}
    (h : (st.onSnd (A := A)).Del ctx key timeout w = Outcome.ok (e, w1)) :
    st.Del ctx key timeout w.2 = Outcome.ok (e, w1.2) ∧ w1.1 = w.1 := by
  simp only [IStorage.onSnd, Outcome.bind_eq_ok] at h
  obtain ⟨x, hx, h⟩ := h
  cases h
  exact ⟨hx, rfl⟩

theorem IStorage.onFst_Del_inv {A B : Type} (st : IStorage KT VT A) {ctx : Context} {key : KT}
    {timeout : Duration} {w w1 : A × B} {e : Option Error}
    (h : (st.onFst (B := B)).Del ctx key timeout w = Outcome.ok (e, w1)) :
    st.Del ctx key timeout w.1 = Outcome.ok (e, w1.1) ∧ w1.2 = w.2 := by
  simp only [IStorage.onFst, Outcome.bind_eq_ok] at h
  obtain ⟨x, hx, h⟩ := h
  cases h
  exact ⟨hx, rfl⟩

/-- A `Get` of a `MemoryStorage` leaves its lock table as it was. -/
theorem MemoryStorage.Get_locks {ctx : Context} {key : KT} {timeout : Duration}
    {m m1 : MemoryStorage KT VT} {r : Option VT × Option Error}
    (h : (MemoryStorage.toIStorage KT VT).Get ctx key timeout m = Outcome.ok (r, m1)) :
    m1.lockMap = m.lockMap := by
  simp only [MemoryStorage.toIStorage, Outcome.ok.injEq] at h
  have h2 : m1 = (m.Get ctx key timeout).2 := by rw [h]
  subst h2
  unfold MemoryStorage.Get
  cases ctx.err <;> cases m.cache key <;> rfl

/-- A `Set` of a `MemoryStorage` leaves its lock table as it was. -/
theorem MemoryStorage.Set_locks {ctx : Context} {key : KT} {value : Option VT}
    {timeout : Duration} {m m1 : MemoryStorage KT VT} {e : Option Error}
    (h : (MemoryStorage.toIStorage KT VT).Set ctx key value timeout m = Outcome.ok (e, m1)) :
    m1.lockMap = m.lockMap := by
  simp only [MemoryStorage.toIStorage, Outcome.ok.injEq] at h
  have h2 : m1 = (m.Set ctx key value timeout).2 := by rw [h]
  subst h2
  unfold MemoryStorage.Set
  cases ctx.err <;> rfl

/-- A `Del` of a `MemoryStorage` leaves its lock table as it was. -/
theorem MemoryStorage.Del_locks {ctx : Context} {key : KT}
    {timeout : Duration} {m m1 : MemoryStorage KT VT} {e : Option Error}
    (h : (MemoryStorage.toIStorage KT VT).Del ctx key timeout m = Outcome.ok (e, m1)) :
    m1.lockMap = m.lockMap := by
  simp only [MemoryStorage.toIStorage, Outcome.ok.injEq] at h
  have h2 : m1 = (m.Del ctx key timeout).2 := by rw [h]
  subst h2
  unfold MemoryStorage.Del
  cases ctx.err <;> rfl

/-- A `Lock` of a `MemoryStorage` that returned changed the mutex of its key only. -/
theorem MemoryStorage.Lock_locks {ctx : Context} {key : KT} {m m1 : MemoryStorage KT VT}
    (h : (MemoryStorage.toIStorage KT VT).Lock ctx key m = Outcome.ok m1) :
    ∀ k, k ≠ key → m1.lockMap k = m.lockMap k := by
  simp only [MemoryStorage.toIStorage, Outcome.bind_eq_ok] at h
  obtain ⟨b, hb, hm⟩ := h
  simp only [Outcome.ok.injEq] at hm
  subst hm
  intro k hk
  unfold BaseStorage.Lock at hb
  split at hb
  · simp at hb
  · simp only [Outcome.ok.injEq] at hb
    subst hb
    simp [Function.update_noteq hk]

/-- An `Unlock` of a `MemoryStorage` that returned left the mutex of its key not held, and the
other mutexes as they were. -/
theorem MemoryStorage.Unlock_locks {ctx : Context} {key : KT} {m m1 : MemoryStorage KT VT}
    (h : (MemoryStorage.toIStorage KT VT).Unlock ctx key m = Outcome.ok m1) :
    m1.lockMap key ≠ some true ∧ ∀ k, k ≠ key → m1.lockMap k = m.lockMap k := by
  simp only [MemoryStorage.toIStorage, Outcome.bind_eq_ok] at h
  obtain ⟨b, hb, hm⟩ := h
  simp only [Outcome.ok.injEq] at hm
  subst hm
  unfold BaseStorage.Unlock at hb
  split at hb
  · rename_i hnone
    simp only [Outcome.ok.injEq] at hb
    subst hb
    exact ⟨by simp [hnone], fun _ _ => rfl⟩
  · simp only [Outcome.ok.injEq] at hb
    subst hb
    exact ⟨by simp, fun k hk => by simp [Function.update_noteq hk]⟩
  · simp at hb

/-- A lock table in which no mutex was held, then the mutex of `key` was taken, then nothing
changed, then the mutex of `key` was released: no mutex is held. -/
theorem BaseStorage.noLockHeld_of_released {key : KT} {b0 b1 b2 b3 : BaseStorage KT}
    (h0 : b0.noLockHeld) (h1 : ∀ k, k ≠ key → b1.lockMap k = b0.lockMap k)
    (h2 : b2.lockMap = b1.lockMap)
    (h3 : b3.lockMap key ≠ some true ∧ ∀ k, k ≠ key → b3.lockMap k = b2.lockMap k) :
    b3.noLockHeld := by
  intro k
  by_cases hk : k = key
  · subst hk
    exact h3.1
  · rw [h3.2 k hk, h2, h1 k hk]
    exact h0 k

section TwoStores

variable {ctx : Context} {key : KT} {timeout : Duration}
  {w w1 w2 w3 : MemoryStorage KT VT × MemoryStorage KT VT}

theorem MemoryStorage.onFst_Get_same {r : Option VT × Option Error}
    (h : (MemoryStorage.toIStorage KT VT).onFst.Get ctx key timeout w = Outcome.ok (r, w1)) :
    w1.1.lockMap = w.1.lockMap ∧ w1.2.lockMap = w.2.lockMap := by
  obtain ⟨h1, h2⟩ := IStorage.onFst_Get_inv _ h
  exact ⟨MemoryStorage.Get_locks h1, by rw [h2]⟩

theorem MemoryStorage.onSnd_Get_same {r : Option VT × Option Error}
    (h : (MemoryStorage.toIStorage KT VT).onSnd.Get ctx key timeout w = Outcome.ok (r, w1)) :
    w1.1.lockMap = w.1.lockMap ∧ w1.2.lockMap = w.2.lockMap := by
  obtain ⟨h1, h2⟩ := IStorage.onSnd_Get_inv _ h
  exact ⟨by rw [h2], MemoryStorage.Get_locks h1⟩

theorem MemoryStorage.onFst_Set_same {value : Option VT} {e : Option Error}
    (h : (MemoryStorage.toIStorage KT VT).onFst.Set ctx key value timeout w
      = Outcome.ok (e, w1)) :
    w1.1.lockMap = w.1.lockMap ∧ w1.2.lockMap = w.2.lockMap := by
  obtain ⟨h1, h2⟩ := IStorage.onFst_Set_inv _ h
  exact ⟨MemoryStorage.Set_locks h1, by rw [h2]⟩

theorem MemoryStorage.onSnd_Set_same {value : Option VT} {e : Option Error}
    (h : (MemoryStorage.toIStorage KT VT).onSnd.Set ctx key value timeout w
      = Outcome.ok (e, w1)) :
    w1.1.lockMap = w.1.lockMap ∧ w1.2.lockMap = w.2.lockMap := by
  obtain ⟨h1, h2⟩ := IStorage.onSnd_Set_inv _ h
  exact ⟨by rw [h2], MemoryStorage.Set_locks h1⟩

theorem MemoryStorage.onFst_Del_same {e : Option Error}
    (h : (MemoryStorage.toIStorage KT VT).onFst.Del ctx key timeout w = Outcome.ok (e, w1)) :
    w1.1.lockMap = w.1.lockMap ∧ w1.2.lockMap = w.2.lockMap := by
  obtain ⟨h1, h2⟩ := IStorage.onFst_Del_inv _ h
  exact ⟨MemoryStorage.Del_locks h1, by rw [h2]⟩

theorem MemoryStorage.onSnd_Del_same {e : Option Error}
    (h : (MemoryStorage.toIStorage KT VT).onSnd.Del ctx key timeout w = Outcome.ok (e, w1)) :
    w1.1.lockMap = w.1.lockMap ∧ w1.2.lockMap = w.2.lockMap := by
  obtain ⟨h1, h2⟩ := IStorage.onSnd_Del_inv _ h
  exact ⟨by rw [h2], MemoryStorage.Del_locks h1⟩

/-- Data calls only, from a state in which no mutex is held: no mutex is held. -/
theorem MemoryStorage.noLockHeld_of_same
    (hsame : w1.1.lockMap = w.1.lockMap ∧ w1.2.lockMap = w.2.lockMap)
    (h0 : w.1.toBaseStorage.noLockHeld ∧ w.2.toBaseStorage.noLockHeld) :
    w1.1.toBaseStorage.noLockHeld ∧ w1.2.toBaseStorage.noLockHeld :=
  ⟨fun k => by rw [hsame.1]; exact h0.1 k, fun k => by rw [hsame.2]; exact h0.2 k⟩

/-- The `Lock` of the cache, data calls, the `Unlock` of the cache, from a state in which no
mutex is held: no mutex is held. -/
theorem MemoryStorage.noLockHeld_of_cache_segment
    (hl : (MemoryStorage.toIStorage KT VT).onFst.Lock ctx key w = Outcome.ok w1)
    (hsame : w2.1.lockMap = w1.1.lockMap ∧ w2.2.lockMap = w1.2.lockMap)
    (hu : (MemoryStorage.toIStorage KT VT).onFst.Unlock ctx key w2 = Outcome.ok w3)
    (h0 : w.1.toBaseStorage.noLockHeld ∧ w.2.toBaseStorage.noLockHeld) :
    w3.1.toBaseStorage.noLockHeld ∧ w3.2.toBaseStorage.noLockHeld := by
  obtain ⟨hl1, hl2⟩ := IStorage.onFst_Lock_inv _ hl
  obtain ⟨hu1, hu2⟩ := IStorage.onFst_Unlock_inv _ hu
  refine ⟨BaseStorage.noLockHeld_of_released h0.1 (MemoryStorage.Lock_locks hl1) hsame.1
    (MemoryStorage.Unlock_locks hu1), ?_⟩
  intro k
  rw [hu2, hsame.2, hl2]
  exact h0.2 k

/-- The `Lock` of the source, data calls, the `Unlock` of the source, from a state in which no
mutex is held: no mutex is held. -/
theorem MemoryStorage.noLockHeld_of_source_segment
    (hl : (MemoryStorage.toIStorage KT VT).onSnd.Lock ctx key w = Outcome.ok w1)
    (hsame : w2.1.lockMap = w1.1.lockMap ∧ w2.2.lockMap = w1.2.lockMap)
    (hu : (MemoryStorage.toIStorage KT VT).onSnd.Unlock ctx key w2 = Outcome.ok w3)
    (h0 : w.1.toBaseStorage.noLockHeld ∧ w.2.toBaseStorage.noLockHeld) :
    w3.1.toBaseStorage.noLockHeld ∧ w3.2.toBaseStorage.noLockHeld := by
  obtain ⟨hl1, hl2⟩ := IStorage.onSnd_Lock_inv _ hl
  obtain ⟨hu1, hu2⟩ := IStorage.onSnd_Unlock_inv _ hu
  refine ⟨?_, BaseStorage.noLockHeld_of_released h0.2 (MemoryStorage.Lock_locks hl1) hsame.2
    (MemoryStorage.Unlock_locks hu1)⟩
  intro k
  rw [hu2, hsame.1, hl2]
  exact h0.1 k

end TwoStores

/-- A `Set` on a `CoherencyStorage` over two `MemoryStorage`s, from a state in which no mutex
is held, returns in a state in which no mutex is held. -/
theorem CoherencyState.noLockHeld_Set (ctx : Context) (key : KT) (value : Option VT)
    (timeout : Duration) (p p1 : CoherencyState KT (MemoryStorage KT VT × MemoryStorage KT VT))
    (r : Option Error) (h0 : p.noLockHeld)
    (h : (Coherent (MemoryStorage.toIStorage KT VT) (MemoryStorage.toIStorage KT VT)).Set
      ctx key value timeout p = Outcome.ok (r, p1)) : p1.noLockHeld := by
  rcases CoherencyStorage.Set_cases
      (NewCoherencyStorage (MemoryStorage.toIStorage KT VT).onFst
        (MemoryStorage.toIStorage KT VT).onSnd) ctx key timeout p h with
    ⟨e, w1, w2, w3, h1, h2, h3, _, hs⟩ | ⟨w1, w2, w3, w4, w5, w6, h1, h2, h3, h4, h5, h6, hs⟩
  · have a := MemoryStorage.noLockHeld_of_source_segment h1 (MemoryStorage.onSnd_Set_same h2)
      h3 h0.2
    rw [hs]
    exact ⟨h0.1, a⟩
  · have a := MemoryStorage.noLockHeld_of_source_segment h1 (MemoryStorage.onSnd_Set_same h2)
      h3 h0.2
    have b := MemoryStorage.noLockHeld_of_cache_segment h4 (MemoryStorage.onFst_Set_same h5)
      h6 a
    rw [hs]
    exact ⟨h0.1, b⟩

/-- A `Del` on a `CoherencyStorage` over two `MemoryStorage`s, from a state in which no mutex
is held, returns in a state in which no mutex is held. -/
theorem CoherencyState.noLockHeld_Del (ctx : Context) (key : KT)
    (timeout : Duration) (p p1 : CoherencyState KT (MemoryStorage KT VT × MemoryStorage KT VT))
    (r : Option Error) (h0 : p.noLockHeld)
    (h : (Coherent (MemoryStorage.toIStorage KT VT) (MemoryStorage.toIStorage KT VT)).Del
      ctx key timeout p = Outcome.ok (r, p1)) : p1.noLockHeld := by
  rcases CoherencyStorage.Del_cases
      (NewCoherencyStorage (MemoryStorage.toIStorage KT VT).onFst
        (MemoryStorage.toIStorage KT VT).onSnd) ctx key timeout p h with
    ⟨e, w1, w2, w3, h1, h2, h3, _, hs⟩ | ⟨w1, w2, w3, w4, w5, w6, h1, h2, h3, h4, h5, h6, hs⟩
  · have a := MemoryStorage.noLockHeld_of_source_segment h1 (MemoryStorage.onSnd_Del_same h2)
      h3 h0.2
    rw [hs]
    exact ⟨h0.1, a⟩
  · have a := MemoryStorage.noLockHeld_of_source_segment h1 (MemoryStorage.onSnd_Del_same h2)
      h3 h0.2
    have b := MemoryStorage.noLockHeld_of_cache_segment h4 (MemoryStorage.onFst_Del_same h5)
      h6 a
    rw [hs]
    exact ⟨h0.1, b⟩

/-- A `Get` on a `CoherencyStorage` over two `MemoryStorage`s, from a state in which no mutex
is held, returns in a state in which no mutex is held. -/
theorem CoherencyState.noLockHeld_Get (ctx : Context) (key : KT)
    (timeout : Duration) (p p1 : CoherencyState KT (MemoryStorage KT VT × MemoryStorage KT VT))
    (r : Option VT × Option Error) (h0 : p.noLockHeld)
    (h : (Coherent (MemoryStorage.toIStorage KT VT) (MemoryStorage.toIStorage KT VT)).Get
      ctx key timeout p = Outcome.ok (r, p1)) : p1.noLockHeld := by
  rcases CoherencyStorage.Get_cases
      (NewCoherencyStorage (MemoryStorage.toIStorage KT VT).onFst
        (MemoryStorage.toIStorage KT VT).onSnd) ctx key timeout p h with
    ⟨w1, h1, _, hs⟩ | ⟨w1, w2, h1, h2, hrest⟩
  · rw [hs]
    exact ⟨h0.1, MemoryStorage.noLockHeld_of_same (MemoryStorage.onFst_Get_same h1) h0.2⟩
  · have a := MemoryStorage.noLockHeld_of_same (MemoryStorage.onFst_Get_same h1) h0.2
    rcases hrest with ⟨w3, w4, h3, _, h4, hs⟩ | ⟨w3, h3, hrest⟩
    · rw [hs]
      exact ⟨h0.1, MemoryStorage.noLockHeld_of_cache_segment h2
        (MemoryStorage.onSnd_Get_same h3) h4 a⟩
    · have s3 := MemoryStorage.onSnd_Get_same h3
      rcases hrest with ⟨v, e, w4, w5, h4, h5, _, hs⟩ | ⟨v, e, w4, w5, w6, h4, h5, h6, _, hs⟩
      · have s4 := MemoryStorage.onSnd_Get_same h4
        rw [hs]
        exact ⟨h0.1, MemoryStorage.noLockHeld_of_cache_segment h2
          ⟨s4.1.trans s3.1, s4.2.trans s3.2⟩ h5 a⟩
      · have s4 := MemoryStorage.onSnd_Get_same h4
        have s5 := MemoryStorage.onFst_Set_same h5
        rw [hs]
        exact ⟨h0.1, MemoryStorage.noLockHeld_of_cache_segment h2
          ⟨s5.1.trans (s4.1.trans s3.1), s5.2.trans (s4.2.trans s3.2)⟩ h6 a⟩

end LockTables

/-! ## The locks of the stores of the package are mutexes -/

section Mutexes

variable {KT VT : Type} [DecidableEq KT]

/-- The `Lock` of a `MemoryStorage` is a mutex: it returns only from a state in which the mutex
of the key is not held, and leaves it held. -/
theorem MemoryStorage.Lock_excludes {ctx : Context} {key : KT} {m m1 : MemoryStorage KT VT}
    (h : (MemoryStorage.toIStorage KT VT).Lock ctx key m = Outcome.ok m1) :
    ¬ m.lockMap key = some true ∧ m1.lockMap key = some true := by
  simp only [MemoryStorage.toIStorage, Outcome.bind_eq_ok] at h
  obtain ⟨b, hb, hm⟩ := h
  simp only [Outcome.ok.injEq] at hm
  subst hm
  unfold BaseStorage.Lock at hb
  split at hb
  · simp at hb
  · rename_i hfree
    simp only [Outcome.ok.injEq] at hb
    subst hb
    exact ⟨fun hheld => hfree hheld, by simp⟩

/-- The `Lock` of a `CoherencyStorage` is a mutex: it returns only from a state in which the
mutex of the key in its own lock table is not held, and leaves it held. -/
theorem CoherencyStorage.ownLock_excludes {W : Type} (c : CoherencyStorage KT VT W) {ctx : Context}
    {key : KT} {s s1 : CoherencyState KT W} (h : c.toIStorage.Lock ctx key s = Outcome.ok s1) :
    ¬ s.lockMap key = some true ∧ s1.lockMap key = some true := by
  simp only [CoherencyStorage.toIStorage] at h
  unfold CoherencyStorage.Lock at h
  split at h
  · simp at h
  · rename_i hfree
    simp only [Outcome.ok.injEq] at h
    subst h
    exact ⟨fun hheld => hfree hheld, by simp⟩

/-- The `Get` of a `CoherencyStorage` leaves its own lock table as it was. -/
theorem CoherencyStorage.Get_own {W : Type} (c : CoherencyStorage KT VT W) {ctx : Context}
    {key : KT} {timeout : Duration} {s s1 : CoherencyState KT W} {r : Option VT × Option Error}
    (h : c.toIStorage.Get ctx key timeout s = Outcome.ok (r, s1)) :
    s1.lockMap = s.lockMap := by
  rcases CoherencyStorage.Get_cases c ctx key timeout s h with
    ⟨w1, _, _, hs⟩ | ⟨w1, w2, _, _, ⟨w3, w4, _, _, _, hs⟩ |
      ⟨w3, _, ⟨v, e, w4, w5, _, _, _, hs⟩ | ⟨v, e, w4, w5, w6, _, _, _, _, hs⟩⟩⟩ <;>
    rw [hs]

/-- The `Set` of a `CoherencyStorage` leaves its own lock table as it was. -/
theorem CoherencyStorage.Set_own {W : Type} (c : CoherencyStorage KT VT W) {ctx : Context}
    {key : KT} {value : Option VT} {timeout : Duration} {s s1 : CoherencyState KT W}
    {r : Option Error} (h : c.toIStorage.Set ctx key value timeout s = Outcome.ok (r, s1)) :
    s1.lockMap = s.lockMap := by
  rcases CoherencyStorage.Set_cases c ctx key timeout s h with
    ⟨e, w1, w2, w3, _, _, _, _, hs⟩ | ⟨w1, w2, w3, w4, w5, w6, _, _, _, _, _, _, hs⟩ <;>
    rw [hs]

end Mutexes

/-! ## Concurrent `Get` calls on a cache whose `Lock` is a mutex -/

section ConcurrentGets

variable {KT VT A B : Type}

/-- What one step of a `Get` does to the lock of the cache, on a `CoherencyStorage` whose cache
and source are separate objects, when the `Lock` of the cache is a mutex for the key (`held`
are the states in which it is held: `Lock` returns only from a state in which it is not held
and leaves it held) that the `Get` and the `Set` of the cache leave held: the step `cacheLock`
finds the mutex free and leaves it held; the step `cacheUnlock` ends the holding; every other
step leaves a held mutex held and the holding as it was. -/
theorem CoherencyStorage.GetStep_mutex (cache : IStorage KT VT A) (source : IStorage KT VT B)
    (key : KT) (held : A → Prop)
    (hLock : ∀ ctx a a1, cache.Lock ctx key a = Outcome.ok a1 → ¬ held a ∧ held a1)
    (hGet : ∀ ctx timeout a r a1, cache.Get ctx key timeout a = Outcome.ok (r, a1) →
      held a → held a1)
    (hSet : ∀ ctx value timeout a e a1, cache.Set ctx key value timeout a = Outcome.ok (e, a1) →
      held a → held a1)
    (ctx : Context) (timeout : Duration) (pc pc1 : GetPc VT) (w w1 : A × B)
    (h : (NewCoherencyStorage cache.onFst source.onSnd).GetStep ctx key timeout pc w
      = Outcome.ok (pc1, w1)) :
    (pc = GetPc.cacheLock ∧ ¬ held w.1 ∧ held w1.1 ∧ pc1.holdsLock = true) ∨
    ((∃ r, pc = GetPc.cacheUnlock r) ∧ pc1.holdsLock = false) ∨
    ((held w.1 → held w1.1) ∧ pc1.holdsLock = pc.holdsLock) := by
  cases pc with
  | cacheGet =>
    simp only [CoherencyStorage.GetStep, NewCoherencyStorage, IStorage.onFst,
      Outcome.bind_eq_ok] at h
    obtain ⟨a, ⟨b, hb, hab⟩, ha⟩ := h
    simp only [Outcome.ok.injEq] at hab
    subst hab
    refine Or.inr (Or.inr ?_)
    have hkeep := hGet _ _ _ _ _ hb
    split at ha <;>
    · simp only [Outcome.ok.injEq, Prod.mk.injEq] at ha
      obtain ⟨rfl, rfl⟩ := ha
      exact ⟨hkeep, rfl⟩
  | cacheLock =>
    simp only [CoherencyStorage.GetStep, NewCoherencyStorage, IStorage.onFst,
      Outcome.bind_eq_ok] at h
    obtain ⟨a, ⟨b, hb, hab⟩, ha⟩ := h
    simp only [Outcome.ok.injEq, Prod.mk.injEq] at hab ha
    obtain ⟨rfl, rfl⟩ := ha
    subst hab
    obtain ⟨hfree, hnow⟩ := hLock _ _ _ hb
    exact Or.inl ⟨rfl, hfree, hnow, rfl⟩
  | sourceGet =>
    simp only [CoherencyStorage.GetStep, NewCoherencyStorage, IStorage.onSnd, IStorage.onFst,
      Outcome.bind_eq_ok] at h
    obtain ⟨a, ⟨b, _, hb⟩, ha⟩ := h
    simp only [Outcome.ok.injEq] at hb
    subst hb
    refine Or.inr (Or.inr ?_)
    split at ha <;>
    · simp only [Outcome.ok.injEq, Prod.mk.injEq] at ha
      obtain ⟨rfl, rfl⟩ := ha
      exact ⟨id, rfl⟩
  | sourceGetAgain =>
    simp only [CoherencyStorage.GetStep, NewCoherencyStorage, IStorage.onSnd, IStorage.onFst,
      Outcome.bind_eq_ok] at h
    obtain ⟨a, ⟨b, _, hb⟩, ha⟩ := h
    simp only [Outcome.ok.injEq] at hb
    subst hb
    refine Or.inr (Or.inr ?_)
    split at ha <;>
    · simp only [Outcome.ok.injEq, Prod.mk.injEq] at ha
      obtain ⟨rfl, rfl⟩ := ha
      exact ⟨id, rfl⟩
  | cacheSet v =>
    simp only [CoherencyStorage.GetStep, NewCoherencyStorage, IStorage.onFst,
      Outcome.bind_eq_ok] at h
    obtain ⟨a, ⟨b, hb, hab⟩, ha⟩ := h
    simp only [Outcome.ok.injEq] at hab
    subst hab
    refine Or.inr (Or.inr ?_)
    have hkeep := hSet _ _ _ _ _ _ hb
    split at ha <;>
    · simp only [Outcome.ok.injEq, Prod.mk.injEq] at ha
      obtain ⟨rfl, rfl⟩ := ha
      exact ⟨hkeep, rfl⟩
  | cacheUnlock r =>
    simp only [CoherencyStorage.GetStep, Outcome.bind_eq_ok] at h
    obtain ⟨a, _, ha⟩ := h
    simp only [Outcome.ok.injEq, Prod.mk.injEq] at ha
    obtain ⟨rfl, rfl⟩ := ha
    exact Or.inr (Or.inl ⟨⟨r, rfl⟩, rfl⟩)
  | returned r =>
    simp only [CoherencyStorage.GetStep, Outcome.ok.injEq, Prod.mk.injEq] at h
    obtain ⟨rfl, rfl⟩ := h
    exact Or.inr (Or.inr ⟨id, rfl⟩)

/-- One step of one of the calls keeps `GetsExclusive`. -/
theorem GetsExclusive_step (cache : IStorage KT VT A) (source : IStorage KT VT B)
    (key : KT) (held : A → Prop)
    (hLock : ∀ ctx a a1, cache.Lock ctx key a = Outcome.ok a1 → ¬ held a ∧ held a1)
    (hGet : ∀ ctx timeout a r a1, cache.Get ctx key timeout a = Outcome.ok (r, a1) →
      held a → held a1)
    (hSet : ∀ ctx value timeout a e a1, cache.Set ctx key value timeout a = Outcome.ok (e, a1) →
      held a → held a1)
    (calls : Nat → GetCall)
    (i : Nat) (cfg cfg1 : Concurrent (GetPc VT) (A × B))
    (hinv : GetsExclusive held cfg)
    (h : Concurrent.step (fun k => (NewCoherencyStorage cache.onFst source.onSnd).GetStep
        (calls k).ctx key (calls k).timeout) i cfg = some cfg1) :
    GetsExclusive held cfg1 := by
  unfold Concurrent.step at h
  split at h
  · rename_i r hr
    simp only [Option.some.injEq] at h
    subst h
    obtain ⟨huniq, hheld⟩ := hinv
    have hother : ∀ k, k ≠ i → (Function.update cfg.pcs i r.1 k).holdsLock = true →
        (cfg.pcs k).holdsLock = true := by
      intro k hk hkh
      simpa [Function.update_noteq hk] using hkh
    rcases CoherencyStorage.GetStep_mutex cache source key held hLock hGet hSet (calls i).ctx
        (calls i).timeout (cfg.pcs i) r.1 cfg.world r.2 hr with
      ⟨_, hfree, hnow, _⟩ | ⟨⟨res, hpc⟩, hoff⟩ | ⟨hsame, hpcs⟩
    · have hnone : ∀ k, (cfg.pcs k).holdsLock = true → False :=
        fun k hk => hfree (hheld ⟨k, hk⟩)
      have honly : ∀ k, (Function.update cfg.pcs i r.1 k).holdsLock = true → k = i := by
        intro k hk
        by_contra hki
        exact hnone k (hother k hki hk)
      exact ⟨fun a b ha hb => (honly a ha).trans (honly b hb).symm, fun _ => hnow⟩
    · have hi : (cfg.pcs i).holdsLock = true := by rw [hpc]; rfl
      have hnone : ∀ k, (Function.update cfg.pcs i r.1 k).holdsLock = true → False := by
        intro k hk
        by_cases hki : k = i
        · subst hki
          simp only [Function.update_same] at hk
          rw [hoff] at hk
          exact Bool.false_ne_true hk
        · exact hki (huniq k i (hother k hki hk) hi)
      exact ⟨fun a _ ha _ => (hnone a ha).elim, fun ⟨k, hk⟩ => (hnone k hk).elim⟩
    · have hback : ∀ k, (Function.update cfg.pcs i r.1 k).holdsLock = true →
          (cfg.pcs k).holdsLock = true := by
        intro k hk
        by_cases hki : k = i
        · subst hki
          simp only [Function.update_same] at hk
          rw [← hpcs]
          exact hk
        · exact hother k hki hk
      refine ⟨fun a b ha hb => huniq a b (hback a ha) (hback b hb), ?_⟩
      rintro ⟨k, hk⟩
      exact hsame (hheld ⟨k, hback k hk⟩)
  · simp at h
  · simp at h

/-- Every run keeps `GetsExclusive`. -/
theorem GetsExclusive_run (cache : IStorage KT VT A) (source : IStorage KT VT B)
    (key : KT) (held : A → Prop)
    (hLock : ∀ ctx a a1, cache.Lock ctx key a = Outcome.ok a1 → ¬ held a ∧ held a1)
    (hGet : ∀ ctx timeout a r a1, cache.Get ctx key timeout a = Outcome.ok (r, a1) →
      held a → held a1)
    (hSet : ∀ ctx value timeout a e a1, cache.Set ctx key value timeout a = Outcome.ok (e, a1) →
      held a → held a1)
    (calls : Nat → GetCall) (schedule : List Nat) :
    ∀ (cfg cfg1 : Concurrent (GetPc VT) (A × B)),
      GetsExclusive held cfg →
      Concurrent.run (fun k => (NewCoherencyStorage cache.onFst source.onSnd).GetStep
        (calls k).ctx key (calls k).timeout) schedule cfg = some cfg1 →
      GetsExclusive held cfg1 := by
  induction schedule with
  | nil =>
    intro cfg cfg1 hinv h
    simp only [Concurrent.run, Option.some.injEq] at h
    exact h ▸ hinv
  | cons i rest ih =>
    intro cfg cfg1 hinv h
    simp only [Concurrent.run] at h
    split at h
    · rename_i cfg2 h2
      exact ih cfg2 cfg1
        (GetsExclusive_step cache source key held hLock hGet hSet calls i cfg cfg2 hinv h2) h
    · simp at h

/-- The invariant `GetsExclusive` on a `CoherencyStorage` whose cache is a `MemoryStorage`: the
`Lock` of `BaseStorage` is a mutex that `Get` and `Set` leave alone. -/
theorem GetsExclusive_run_memory [DecidableEq KT] (source : IStorage KT VT B) (key : KT)
    (calls : Nat → GetCall) (schedule : List Nat)
    (cfg cfg1 : Concurrent (GetPc VT) (MemoryStorage KT VT × B))
    (hinv : GetsExclusive (fun m : MemoryStorage KT VT => m.lockMap key = some true) cfg)
    (hrun : Concurrent.run (fun k => (NewCoherencyStorage (MemoryStorage.toIStorage KT VT).onFst
        source.onSnd).GetStep (calls k).ctx key (calls k).timeout) schedule cfg = some cfg1) :
    GetsExclusive (fun m : MemoryStorage KT VT => m.lockMap key = some true) cfg1 :=
  GetsExclusive_run (MemoryStorage.toIStorage KT VT) source key _
    (fun _ _ _ h => MemoryStorage.Lock_excludes h)
    (fun _ _ _ _ _ h hheld => (congrFun (MemoryStorage.Get_locks h) key).trans hheld)
    (fun _ _ _ _ _ _ h hheld => (congrFun (MemoryStorage.Set_locks h) key).trans hheld)
    calls schedule cfg cfg1 hinv hrun

/-- The invariant `GetsExclusive` on a `CoherencyStorage` whose cache is a `CoherencyStorage`
itself, over any backends: the `Lock` of `CoherencyStorage` is a mutex in its own lock table,
which its `Get` and `Set` leave alone. -/
theorem GetsExclusive_run_nested [DecidableEq KT] {W : Type} (inner : CoherencyStorage KT VT W)
    (source : IStorage KT VT B) (key : KT) (calls : Nat → GetCall) (schedule : List Nat)
    (cfg cfg1 : Concurrent (GetPc VT) (CoherencyState KT W × B))
    (hinv : GetsExclusive (fun p : CoherencyState KT W => p.lockMap key = some true) cfg)
    (hrun : Concurrent.run (fun k => (NewCoherencyStorage inner.toIStorage.onFst
        source.onSnd).GetStep (calls k).ctx key (calls k).timeout) schedule cfg = some cfg1) :
    GetsExclusive (fun p : CoherencyState KT W => p.lockMap key = some true) cfg1 :=
  GetsExclusive_run inner.toIStorage source key _
    (fun _ _ _ h => CoherencyStorage.ownLock_excludes inner h)
    (fun _ _ _ _ _ h hheld => (congrFun (CoherencyStorage.Get_own inner h) key).trans hheld)
    (fun _ _ _ _ _ _ h hheld => (congrFun (CoherencyStorage.Set_own inner h) key).trans hheld)
    calls schedule cfg cfg1 hinv hrun

end ConcurrentGets

/-! ## A timeout that elapses

A live ambient signal and a positive timeout do not make an operation succeed: what counts is
whether the timeout has elapsed when a `MemoryStorage` looks at the signal. -/

section Elapsed

variable {KT VT : Type} [DecidableEq KT]

/-- A `Get` on a `CoherencyStorage` over two `MemoryStorage`s whose timeout has elapsed when the
cache is looked up returns a nil value and `DeadlineExceeded`, whatever the stores hold, and
changes nothing. -/
theorem CoherencyStorage.Get_elapsed (ctx : Context) (key : KT) (timeout : Duration)
    (s : CoherencyState KT (MemoryStorage KT VT × MemoryStorage KT VT))
    (hctx : ctx.err = none) (hlook : timeout ≤ ctx.elapsed [0]) :
    (Coherent (MemoryStorage.toIStorage KT VT) (MemoryStorage.toIStorage KT VT)).Get
        ctx key timeout s
      = Outcome.ok ((none, some Error.DeadlineExceeded), s) := by
  have hsub := Context.WithTimeout_elapsed ctx timeout 0 hctx hlook
  refine CoherencyStorage.Get_of_cache
    (NewCoherencyStorage (MemoryStorage.toIStorage KT VT).onFst
      (MemoryStorage.toIStorage KT VT).onSnd)
    ctx key timeout s none (some Error.DeadlineExceeded) s.world ?_ rfl
  simp [NewCoherencyStorage, IStorage.onFst, MemoryStorage.toIStorage, MemoryStorage.Get, hsub]

/-- A `Set` on a `CoherencyStorage` over two `MemoryStorage`s whose timeout has elapsed when the
source is written returns `DeadlineExceeded`; the value is in the source all the same, and the
cache is as it was. -/
theorem CoherencyStorage.Set_elapsed (ctx : Context) (key : KT) (value : Option VT)
    (timeout : Duration) (s : CoherencyState KT (MemoryStorage KT VT × MemoryStorage KT VT))
    (hctx : ctx.err = none) (hlook : timeout ≤ ctx.elapsed [1])
    (hsfree : s.world.2.lockMap key ≠ some true) :
    ∃ s1, (Coherent (MemoryStorage.toIStorage KT VT) (MemoryStorage.toIStorage KT VT)).Set
          ctx key value timeout s = Outcome.ok (some Error.DeadlineExceeded, s1) ∧
      s1.world.2.cache key = some value ∧ s1.world.1 = s.world.1 := by
  have hsub := Context.WithTimeout_elapsed ctx timeout 1 hctx hlook
  refine ⟨{ s with world := (s.world.1,
      { lockMap := Function.update (Function.update s.world.2.lockMap key (some true)) key
          (some false),
        cache := Function.update s.world.2.cache key (some value) }) }, ?_, by simp, rfl⟩
  refine CoherencyStorage.Set_of_source_error
    (NewCoherencyStorage (MemoryStorage.toIStorage KT VT).onFst
      (MemoryStorage.toIStorage KT VT).onSnd) ctx key timeout s value Error.DeadlineExceeded
    (s.world.1,
      { s.world.2 with lockMap := Function.update s.world.2.lockMap key (some true) })
    (s.world.1,
      { lockMap := Function.update s.world.2.lockMap key (some true),
        cache := Function.update s.world.2.cache key (some value) })
    _ ?_ ?_ ?_
  · simp only [NewCoherencyStorage, IStorage.onSnd, MemoryStorage.toIStorage,
      BaseStorage.Lock]
    rfl
  · simp [NewCoherencyStorage, IStorage.onSnd, MemoryStorage.toIStorage, MemoryStorage.Set,
      hsub]
  · simp [NewCoherencyStorage, IStorage.onSnd, MemoryStorage.toIStorage, BaseStorage.Unlock]

/-- With the signal of the scenarios and a timeout of one nanosecond, `Get` on stores that hold
the key returns `DeadlineExceeded`. -/
theorem Scenario.get_in_one_nanosecond :
    (Coherent (MemoryStorage.toIStorage String String)
        (MemoryStorage.toIStorage String String)).Get Scenario.ctx "k" 1 Scenario.bothHold
      = Outcome.ok ((none, some Error.DeadlineExceeded), Scenario.bothHold) :=
  CoherencyStorage.Get_elapsed Scenario.ctx "k" 1 Scenario.bothHold rfl (by decide)

/-- With the signal of the scenarios and a timeout of one nanosecond, `Set` on freshly
constructed stores returns `DeadlineExceeded`, with the value in the source and not in the
cache. -/
theorem Scenario.set_in_one_nanosecond :
    ∃ s1, (Coherent (MemoryStorage.toIStorage String String)
          (MemoryStorage.toIStorage String String)).Set Scenario.ctx "k" (some "v") 1
          Scenario.fresh = Outcome.ok (some Error.DeadlineExceeded, s1) ∧
      s1.world.2.cache "k" = some (some "v") ∧ s1.world.1.cache "k" = none :=
  ⟨_, rfl, rfl, rfl⟩

end Elapsed

/-! ## Runs of `BlockCallWithTimeout` -/

section BlockCalls

variable {RT : Type} (f : Outcome (Option RT × Option Error))

theorem BlockCall.Consistent_start (ctx : Context) (timeout : Duration) :
    BlockCall.Consistent f (BlockCallWithTimeout.start RT ctx timeout) := by
  refine ⟨?_, ?_, ?_, ?_⟩ <;> intro x h <;> simp [BlockCallWithTimeout.start] at h

theorem BlockCall.Consistent_step (ev : BlockEvent) (st st1 : BlockCall RT)
    (hinv : BlockCall.Consistent f st) (h : BlockCallWithTimeout.step f ev st = some st1) :
    BlockCall.Consistent f st1 := by
  obtain ⟨h1, h2, h3, h4⟩ := hinv
  obtain ⟨worker, chan, tctx, caller⟩ := st
  simp only at h1 h2 h3 h4
  cases ev with
  | finish =>
    cases worker <;> cases f <;> simp [BlockCallWithTimeout.step] at h
    subst h
    exact ⟨by simp, h2, h3, h4⟩
  | send =>
    cases worker <;> cases chan <;> simp [BlockCallWithTimeout.step] at h
    subst h
    exact ⟨by simp, by simpa using h1 _ rfl, h3, h4⟩
  | abandon =>
    cases worker <;> cases hc : tctx.err <;> simp [BlockCallWithTimeout.step, hc] at h
    subst h
    exact ⟨by simp, h2, h3, h4⟩
  | fire e =>
    cases hc : tctx.err <;> simp [BlockCallWithTimeout.step, hc] at h
    subst h
    refine ⟨h1, h2, h3, ?_⟩
    intro x hx
    obtain ⟨e1, he1, _⟩ := h4 x hx
    rw [hc] at he1
    cases he1
  | receive =>
    cases caller <;> cases chan <;> simp [BlockCallWithTimeout.step] at h
    subst h
    refine ⟨h1, by simp, ?_, by simp⟩
    intro x hx
    simp only [CallerPc.returned.injEq, true_and] at hx
    subst hx
    exact h2 _ rfl
  | timeout =>
    cases caller <;> cases hc : tctx.err <;> simp [BlockCallWithTimeout.step, hc] at h
    rename_i e
    by_cases hd : e.Is Error.DeadlineExceeded = true
    · simp [hd] at h
      subst h
      refine ⟨h1, h2, by simp, ?_⟩
      intro x hx
      simp only [CallerPc.returned.injEq, true_and] at hx
      exact ⟨e, hc, by simp [← hx, hd]⟩
    · simp [hd] at h
      subst h
      refine ⟨h1, h2, by simp, ?_⟩
      intro x hx
      simp only [CallerPc.returned.injEq, true_and] at hx
      exact ⟨e, hc, by simp [← hx, hd]⟩

theorem BlockCall.Consistent_run (events : List BlockEvent) :
    ∀ (st st1 : BlockCall RT), BlockCall.Consistent f st →
      BlockCallWithTimeout.run f events st = some st1 → BlockCall.Consistent f st1 := by
  induction events with
  | nil =>
    intro st st1 hinv h
    simp only [BlockCallWithTimeout.run, Option.some.injEq] at h
    exact h ▸ hinv
  | cons ev rest ih =>
    intro st st1 hinv h
    simp only [BlockCallWithTimeout.run] at h
    cases hs : BlockCallWithTimeout.step f ev st with
    | none => simp [hs] at h
    | some st2 =>
      simp only [hs] at h
      exact ih st2 st1 (BlockCall.Consistent_step f ev st st2 hinv hs) h

end BlockCalls

/-! # The claims -/

section Claims

variable {KT VT : Type} [DecidableEq KT]

/-- A hierarchy that holds the value in every `MemoryStorage` answers `Get` with it at every
level. -/
theorem Shape.everyLevel_of_holds (sh : Shape) (key : KT) (v : VT) :
    ∀ (w : sh.World KT VT), sh.leaves key (fun x => x = some (some v)) w →
      sh.everyLevel (fun sh1 w1 => ∀ (ctx : Context) (timeout : Duration),
        sh1.live ctx timeout →
        (Shape.storage KT VT sh1).Get ctx key timeout w1 = Outcome.ok ((some v, none), w1)) w := by
  induction sh with
  | memory =>
    intro m h ctx timeout hlive
    exact Shape.Get_hit Shape.memory key v ctx timeout m hlive h
  | coherency c s ihc ihs =>
    intro w h
    exact ⟨fun ctx timeout hlive => Shape.Get_hit (Shape.coherency c s) key v ctx timeout w hlive h,
      ihc _ h.1, ihs _ h.2⟩

/-- A quiet hierarchy in which the key reads as absent in every `MemoryStorage` answers `Get`
with absent at every level. -/
theorem Shape.everyLevel_of_absent (sh : Shape) (key : KT) :
    ∀ (w : sh.World KT VT), sh.belowFree key w → sh.leaves key ReadsAbsent w →
      sh.everyLevel (fun sh1 w1 => ∀ (ctx : Context) (timeout : Duration),
        sh1.live ctx timeout →
        ∃ w2, (Shape.storage KT VT sh1).Get ctx key timeout w1
          = Outcome.ok ((none, none), w2)) w := by
  induction sh with
  | memory =>
    intro m hf h ctx timeout hlive
    obtain ⟨w2, h2, _⟩ := Shape.Get_absent Shape.memory key ctx timeout m hlive hf h
    exact ⟨w2, h2⟩
  | coherency c s ihc ihs =>
    intro w hf h
    refine ⟨fun ctx timeout hlive => ?_, ihc _ hf.1.2 h.1, ihs _ hf.2.2 h.2⟩
    obtain ⟨w2, h2, _⟩ := Shape.Get_absent (Shape.coherency c s) key ctx timeout w hlive hf h
    exact ⟨w2, h2⟩

theorem Shape.fresh_belowFree (sh : Shape) (key : KT) :
    sh.belowFree key (Shape.fresh KT VT sh) := by
  induction sh with
  | memory => trivial
  | coherency c s ihc ihs =>
    refine ⟨⟨?_, ihc⟩, ⟨?_, ihs⟩⟩
    · cases c <;> simp [Shape.fresh, Shape.own, NewMemoryStorage, NewCoherencyState]
    · cases s <;> simp [Shape.fresh, Shape.own, NewMemoryStorage, NewCoherencyState]

theorem Shape.fresh_leaves (sh : Shape) (key : KT) :
    sh.leaves key (fun x => x = none) (Shape.fresh KT VT sh) := by
  induction sh with
  | memory => rfl
  | coherency c s ihc ihs => exact ⟨ihc, ihs⟩

/-- C1: for every hierarchy of `CoherencyStorage`s over `MemoryStorage` leaves (every `Shape`:
a bare `MemoryStorage`, a `CoherencyStorage` over two of them, a chain of any depth, and any
other nesting), every key, every non-nil value and every prior state: once `Set(key, value)` on
the outermost store has returned a nil error, `Get(key)` with a signal that is live (not
cancelled, and no deadline passed while the `Get` runs: every `MemoryStorage` that the `Get`
reaches finds the context it is handed live) returns exactly that value and a nil error, on the
outermost store and on every store of the hierarchy called directly. -/
theorem C1_set_then_get_at_every_level (sh : Shape) (key : KT) (value : VT) (ctx : Context)
    (timeout : Duration) (w w1 : sh.World KT VT)
    (hset : (Shape.storage KT VT sh).Set ctx key (some value) timeout w = Outcome.ok (none, w1)) :
    sh.everyLevel (fun sh1 v1 => ∀ (ctxG : Context) (timeoutG : Duration),
      sh1.live ctxG timeoutG →
      (Shape.storage KT VT sh1).Get ctxG key timeoutG v1 = Outcome.ok ((some value, none), v1)) w1 :=
  Shape.everyLevel_of_holds sh key value w1 (Shape.Set_holds sh key (some value) ctx timeout w w1 hset)

/-- Witness of C1: the scenario "L1 Set and Consistency" of the tests, three levels; every
level then answers a `Get` with the signal and the timeout of the tests. -/
theorem C1_set_then_get_at_every_level_witness :
    (Shape.storage String String (Shape.chain 2)).Set Scenario.ctx "l1_set_key"
        (some "l1_set_value") (Millisecond * 100) (Shape.fresh String String (Shape.chain 2))
      = Outcome.ok (none, Scenario.afterL1Set) ∧
    (Shape.chain 2).everyLevel (fun sh1 v1 => ∀ (ctxG : Context) (timeoutG : Duration),
      sh1.live ctxG timeoutG →
      (Shape.storage String String sh1).Get ctxG "l1_set_key" timeoutG v1
        = Outcome.ok ((some "l1_set_value", none), v1)) Scenario.afterL1Set ∧
    (Shape.chain 2).everyLevel (fun sh1 v1 =>
      (Shape.storage String String sh1).Get Scenario.ctx "l1_set_key" (Millisecond * 100) v1
        = Outcome.ok ((some "l1_set_value", none), v1)) Scenario.afterL1Set :=
  ⟨rfl, C1_set_then_get_at_every_level (Shape.chain 2) "l1_set_key" "l1_set_value"
    Scenario.ctx (Millisecond * 100) (Shape.fresh String String (Shape.chain 2))
    Scenario.afterL1Set (by rfl), ⟨rfl, rfl, rfl, rfl, rfl⟩⟩

/-- C2: for every hierarchy of `CoherencyStorage`s over `MemoryStorage` leaves, every key, every
value and every prior state in which no other caller holds a lock for the key, with signals
that are live (not cancelled, and no deadline passed while the call runs): `Set(key, value)` and
then `Del(key)` on the outermost store both return a nil error, and afterwards `Get(key)`
returns absent (nil value, nil error) on the outermost store and on every store of the
hierarchy called directly. -/
theorem C2_set_del_then_get_absent_at_every_level (sh : Shape) (key : KT) (value : Option VT)
    (ctxS ctxD : Context) (timeoutS timeoutD : Duration) (w : sh.World KT VT)
    (hS : sh.live ctxS timeoutS) (hD : sh.live ctxD timeoutD) (hfree : sh.belowFree key w) :
    ∃ w1 w2,
      (Shape.storage KT VT sh).Set ctxS key value timeoutS w = Outcome.ok (none, w1) ∧
      (Shape.storage KT VT sh).Del ctxD key timeoutD w1 = Outcome.ok (none, w2) ∧
      sh.everyLevel (fun sh1 v1 => ∀ (ctxG : Context) (timeoutG : Duration),
        sh1.live ctxG timeoutG →
        ∃ v2, (Shape.storage KT VT sh1).Get ctxG key timeoutG v1
          = Outcome.ok ((none, none), v2)) w2 := by
  obtain ⟨w1, h1, _, hf1, _⟩ := Shape.Set_ok sh key value ctxS timeoutS w hS hfree
  obtain ⟨w2, h2, _, hf2, hl2⟩ := Shape.Del_ok sh key ctxD timeoutD w1 hD hf1
  exact ⟨w1, w2, h1, h2, Shape.everyLevel_of_absent sh key w2 hf2
    (Shape.leaves_mono sh key (fun _ hx => Or.inl hx) w2 hl2)⟩

/-- Witness of C2: the scenario "Delete Consistency" of the tests, three levels. -/
theorem C2_set_del_then_get_absent_at_every_level_witness :
    (Shape.chain 2).live Scenario.ctx (Millisecond * 100) ∧
    (Shape.chain 2).belowFree "delete_key" (Shape.fresh String String (Shape.chain 2)) ∧
    ∃ w1 w2,
      (Shape.storage String String (Shape.chain 2)).Set Scenario.ctx "delete_key"
        (some "delete_value") (Millisecond * 100) (Shape.fresh String String (Shape.chain 2))
        = Outcome.ok (none, w1) ∧
      (Shape.storage String String (Shape.chain 2)).Del Scenario.ctx "delete_key"
        (Millisecond * 100) w1 = Outcome.ok (none, w2) ∧
      (Shape.chain 2).everyLevel (fun sh1 v1 => ∀ (ctxG : Context) (timeoutG : Duration),
        sh1.live ctxG timeoutG →
        ∃ v2, (Shape.storage String String sh1).Get ctxG "delete_key" timeoutG v1
          = Outcome.ok ((none, none), v2)) w2 :=
  ⟨Shape.live_of_staysLive _ _ _ (Scenario.ctx_staysLive (by decide)), Shape.fresh_belowFree _ _,
    C2_set_del_then_get_absent_at_every_level (Shape.chain 2) "delete_key" (some "delete_value")
      Scenario.ctx Scenario.ctx (Millisecond * 100) (Millisecond * 100)
      (Shape.fresh String String (Shape.chain 2))
      (Shape.live_of_staysLive _ _ _ (Scenario.ctx_staysLive (by decide)))
      (Shape.live_of_staysLive _ _ _ (Scenario.ctx_staysLive (by decide)))
      (Shape.fresh_belowFree _ _)⟩

/-- C3, the code at `TestCacheMissScenario`: with the value in the source only, `Get` returns
the source's value, and the cache has no entry for the key afterwards; a direct `cache.Get`
right after returns nil. -/
theorem C3_get_leaves_cache_cold :
    ∃ s1, (Coherent (MemoryStorage.toIStorage String String)
          (MemoryStorage.toIStorage String String)).Get Scenario.ctx "cache_miss_key"
          (Millisecond * 10000) Scenario.afterSourceSet
        = Outcome.ok ((some "cache_miss_value", none), s1) ∧
      s1.world.1.cache "cache_miss_key" = none ∧
      (MemoryStorage.toIStorage String String).Get Scenario.ctx "cache_miss_key"
          (Millisecond * 10000) s1.world.1
        = Outcome.ok ((none, none), s1.world.1) :=
  ⟨_, rfl, rfl, rfl⟩

/-- C4: for every depth `n` of a chain of `CoherencyStorage`s, each with a `MemoryStorage` of its
own as cache, over an innermost `MemoryStorage`, every key and non-nil value, with signals that
are live (not cancelled, and no deadline passed while the call runs) and no lock for the key
held by another caller: when the value is stored in the innermost `MemoryStorage` only and no
cache has an entry for the key, `Get(key)` on the outermost store returns exactly that value and
a nil error, and so does a second `Get(key)`. -/
theorem C4_get_through_chain (n : Nat) (key : KT) (value : VT) (ctx1 ctx2 : Context)
    (timeout1 timeout2 : Duration) (w : (Shape.chain n).World KT VT)
    (h1 : (Shape.chain n).live ctx1 timeout1) (h2 : (Shape.chain n).live ctx2 timeout2)
    (hfree : (Shape.chain n).belowFree key w) (honly : Shape.onlyInnermost key value n w) :
    ∃ w1 w2,
      (Shape.storage KT VT (Shape.chain n)).Get ctx1 key timeout1 w
        = Outcome.ok ((some value, none), w1) ∧
      (Shape.storage KT VT (Shape.chain n)).Get ctx2 key timeout2 w1
        = Outcome.ok ((some value, none), w2) := by
  obtain ⟨w1, hg1, _, hf1, ho1⟩ := Shape.chain_Get key value n ctx1 timeout1 w h1 hfree honly
  obtain ⟨w2, hg2, _⟩ := Shape.chain_Get key value n ctx2 timeout2 w1 h2 hf1 ho1
  exact ⟨w1, w2, hg1, hg2⟩

/-- Witness of C4: the scenario "Multi-level Cache Penetration" of the tests, three levels. -/
theorem C4_get_through_chain_witness :
    (Shape.chain 2).live Scenario.ctx (Millisecond * 10000) ∧
    (Shape.chain 2).belowFree "nested_key" Scenario.afterL3Set ∧
    Shape.onlyInnermost "nested_key" "nested_value" 2 Scenario.afterL3Set ∧
    ∃ w1 w2,
      (Shape.storage String String (Shape.chain 2)).Get Scenario.ctx "nested_key"
        (Millisecond * 10000) Scenario.afterL3Set = Outcome.ok ((some "nested_value", none), w1) ∧
      (Shape.storage String String (Shape.chain 2)).Get Scenario.ctx "nested_key"
        (Millisecond * 10000) w1 = Outcome.ok ((some "nested_value", none), w2) :=
  ⟨Shape.live_of_staysLive _ _ _ (Scenario.ctx_staysLive (by decide)),
    ⟨⟨by decide, trivial⟩, ⟨by decide, ⟨by decide, trivial⟩, ⟨by decide, trivial⟩⟩⟩,
    ⟨rfl, rfl, rfl⟩,
    C4_get_through_chain 2 "nested_key" "nested_value" Scenario.ctx Scenario.ctx
      (Millisecond * 10000) (Millisecond * 10000) Scenario.afterL3Set
      (Shape.live_of_staysLive _ _ _ (Scenario.ctx_staysLive (by decide)))
      (Shape.live_of_staysLive _ _ _ (Scenario.ctx_staysLive (by decide)))
      ⟨⟨by decide, trivial⟩, ⟨by decide, ⟨by decide, trivial⟩, ⟨by decide, trivial⟩⟩⟩
      ⟨rfl, rfl, rfl⟩⟩

/-- One `Get` after the other of a key that reads as absent everywhere all return absent. -/
theorem Shape.repeatGet_absent (sh : Shape) (key : KT) :
    ∀ (calls : List GetCall) (w : sh.World KT VT),
      (∀ call ∈ calls, sh.live call.ctx call.timeout) →
      sh.belowFree key w → sh.leaves key ReadsAbsent w →
      ∃ w1, sh.repeatGet key calls w
        = Outcome.ok (List.replicate calls.length ((none : Option VT), (none : Option Error)),
            w1) := by
  intro calls
  induction calls with
  | nil => intro w _ _ _; exact ⟨w, rfl⟩
  | cons call rest ih =>
    intro w hlive hf hl
    obtain ⟨w1, hg, _, hf1, hl1⟩ := Shape.Get_absent sh key call.ctx call.timeout w
      (hlive call (List.mem_cons_self _ _)) hf hl
    obtain ⟨w2, hr⟩ := ih w1 (fun c hc => hlive c (List.mem_cons_of_mem _ hc)) hf1 hl1
    exact ⟨w2, by simp [Shape.repeatGet, hg, hr, List.replicate_succ]⟩

/-- C5: for every hierarchy of `CoherencyStorage`s over `MemoryStorage` leaves (a bare
`MemoryStorage` included), every key that no `MemoryStorage` of the hierarchy has an entry for
(as in freshly constructed ones), signals that are live (not cancelled, and no deadline passed
while the call runs) and no lock for the key held by another caller: `Get(key)` on the outermost
store returns absent (nil value) and a nil error, and so does every one of any number of
repeated `Get`s, each with a signal and a timeout of its own. -/
theorem C5_get_never_written (sh : Shape) (key : KT) (calls : List GetCall)
    (w : sh.World KT VT) (hlive : ∀ call ∈ calls, sh.live call.ctx call.timeout)
    (hfree : sh.belowFree key w) (hnever : sh.leaves key (fun x => x = none) w) :
    ∃ w1, sh.repeatGet key calls w
      = Outcome.ok (List.replicate calls.length ((none : Option VT), (none : Option Error)),
          w1) :=
  Shape.repeatGet_absent sh key calls w hlive hfree
    (Shape.leaves_mono sh key (fun _ hx => Or.inl hx) w hnever)

theorem Scenario.readers_live (sh : Shape) (call : GetCall)
    (h : call ∈ [Scenario.readers 0, Scenario.readers 1, Scenario.readers 2]) :
    sh.live call.ctx call.timeout := by
  have hc : call = Scenario.readers 0 := by
    simp only [List.mem_cons, List.mem_singleton, List.not_mem_nil, or_false] at h
    rcases h with h | h | h <;> exact h
  subst hc
  exact Shape.live_of_staysLive _ _ _ (Scenario.ctx_staysLive (by decide))

/-- Witness of C5: three `Get`s in a row on three freshly constructed levels. -/
theorem C5_get_never_written_witness :
    (∀ call ∈ [Scenario.readers 0, Scenario.readers 1, Scenario.readers 2],
      (Shape.chain 2).live call.ctx call.timeout) ∧
    (Shape.chain 2).belowFree "never" (Shape.fresh String String (Shape.chain 2)) ∧
    (Shape.chain 2).leaves "never" (fun x => x = none) (Shape.fresh String String (Shape.chain 2)) ∧
    ∃ w1, (Shape.chain 2).repeatGet "never"
        [Scenario.readers 0, Scenario.readers 1, Scenario.readers 2]
        (Shape.fresh String String (Shape.chain 2))
      = Outcome.ok ([(none, none), (none, none), (none, none)], w1) :=
  ⟨Scenario.readers_live _, Shape.fresh_belowFree _ _, Shape.fresh_leaves _ _,
    C5_get_never_written (Shape.chain 2) "never"
      [Scenario.readers 0, Scenario.readers 1, Scenario.readers 2]
      (Shape.fresh String String (Shape.chain 2))
      (Scenario.readers_live _) (Shape.fresh_belowFree _ _) (Shape.fresh_leaves _ _)⟩

/-- C6, the claim fails: on a freshly constructed `CoherencyStorage` over two freshly constructed
`MemoryStorage`s, `Get("k")` returns absent, but the cache's map is not what it was, it now has
an entry for `"k"`, and the recorder in front of the cache saw a `Set`. -/
theorem C6_counterexample :
    (∃ s1, (Coherent (MemoryStorage.toIStorage String String)
          (MemoryStorage.toIStorage String String)).Get Scenario.ctx "k" (Millisecond * 100)
          (NewCoherencyState (NewMemoryStorage String String, NewMemoryStorage String String))
        = Outcome.ok ((none, none), s1) ∧
      s1.world.1.cache ≠ (NewMemoryStorage String String).cache) ∧
    (∃ s1, (Recorded (MemoryStorage.toIStorage String String).onFst
          (MemoryStorage.toIStorage String String).onSnd).Get Scenario.ctx "k"
          (Millisecond * 100) Scenario.freshRecorded
        = Outcome.ok ((none, none), s1) ∧
      (⟨Tier.cache, Method.Set, "k", none⟩ : Call String) ∈ s1.world.2) :=
  ⟨⟨_, rfl, fun h => absurd (congrFun h "k") (by decide)⟩, ⟨_, rfl, by decide⟩⟩

/-- C6, amended: for every key that reads as absent from both the cache and the source of a
`CoherencyStorage` over two `MemoryStorage`s, with a recorder in front of each, a signal that
is live for the whole call and the cache's lock for the key free: `Get(key)` returns absent and a
nil error, and it does write to the cache.  The calls that the cache receives are exactly its
`Get`, its `Lock`, one `Set` for the key, which returns a nil error, and its `Unlock`, in that
order; the `Set` wrote the nil pointer: the cache's map afterwards is the map before with
`key ↦ nil`, every other key as it was, and the key still reads as absent from the cache.  The
source's map is as it was. -/
theorem C6_get_absent_writes_nil (key : KT) (ctx : Context) (timeout : Duration)
    (s : CoherencyState KT ((MemoryStorage KT VT × MemoryStorage KT VT) × List (Call KT)))
    (hlive : ctx.live timeout) (hlog : s.world.2 = [])
    (hcache : ReadsAbsent (s.world.1.1.cache key))
    (hsource : ReadsAbsent (s.world.1.2.cache key))
    (hfree : s.world.1.1.lockMap key ≠ some true) :
    ∃ s1, (Recorded (MemoryStorage.toIStorage KT VT).onFst
          (MemoryStorage.toIStorage KT VT).onSnd).Get ctx key timeout s
        = Outcome.ok ((none, none), s1) ∧
      s1.world.2.filter (fun call => decide (call.tier = Tier.cache))
        = [⟨Tier.cache, Method.Get, key, none⟩, ⟨Tier.cache, Method.Lock, key, none⟩,
            ⟨Tier.cache, Method.Set, key, none⟩, ⟨Tier.cache, Method.Unlock, key, none⟩] ∧
      s1.world.1.1.cache = Function.update s.world.1.1.cache key (some none) ∧
      s1.world.1.2.cache = s.world.1.2.cache ∧
      (s1.world.1.1.Get ctx key timeout).1 = (none, none) := by
  have hctx := Context.err_of_live hlive
  have hG1 : ∀ (m : MemoryStorage KT VT) (t : Duration) (look : Nat),
      ReadsAbsent (m.cache key) →
      m.Get (ctx.WithTimeout timeout look) key t = ((none, none), m) := by
    intro m t look hm
    rcases hm with hm | hm <;> simp [MemoryStorage.Get, hlive look, hm]
  refine ⟨{ s with world :=
      (({ lockMap := Function.update (Function.update s.world.1.1.lockMap key (some true)) key
            (some false),
          cache := Function.update s.world.1.1.cache key (some none) }, s.world.1.2),
        s.world.2 ++ [⟨Tier.cache, Method.Get, key, none⟩] ++
          [⟨Tier.cache, Method.Lock, key, none⟩] ++ [⟨Tier.source, Method.Get, key, none⟩] ++
          [⟨Tier.source, Method.Get, key, none⟩] ++ [⟨Tier.cache, Method.Set, key, none⟩] ++
          [⟨Tier.cache, Method.Unlock, key, none⟩]) }, ?_, ?_, rfl, rfl, ?_⟩
  · refine CoherencyStorage.Get_of_write
      (Recorded (MemoryStorage.toIStorage KT VT).onFst (MemoryStorage.toIStorage KT VT).onSnd)
      ctx key timeout s none
      (s.world.1, s.world.2 ++ [⟨Tier.cache, Method.Get, key, none⟩])
      (({ s.world.1.1 with lockMap := Function.update s.world.1.1.lockMap key (some true) },
          s.world.1.2),
        s.world.2 ++ [⟨Tier.cache, Method.Get, key, none⟩] ++
          [⟨Tier.cache, Method.Lock, key, none⟩])
      (({ s.world.1.1 with lockMap := Function.update s.world.1.1.lockMap key (some true) },
          s.world.1.2),
        s.world.2 ++ [⟨Tier.cache, Method.Get, key, none⟩] ++
          [⟨Tier.cache, Method.Lock, key, none⟩] ++ [⟨Tier.source, Method.Get, key, none⟩])
      (({ s.world.1.1 with lockMap := Function.update s.world.1.1.lockMap key (some true) },
          s.world.1.2),
        s.world.2 ++ [⟨Tier.cache, Method.Get, key, none⟩] ++
          [⟨Tier.cache, Method.Lock, key, none⟩] ++ [⟨Tier.source, Method.Get, key, none⟩] ++
          [⟨Tier.source, Method.Get, key, none⟩])
      (({ lockMap := Function.update s.world.1.1.lockMap key (some true),
          cache := Function.update s.world.1.1.cache key (some none) }, s.world.1.2),
        s.world.2 ++ [⟨Tier.cache, Method.Get, key, none⟩] ++
          [⟨Tier.cache, Method.Lock, key, none⟩] ++ [⟨Tier.source, Method.Get, key, none⟩] ++
          [⟨Tier.source, Method.Get, key, none⟩] ++ [⟨Tier.cache, Method.Set, key, none⟩])
      _ ?_ ?_ ?_ ?_ ?_ ?_
    · simp [Recorded, NewCoherencyStorage, IStorage.recorded, IStorage.onFst,
        MemoryStorage.toIStorage, hG1 _ _ _ hcache]
    · simp only [Recorded, NewCoherencyStorage, IStorage.recorded, IStorage.onFst,
        MemoryStorage.toIStorage, BaseStorage.Lock]
      rfl
    · simp [Recorded, NewCoherencyStorage, IStorage.recorded, IStorage.onFst, IStorage.onSnd,
        MemoryStorage.toIStorage, hG1 _ _ _ hsource]
    · simp [Recorded, NewCoherencyStorage, IStorage.recorded, IStorage.onFst, IStorage.onSnd,
        MemoryStorage.toIStorage, hG1 _ _ _ hsource]
    · simp [Recorded, NewCoherencyStorage, IStorage.recorded, IStorage.onFst,
        MemoryStorage.toIStorage, MemoryStorage.Set, hlive 4]
    · simp [Recorded, NewCoherencyStorage, IStorage.recorded, IStorage.onFst,
        MemoryStorage.toIStorage, BaseStorage.Unlock]
  · simp [hlog]
  · simp [MemoryStorage.Get, hctx]

/-- Witness of C6, amended: the freshly constructed stores of the counterexample. -/
theorem C6_get_absent_writes_nil_witness :
    Scenario.ctx.live (Millisecond * 100) ∧ Scenario.freshRecorded.world.2 = [] ∧
    ReadsAbsent ((NewMemoryStorage String String).cache "k") ∧
    (NewMemoryStorage String String).lockMap "k" ≠ some true ∧
    ∃ s1, (Recorded (MemoryStorage.toIStorage String String).onFst
          (MemoryStorage.toIStorage String String).onSnd).Get Scenario.ctx "k"
          (Millisecond * 100) Scenario.freshRecorded
        = Outcome.ok ((none, none), s1) ∧
      s1.world.2.filter (fun call => decide (call.tier = Tier.cache))
        = [⟨Tier.cache, Method.Get, "k", none⟩, ⟨Tier.cache, Method.Lock, "k", none⟩,
            ⟨Tier.cache, Method.Set, "k", none⟩, ⟨Tier.cache, Method.Unlock, "k", none⟩] ∧
      s1.world.1.1.cache = Function.update (NewMemoryStorage String String).cache "k" (some none) ∧
      s1.world.1.2.cache = (NewMemoryStorage String String).cache ∧
      (s1.world.1.1.Get Scenario.ctx "k" (Millisecond * 100)).1 = (none, none) :=
  ⟨Scenario.ctx_live (by decide), rfl, Or.inl rfl, by decide,
    C6_get_absent_writes_nil "k" Scenario.ctx (Millisecond * 100) Scenario.freshRecorded
      (Scenario.ctx_live (by decide)) rfl (Or.inl rfl) (Or.inl rfl) (by decide)⟩

/-- C7: for every pair of backends, each with a state of its own and a recorder in front, and
every key and value: when the source's `Set` returned an error during `CoherencyStorage.Set`,
then `CoherencyStorage.Set` returns exactly that error, every call it made went to the source
(no `Set` and no other call to the cache), and the state of the cache is what it was. -/
theorem C7_source_error_leaves_cache_alone {A B : Type} (cache : IStorage KT VT A)
    (source : IStorage KT VT B) (ctx : Context) (key : KT) (value : Option VT)
    (timeout : Duration) (s s1 : CoherencyState KT ((A × B) × List (Call KT)))
    (r : Option Error) (e : Error)
    (hlog : s.world.2 = [])
    (hret : (Recorded cache.onFst source.onSnd).Set ctx key value timeout s = Outcome.ok (r, s1))
    (herr : (⟨Tier.source, Method.Set, key, some e⟩ : Call KT) ∈ s1.world.2) :
    r = some e ∧ (∀ call ∈ s1.world.2, call.tier = Tier.source) ∧
      s1.world.1.1 = s.world.1.1 := by
  rcases CoherencyStorage.Set_cases _ _ _ _ _ hret with
    ⟨e1, w1, w2, w3, h1, h2, h3, hr, hs⟩ | ⟨w1, w2, w3, w4, w5, w6, h1, h2, h3, h4, h5, h6, hs⟩
  · obtain ⟨b1, a1⟩ := IStorage.recorded_Lock_inv _ _ h1
    obtain ⟨b2, a2⟩ := IStorage.recorded_Set_inv _ _ h2
    obtain ⟨b3, a3⟩ := IStorage.recorded_Unlock_inv _ _ h3
    have c1 := (IStorage.onSnd_Lock_inv _ b1).2
    have c2 := (IStorage.onSnd_Set_inv _ b2).2
    have c3 := (IStorage.onSnd_Unlock_inv _ b3).2
    have hw : s1.world.2 = [⟨Tier.source, Method.Lock, key, none⟩,
        ⟨Tier.source, Method.Set, key, some e1⟩, ⟨Tier.source, Method.Unlock, key, none⟩] := by
      rw [hs]; simp [a3, a2, a1, hlog]
    have hc : s1.world.1.1 = s.world.1.1 := by
      rw [hs]; simp [c3, c2, c1]
    rw [hw] at herr ⊢
    simp at herr
    refine ⟨by rw [hr, herr], ?_, hc⟩
    intro call hcall
    simp at hcall
    rcases hcall with rfl | rfl | rfl <;> rfl
  · have a1 := (IStorage.recorded_Lock_inv _ _ h1).2
    have a2 := (IStorage.recorded_Set_inv _ _ h2).2
    have a3 := (IStorage.recorded_Unlock_inv _ _ h3).2
    have a4 := (IStorage.recorded_Lock_inv _ _ h4).2
    have a5 := (IStorage.recorded_Set_inv _ _ h5).2
    have a6 := (IStorage.recorded_Unlock_inv _ _ h6).2
    subst hs
    simp [a6, a5, a4, a3, a2, a1, hlog] at herr

/-- Witness of C7: two `MemoryStorage`s and a signal that has already expired, so that the
source's `Set` returns `DeadlineExceeded`. -/
theorem C7_source_error_leaves_cache_alone_witness :
    Scenario.freshRecorded.world.2 = [] ∧
    ∃ s1, (Recorded (MemoryStorage.toIStorage String String).onFst
          (MemoryStorage.toIStorage String String).onSnd).Set Scenario.expired "k" (some "v")
          (Millisecond * 100) Scenario.freshRecorded
        = Outcome.ok (some Error.DeadlineExceeded, s1) ∧
      (⟨Tier.source, Method.Set, "k", some Error.DeadlineExceeded⟩ : Call String) ∈ s1.world.2 ∧
      (∀ call ∈ s1.world.2, call.tier = Tier.source) ∧
      s1.world.1.1 = Scenario.freshRecorded.world.1.1 :=
  ⟨rfl, _, rfl, by decide,
    (C7_source_error_leaves_cache_alone (MemoryStorage.toIStorage String String)
      (MemoryStorage.toIStorage String String) Scenario.expired "k" (some "v")
      (Millisecond * 100) Scenario.freshRecorded _ _ Error.DeadlineExceeded rfl rfl
      (by decide)).2⟩

/-- C8: for every key, every timeout and every contents of a `CoherencyStorage` over two
`MemoryStorage`s: a `Get` whose ambient signal has expired before the call returns a nil value
and `DeadlineExceeded`; the only call it makes is the `Get` on the cache, so the source is
never queried, and cache and source are left exactly as they were.  First with a recorder in
front of each `MemoryStorage`, then without. -/
theorem C8_get_with_expired_signal (key : KT) (timeout : Duration) (ctx : Context)
    (s : CoherencyState KT ((MemoryStorage KT VT × MemoryStorage KT VT) × List (Call KT)))
    (p : CoherencyState KT (MemoryStorage KT VT × MemoryStorage KT VT))
    (hctx : ctx.err = some Error.DeadlineExceeded) :
    (Recorded (MemoryStorage.toIStorage KT VT).onFst (MemoryStorage.toIStorage KT VT).onSnd).Get
        ctx key timeout s
      = Outcome.ok ((none, some Error.DeadlineExceeded),
          { s with world := (s.world.1, s.world.2 ++
            [⟨Tier.cache, Method.Get, key, some Error.DeadlineExceeded⟩]) }) ∧
    (Coherent (MemoryStorage.toIStorage KT VT) (MemoryStorage.toIStorage KT VT)).Get
        ctx key timeout p
      = Outcome.ok ((none, some Error.DeadlineExceeded), p) := by
  have hsub : (ctx.WithTimeout timeout 0).err = some Error.DeadlineExceeded :=
    Context.WithTimeout_done hctx
  constructor
  · refine CoherencyStorage.Get_of_cache _ ctx key timeout s none (some Error.DeadlineExceeded)
      _ ?_ rfl
    simp [Recorded, NewCoherencyStorage, IStorage.recorded, IStorage.onFst,
      MemoryStorage.toIStorage, MemoryStorage.Get, hsub]
  · refine CoherencyStorage.Get_of_cache
      (NewCoherencyStorage (MemoryStorage.toIStorage KT VT).onFst
        (MemoryStorage.toIStorage KT VT).onSnd)
      ctx key timeout p none (some Error.DeadlineExceeded) p.world ?_ rfl
    simp [NewCoherencyStorage, IStorage.onFst, MemoryStorage.toIStorage, MemoryStorage.Get, hsub]

/-- Witness of C8: `TestTimeoutOperations`, the key is in both stores and the signal has
expired. -/
theorem C8_get_with_expired_signal_witness :
    Scenario.expired.err = some Error.DeadlineExceeded ∧
    (Recorded (MemoryStorage.toIStorage String String).onFst
        (MemoryStorage.toIStorage String String).onSnd).Get
        Scenario.expired "timeout_key" (Millisecond * 100) Scenario.freshRecorded
      = Outcome.ok ((none, some Error.DeadlineExceeded),
          { Scenario.freshRecorded with world := (Scenario.freshRecorded.world.1,
            [⟨Tier.cache, Method.Get, "timeout_key", some Error.DeadlineExceeded⟩]) }) ∧
    (Coherent (MemoryStorage.toIStorage String String) (MemoryStorage.toIStorage String String)).Get
        Scenario.expired "timeout_key" (Millisecond * 100) Scenario.afterSourceSet
      = Outcome.ok ((none, some Error.DeadlineExceeded), Scenario.afterSourceSet) :=
  ⟨rfl, C8_get_with_expired_signal "timeout_key" (Millisecond * 100) Scenario.expired
    Scenario.freshRecorded Scenario.afterSourceSet rfl⟩

/-- C9: for every pair of backends, with a recorder in front of each, and every key: in
`CoherencyStorage.Get`, `Set` and `Del`, whenever a data call to a backend (`cache.Get`,
`source.Get`, `cache.Set`, `source.Set`, `source.Del`, `cache.Del`) returned an error, the
operation made no data call after it and returned exactly that error. -/
theorem C9_backend_error_stops_operation {W : Type} (cache source : IStorage KT VT W)
    (ctx : Context) (key : KT) (value : Option VT) (timeout : Duration)
    (s : CoherencyState KT (W × List (Call KT))) (hlog : s.world.2 = []) :
    (∀ r s1, (Recorded cache source).Get ctx key timeout s = Outcome.ok (r, s1) →
      StopsAtFirstError s1.world.2 r.2) ∧
    (∀ r s1, (Recorded cache source).Set ctx key value timeout s = Outcome.ok (r, s1) →
      StopsAtFirstError s1.world.2 r) ∧
    (∀ r s1, (Recorded cache source).Del ctx key timeout s = Outcome.ok (r, s1) →
      StopsAtFirstError s1.world.2 r) := by
  refine ⟨?_, ?_, ?_⟩
  · intro r s1 h
    obtain ⟨_, ⟨w1, _, _, hl⟩ | ⟨w1, between, _, hl, hb⟩⟩ :=
      Recorded_Get_trace cache source ctx key timeout s s1 h
    · rw [hl, hlog]
      simp [StopsAtFirstError_cons_iff, StopsAtFirstError_nil, Call.isData]
    · rcases hb with ⟨rfl, _⟩ | ⟨e, rfl, rfl⟩ | ⟨e, rfl, rfl⟩ | ⟨rfl, hr⟩ <;>
      · rw [hl, hlog]
        simp [StopsAtFirstError_cons_iff, StopsAtFirstError_nil, Call.isData]
  · intro r s1 h
    rcases Recorded_Set_trace cache source ctx key timeout s s1 h with ⟨e, rfl, hl⟩ | hl <;>
    · rw [hl, hlog]
      simp [StopsAtFirstError_cons_iff, StopsAtFirstError_nil, Call.isData]
  · intro r s1 h
    rcases Recorded_Del_trace cache source ctx key timeout s s1 h with ⟨e, rfl, hl⟩ | hl <;>
    · rw [hl, hlog]
      simp [StopsAtFirstError_cons_iff, StopsAtFirstError_nil, Call.isData]

/-- Witness of C9: two `MemoryStorage`s and a signal that has already expired; the `Set` stops
at the error of the source, the `Get` at the error of the cache. -/
theorem C9_backend_error_stops_operation_witness :
    Scenario.freshRecorded.world.2 = [] ∧
    (∃ s1, (Recorded (MemoryStorage.toIStorage String String).onFst
          (MemoryStorage.toIStorage String String).onSnd).Set Scenario.expired "k" (some "v")
          (Millisecond * 100) Scenario.freshRecorded
        = Outcome.ok (some Error.DeadlineExceeded, s1) ∧
      StopsAtFirstError s1.world.2 (some Error.DeadlineExceeded)) ∧
    (∃ s1, (Recorded (MemoryStorage.toIStorage String String).onFst
          (MemoryStorage.toIStorage String String).onSnd).Get Scenario.expired "k"
          (Millisecond * 100) Scenario.freshRecorded
        = Outcome.ok ((none, some Error.DeadlineExceeded), s1) ∧
      StopsAtFirstError s1.world.2 (some Error.DeadlineExceeded)) :=
  ⟨rfl,
    ⟨_, rfl, (C9_backend_error_stops_operation (MemoryStorage.toIStorage String String).onFst
      (MemoryStorage.toIStorage String String).onSnd Scenario.expired "k" (some "v")
      (Millisecond * 100) Scenario.freshRecorded rfl).2.1 _ _ rfl⟩,
    ⟨_, rfl, (C9_backend_error_stops_operation (MemoryStorage.toIStorage String String).onFst
      (MemoryStorage.toIStorage String String).onSnd Scenario.expired "k" (some "v")
      (Millisecond * 100) Scenario.freshRecorded rfl).1 _ _ rfl⟩⟩

/-- C10, the claim fails: on a cache miss of a freshly constructed `CoherencyStorage` over two
freshly constructed `MemoryStorage`s, `Get("k")` leaves the `CoherencyStorage`'s own lock table
without a mutex for `"k"`, so its own lock was never taken (taking it, as its own `Lock` does,
creates the mutex, and no mutex is ever removed); the mutex that was taken and released is the
one in the lock table of the cache. -/
theorem C10_counterexample :
    (∃ s1, (Coherent (MemoryStorage.toIStorage String String)
          (MemoryStorage.toIStorage String String)).Get Scenario.ctx "k" (Millisecond * 100)
          (NewCoherencyState (NewMemoryStorage String String, NewMemoryStorage String String))
        = Outcome.ok ((none, none), s1) ∧
      s1.lockMap "k" = none ∧ s1.world.1.lockMap "k" = some false ∧
      s1.world.2.lockMap "k" = none) ∧
    (∃ s2, (Coherent (MemoryStorage.toIStorage String String)
          (MemoryStorage.toIStorage String String)).Lock Scenario.ctx "k"
          (NewCoherencyState (NewMemoryStorage String String, NewMemoryStorage String String))
        = Outcome.ok s2 ∧
      s2.lockMap "k" = some true) :=
  ⟨⟨_, rfl, rfl, rfl, rfl⟩, ⟨_, rfl, rfl⟩⟩

/-- C10, amended: for every pair of backends, with a recorder in front of each: on a cache miss,
`CoherencyStorage.Get` takes the per-key lock of its cache (`c.cache.Lock`, the mutex in the
cache's lock table) right after the miss and before it consults the source, makes only data
calls while it holds it, and releases it (`c.cache.Unlock`) as its last call before returning.
Its own lock table is not used: it is after the call what it was before. -/
theorem C10_get_takes_the_cache_lock {W : Type} (cache source : IStorage KT VT W)
    (ctx : Context) (key : KT) (timeout : Duration)
    (s s1 : CoherencyState KT (W × List (Call KT))) (r : Option VT × Option Error) (w1 : W)
    (hlog : s.world.2 = [])
    (hmiss : cache.Get (ctx.WithTimeout timeout 0) key (cache.Timeout s.world.1) s.world.1
      = Outcome.ok ((none, none), w1))
    (hret : (Recorded cache source).Get ctx key timeout s = Outcome.ok (r, s1)) :
    s1.toBaseStorage = s.toBaseStorage ∧
    ∃ e rest,
      s1.world.2 = [⟨Tier.cache, Method.Get, key, none⟩, ⟨Tier.cache, Method.Lock, key, none⟩,
          ⟨Tier.source, Method.Get, key, e⟩] ++ rest ++
          [⟨Tier.cache, Method.Unlock, key, none⟩] ∧
      ∀ call ∈ rest, call.isData = true := by
  obtain ⟨hown, ⟨w2, h1, hv, _⟩ | ⟨w2, between, _, hl, hb⟩⟩ :=
    Recorded_Get_trace cache source ctx key timeout s s1 hret
  · rw [hmiss] at h1
    simp only [Outcome.ok.injEq, Prod.mk.injEq] at h1
    rw [← h1.1] at hv
    simp at hv
  · refine ⟨hown, ?_⟩
    rw [hl, hlog]
    rcases hb with ⟨rfl, _⟩ | ⟨e, rfl, rfl⟩ | ⟨e, rfl, rfl⟩ | ⟨rfl, hr⟩
    · exact ⟨r.2, [], by simp, by simp⟩
    · exact ⟨none, [⟨Tier.source, Method.Get, key, some e⟩], by simp, by simp [Call.isData]⟩
    · exact ⟨none, [⟨Tier.source, Method.Get, key, none⟩,
        ⟨Tier.cache, Method.Set, key, some e⟩], by simp, by simp [Call.isData]⟩
    · exact ⟨none, [⟨Tier.source, Method.Get, key, none⟩,
        ⟨Tier.cache, Method.Set, key, none⟩], by simp, by simp [Call.isData]⟩

/-- Witness of C10, amended: the cache miss of the counterexample, with recorders. -/
theorem C10_get_takes_the_cache_lock_witness :
    Scenario.freshRecorded.world.2 = [] ∧
    (MemoryStorage.toIStorage String String).onFst.Get (Scenario.ctx.WithTimeout
        (Millisecond * 100) 0) "k" MemoryStorage.Timeout Scenario.freshRecorded.world.1
      = Outcome.ok ((none, none), Scenario.freshRecorded.world.1) ∧
    (Recorded (MemoryStorage.toIStorage String String).onFst
        (MemoryStorage.toIStorage String String).onSnd).Get Scenario.ctx "k"
        (Millisecond * 100) Scenario.freshRecorded
      = Outcome.ok ((none, none), Scenario.afterRecordedGet) ∧
    Scenario.afterRecordedGet.toBaseStorage = Scenario.freshRecorded.toBaseStorage ∧
    ∃ e rest,
      Scenario.afterRecordedGet.world.2
        = [⟨Tier.cache, Method.Get, "k", none⟩, ⟨Tier.cache, Method.Lock, "k", none⟩,
            ⟨Tier.source, Method.Get, "k", e⟩] ++ rest ++
            [⟨Tier.cache, Method.Unlock, "k", none⟩] ∧
      ∀ call ∈ rest, call.isData = true :=
  ⟨rfl, rfl, rfl,
    C10_get_takes_the_cache_lock (MemoryStorage.toIStorage String String).onFst
      (MemoryStorage.toIStorage String String).onSnd Scenario.ctx "k" (Millisecond * 100)
      Scenario.freshRecorded Scenario.afterRecordedGet (none, none)
      Scenario.freshRecorded.world.1 (by rfl) (by rfl) (by rfl)⟩

/-- C11: for every key, with signals that are live: `Del(key)` on a key that is absent returns a
nil error and changes no map, and `Get(key)` afterwards returns absent.  First on a
`MemoryStorage` that has no entry for the key, with a signal that is live when the
`MemoryStorage` looks at it (it does not use the timeout); then on a `CoherencyStorage` over
two `MemoryStorage`s that both have no entry for the key (no lock for the key held by another
caller), with signals that are live for the whole call. -/
theorem C11_del_absent_key (key : KT) (ctxD ctxG : Context) (timeoutD timeoutG : Duration)
    (m : MemoryStorage KT VT)
    (s : CoherencyState KT (MemoryStorage KT VT × MemoryStorage KT VT))
    (hD : ctxD.live timeoutD) (hG : ctxG.live timeoutG)
    (hm : m.cache key = none)
    (hcache : s.world.1.cache key = none) (hsource : s.world.2.cache key = none)
    (hcfree : s.world.1.lockMap key ≠ some true) (hsfree : s.world.2.lockMap key ≠ some true) :
    (∀ (ctx : Context) (timeout : Duration), ctx.err = none →
      m.Del ctx key timeout = (none, m) ∧ m.Get ctx key timeout = ((none, none), m)) ∧
    ∃ s1 s2,
      (Coherent (MemoryStorage.toIStorage KT VT) (MemoryStorage.toIStorage KT VT)).Del
          ctxD key timeoutD s = Outcome.ok (none, s1) ∧
      s1.world.1.cache = s.world.1.cache ∧ s1.world.2.cache = s.world.2.cache ∧
      (Coherent (MemoryStorage.toIStorage KT VT) (MemoryStorage.toIStorage KT VT)).Get
          ctxG key timeoutG s1 = Outcome.ok ((none, none), s2) := by
  have hupd : ∀ (f : KT → Option (Option VT)), f key = none → Function.update f key none = f := by
    intro f hf
    rw [← hf]
    exact Function.update_eq_self key f
  refine ⟨fun ctx timeout hctx => ⟨?_, ?_⟩, ?_⟩
  · simp only [MemoryStorage.Del, hctx, hupd _ hm]
  · simp [MemoryStorage.Get, hctx, hm]
  · have hdel : (Coherent (MemoryStorage.toIStorage KT VT) (MemoryStorage.toIStorage KT VT)).Del
          ctxD key timeoutD s = Outcome.ok (none, { s with world :=
        ({ lockMap := Function.update (Function.update s.world.1.lockMap key (some true)) key
              (some false),
           cache := Function.update s.world.1.cache key none },
         { lockMap := Function.update (Function.update s.world.2.lockMap key (some true)) key
              (some false),
           cache := Function.update s.world.2.cache key none }) }) := by
      refine CoherencyStorage.Del_of_ok
        (NewCoherencyStorage (MemoryStorage.toIStorage KT VT).onFst
          (MemoryStorage.toIStorage KT VT).onSnd) ctxD key timeoutD s
        (s.world.1,
          { s.world.2 with lockMap := Function.update s.world.2.lockMap key (some true) })
        (s.world.1,
          { lockMap := Function.update s.world.2.lockMap key (some true),
            cache := Function.update s.world.2.cache key none })
        (s.world.1,
          { lockMap := Function.update (Function.update s.world.2.lockMap key (some true)) key
              (some false),
            cache := Function.update s.world.2.cache key none })
        ({ s.world.1 with lockMap := Function.update s.world.1.lockMap key (some true) },
          { lockMap := Function.update (Function.update s.world.2.lockMap key (some true)) key
              (some false),
            cache := Function.update s.world.2.cache key none })
        ({ lockMap := Function.update s.world.1.lockMap key (some true),
           cache := Function.update s.world.1.cache key none },
          { lockMap := Function.update (Function.update s.world.2.lockMap key (some true)) key
              (some false),
            cache := Function.update s.world.2.cache key none })
        _ ?_ ?_ ?_ ?_ ?_ ?_
      · simp only [NewCoherencyStorage, IStorage.onSnd, MemoryStorage.toIStorage,
          BaseStorage.Lock]
        rfl
      · simp [NewCoherencyStorage, IStorage.onSnd, MemoryStorage.toIStorage, MemoryStorage.Del,
          hD 1]
      · simp [NewCoherencyStorage, IStorage.onSnd, MemoryStorage.toIStorage, BaseStorage.Unlock]
      · simp only [NewCoherencyStorage, IStorage.onFst, MemoryStorage.toIStorage,
          BaseStorage.Lock]
        rfl
      · simp [NewCoherencyStorage, IStorage.onFst, MemoryStorage.toIStorage, MemoryStorage.Del,
          hD 4]
      · simp [NewCoherencyStorage, IStorage.onFst, MemoryStorage.toIStorage, BaseStorage.Unlock]
    obtain ⟨s2, hget, _⟩ := Shape.Get_absent (Shape.chain 1) key ctxG timeoutG
      ({ s with world :=
        ({ lockMap := Function.update (Function.update s.world.1.lockMap key (some true)) key
              (some false),
           cache := Function.update s.world.1.cache key none },
         { lockMap := Function.update (Function.update s.world.2.lockMap key (some true)) key
              (some false),
           cache := Function.update s.world.2.cache key none }) } :
        CoherencyState KT (MemoryStorage KT VT × MemoryStorage KT VT))
      ((Shape.live_chain_one ctxG timeoutG).mpr hG)
      ⟨⟨by simp [Shape.own], trivial⟩, ⟨by simp [Shape.own, Shape.chain], trivial⟩⟩
      ⟨Or.inl (by simp [Shape.leaves]), Or.inl (by simp [Shape.leaves, Shape.chain])⟩
    exact ⟨_, s2, hdel, hupd _ hcache, hupd _ hsource, hget⟩

/-- Witness of C11: freshly constructed stores, which have no entry for any key. -/
theorem C11_del_absent_key_witness :
    Scenario.ctx.live (Millisecond * 100) ∧
    (NewMemoryStorage String String).cache "k" = none ∧
    (NewMemoryStorage String String).lockMap "k" ≠ some true ∧
    (∀ (ctx : Context) (timeout : Duration), ctx.err = none →
      (NewMemoryStorage String String).Del ctx "k" timeout
          = (none, NewMemoryStorage String String) ∧
        (NewMemoryStorage String String).Get ctx "k" timeout
          = ((none, none), NewMemoryStorage String String)) ∧
    ∃ s1 s2,
      (Coherent (MemoryStorage.toIStorage String String)
          (MemoryStorage.toIStorage String String)).Del Scenario.ctx "k"
          (Millisecond * 100)
          (NewCoherencyState (NewMemoryStorage String String, NewMemoryStorage String String))
        = Outcome.ok (none, s1) ∧
      s1.world.1.cache = (NewMemoryStorage String String).cache ∧
      s1.world.2.cache = (NewMemoryStorage String String).cache ∧
      (Coherent (MemoryStorage.toIStorage String String)
          (MemoryStorage.toIStorage String String)).Get Scenario.ctx "k"
          (Millisecond * 100) s1 = Outcome.ok ((none, none), s2) :=
  ⟨Scenario.ctx_live (by decide), rfl, by decide,
    C11_del_absent_key "k" Scenario.ctx Scenario.ctx (Millisecond * 100) (Millisecond * 100)
      (NewMemoryStorage String String)
      (NewCoherencyState (NewMemoryStorage String String, NewMemoryStorage String String))
      (Scenario.ctx_live (by decide)) (Scenario.ctx_live (by decide)) rfl rfl rfl
      (by decide) (by decide)⟩

/-- C12: for every lock table, that of a `BaseStorage` and that of a `CoherencyStorage`, and
every key for which the table has no mutex: `Unlock(key)` returns (no panic, no fatal error, no
wait), creates no mutex, and leaves the lock table and everything else exactly as it was. -/
theorem C12_unlock_without_mutex {W : Type} (ctx : Context) (key : KT) (b : BaseStorage KT)
    (c : CoherencyStorage KT VT W) (s : CoherencyState KT W)
    (hb : b.lockMap key = none) (hs : s.lockMap key = none) :
    b.Unlock ctx key = Outcome.ok b ∧ c.Unlock ctx key s = Outcome.ok s := by
  constructor
  · unfold BaseStorage.Unlock
    rw [hb]
  · unfold CoherencyStorage.Unlock
    rw [hs]

/-- Witness of C12: the empty lock tables of freshly constructed stores. -/
theorem C12_unlock_without_mutex_witness :
    (NewMemoryStorage String String).toBaseStorage.lockMap "k" = none ∧
    (NewCoherencyState (NewMemoryStorage String String, NewMemoryStorage String String) :
      CoherencyState String (MemoryStorage String String × MemoryStorage String String)).lockMap
        "k" = none ∧
    (NewMemoryStorage String String).toBaseStorage.Unlock Scenario.ctx "k"
      = Outcome.ok (NewMemoryStorage String String).toBaseStorage ∧
    (NewCoherencyStorage (MemoryStorage.toIStorage String String).onFst
        (MemoryStorage.toIStorage String String).onSnd).Unlock Scenario.ctx "k"
        (NewCoherencyState (NewMemoryStorage String String, NewMemoryStorage String String))
      = Outcome.ok
        (NewCoherencyState (NewMemoryStorage String String, NewMemoryStorage String String)) :=
  ⟨rfl, rfl,
    C12_unlock_without_mutex Scenario.ctx "k" (NewMemoryStorage String String).toBaseStorage
      (NewCoherencyStorage (MemoryStorage.toIStorage String String).onFst
        (MemoryStorage.toIStorage String String).onSnd)
      (NewCoherencyState (NewMemoryStorage String String, NewMemoryStorage String String))
      rfl rfl⟩

/-- C13: `BlockCallWithTimeout` returns by the outcome of the race.  In every run, whatever the
operation `f`, the ambient signal and the timeout: when the caller returned through the
receive from `resultChan` (the completion of the operation is the event taken), it returned
exactly the result and error of `f`; when it returned through `timeoutCtx.Done()`, it returned
a nil result together with `DeadlineExceeded` if the error of the signal is or wraps
`DeadlineExceeded`, and otherwise with the signal's own error, whatever `f` has returned. -/
theorem C13_block_call_returns_by_race {RT : Type} (f : Outcome (Option RT × Option Error))
    (ctx : Context) (timeout : Duration) (events : List BlockEvent) (st : BlockCall RT)
    (taken : Race) (x : Option RT × Option Error)
    (hrun : BlockCallWithTimeout.run f events (BlockCallWithTimeout.start RT ctx timeout)
      = some st)
    (hret : st.caller = CallerPc.returned taken x) :
    (taken = Race.completion → f = Outcome.ok x) ∧
    (taken = Race.done → ∃ e, st.timeoutCtx.err = some e ∧
      x = (none, some (if e.Is Error.DeadlineExceeded = true then Error.DeadlineExceeded
        else e))) := by
  have hinv := BlockCall.Consistent_run f events _ st
    (BlockCall.Consistent_start f ctx timeout) hrun
  constructor
  · intro ht
    subst ht
    exact hinv.2.2.1 x hret
  · intro ht
    subst ht
    exact hinv.2.2.2 x hret

/-- Witness of C13: an operation that returns `(42, nil)`.  In the first run the caller takes
the receive; in the second the signal is done with an error that wraps `DeadlineExceeded`
after `f` has returned, and the caller takes `Done`. -/
theorem C13_block_call_returns_by_race_witness :
    (BlockCallWithTimeout.run (Outcome.ok (some 42, none))
        [BlockEvent.finish, BlockEvent.send, BlockEvent.receive]
        (BlockCallWithTimeout.start Nat Scenario.ctx (Millisecond * 100))
      = some { worker := WorkerPc.sent, resultChan := none,
               timeoutCtx := Scenario.ctx.WithTimeout (Millisecond * 100) 0,
               caller := CallerPc.returned Race.completion (some 42, none) } ∧
      (Outcome.ok (some 42, none) : Outcome (Option Nat × Option Error))
        = Outcome.ok (some 42, none)) ∧
    (BlockCallWithTimeout.run (Outcome.ok (some 42, none))
        [BlockEvent.finish, BlockEvent.fire (Error.wrap 7 Error.DeadlineExceeded),
          BlockEvent.timeout]
        (BlockCallWithTimeout.start Nat Scenario.ctx (Millisecond * 100))
      = some { worker := WorkerPc.selecting (some 42, none), resultChan := none,
               timeoutCtx := { Scenario.ctx.WithTimeout (Millisecond * 100) 0 with
                 err := some (Error.wrap 7 Error.DeadlineExceeded) },
               caller := CallerPc.returned Race.done (none, some Error.DeadlineExceeded) } ∧
      ∃ e, ({ Scenario.ctx.WithTimeout (Millisecond * 100) 0 with
          err := some (Error.wrap 7 Error.DeadlineExceeded) } : Context).err = some e ∧
        ((none : Option Nat), some Error.DeadlineExceeded)
          = (none, some (if e.Is Error.DeadlineExceeded = true then Error.DeadlineExceeded
              else e))) :=
  ⟨⟨by rfl,
      (C13_block_call_returns_by_race (Outcome.ok (some 42, none)) Scenario.ctx
        (Millisecond * 100) [BlockEvent.finish, BlockEvent.send, BlockEvent.receive]
        { worker := WorkerPc.sent, resultChan := none,
          timeoutCtx := Scenario.ctx.WithTimeout (Millisecond * 100) 0,
          caller := CallerPc.returned Race.completion (some 42, none) }
        Race.completion (some 42, none) (by rfl) rfl).1 rfl⟩,
    ⟨by rfl,
      (C13_block_call_returns_by_race (Outcome.ok (some 42, none)) Scenario.ctx
        (Millisecond * 100)
        [BlockEvent.finish, BlockEvent.fire (Error.wrap 7 Error.DeadlineExceeded),
          BlockEvent.timeout]
        { worker := WorkerPc.selecting (some 42, none), resultChan := none,
          timeoutCtx := { Scenario.ctx.WithTimeout (Millisecond * 100) 0 with
            err := some (Error.wrap 7 Error.DeadlineExceeded) },
          caller := CallerPc.returned Race.done (none, some Error.DeadlineExceeded) }
        Race.done (none, some Error.DeadlineExceeded) (by rfl) rfl).2 rfl⟩⟩

/-- C14: the `Timeout()` of a `CoherencyStorage` is the `Timeout()` of its cache; so every
hierarchy whose cache links end in a `MemoryStorage` reports exactly 100 milliseconds
(100000000 nanoseconds), whatever backends its sources are. -/
theorem C14_timeout_is_the_timeout_of_the_cache {W : Type} (c : CoherencyStorage KT VT W)
    (s : CoherencyState KT W) (sources : List (Backend KT VT)) :
    c.Timeout s = c.cache.Timeout s.world ∧
    (∀ x : (CacheLinks sources).State,
      (CacheLinks sources).storage.Timeout x = Millisecond * 100) ∧
    Millisecond * 100 = 100000000 := by
  refine ⟨rfl, ?_, by decide⟩
  induction sources with
  | nil => intro x; rfl
  | cons source inner ih => intro x; exact ih (CoherencyState.world x).1

/-- C15, the claim fails: `CoherencyStorage.Get` leaves the exclusion to the `Lock` of its
cache.  With a cache that has the methods of `IStorage` and whose `Lock` keeps nobody out, two
concurrent `Get("k")` calls on one `CoherencyStorage` both miss, both pass `c.cache.Lock`, and
are both at the write that populates the cache at the same moment. -/
theorem C15_counterexample :
    Concurrent.run (fun k => (NewCoherencyStorage Scenario.lockless.onFst
        (MemoryStorage.toIStorage String String).onSnd).GetStep (Scenario.readers k).ctx "k"
        (Scenario.readers k).timeout) [0, 0, 0, 0, 1, 1, 1, 1] Scenario.readersStart
      = some Scenario.readersBoth ∧
    Scenario.readersBoth.pcs 0 = GetPc.cacheSet none ∧
    Scenario.readersBoth.pcs 1 = GetPc.cacheSet none ∧
    (Scenario.readersBoth.pcs 0).holdsLock = true ∧
    (Scenario.readersBoth.pcs 1).holdsLock = true ∧ (0 : Nat) ≠ 1 :=
  ⟨by rfl, by rfl, by rfl, by rfl, by rfl, by decide⟩

/-- C15, amended: for any number of concurrent `CoherencyStorage.Get` calls on the same key of
one `CoherencyStorage` whose cache and source are separate objects and whose cache has a `Lock`
that is a mutex for the key (it returns only when the mutex is not held and leaves it held, and
the `Get` and the `Set` of the cache leave a held mutex held; `held` are the states of the
cache in which the mutex is held), whatever their signals and timeouts, whatever the stores
held before, and for every interleaving of their steps: at any moment at most one call is
between the return of `c.cache.Lock` and the return of `c.cache.Unlock`, and so at most one
call is at the write that populates the cache.  The `Lock` of `BaseStorage`, which
`MemoryStorage` has, and the `Lock` of `CoherencyStorage` are such mutexes
(`MemoryStorage.Lock_excludes`, `CoherencyStorage.ownLock_excludes`). -/
theorem C15_gets_populate_one_at_a_time {A B : Type} (cache : IStorage KT VT A)
    (source : IStorage KT VT B) (key : KT) (held : A → Prop)
    (hLock : ∀ ctx a a1, cache.Lock ctx key a = Outcome.ok a1 → ¬ held a ∧ held a1)
    (hGet : ∀ ctx timeout a r a1, cache.Get ctx key timeout a = Outcome.ok (r, a1) →
      held a → held a1)
    (hSet : ∀ ctx value timeout a e a1, cache.Set ctx key value timeout a = Outcome.ok (e, a1) →
      held a → held a1)
    (calls : Nat → GetCall) (w0 : A × B) (schedule : List Nat)
    (cfg : Concurrent (GetPc VT) (A × B))
    (hrun : Concurrent.run (fun k => (NewCoherencyStorage cache.onFst source.onSnd).GetStep
        (calls k).ctx key (calls k).timeout) schedule
        { world := w0, pcs := fun _ => GetPc.cacheGet } = some cfg) :
    (∀ i j, (cfg.pcs i).holdsLock = true → (cfg.pcs j).holdsLock = true → i = j) ∧
    (∀ i j v v1, cfg.pcs i = GetPc.cacheSet v → cfg.pcs j = GetPc.cacheSet v1 → i = j) := by
  have hstart : GetsExclusive held
      ({ world := w0, pcs := fun _ => GetPc.cacheGet } : Concurrent (GetPc VT) (A × B)) := by
    refine ⟨?_, ?_⟩
    · intro i j hi
      simp [GetPc.holdsLock] at hi
    · rintro ⟨i, hi⟩
      simp [GetPc.holdsLock] at hi
  obtain ⟨huniq, _⟩ := GetsExclusive_run cache source key held hLock hGet hSet calls schedule
    _ cfg hstart hrun
  refine ⟨huniq, ?_⟩
  intro i j v v1 hi hj
  exact huniq i j (by rw [hi]; rfl) (by rw [hj]; rfl)

/-- Witness of C15, amended: two readers on freshly constructed `MemoryStorage`s.  Reader 0 holds
the lock of the cache, reader 1 has missed the cache too and cannot take its next step, the
`Lock`. -/
theorem C15_gets_populate_one_at_a_time_witness :
    Concurrent.run (fun k => (NewCoherencyStorage (MemoryStorage.toIStorage String String).onFst
        (MemoryStorage.toIStorage String String).onSnd).GetStep (Scenario.readers k).ctx "k"
        (Scenario.readers k).timeout) [0, 0, 1] Scenario.readersStart
      = some Scenario.readersMid ∧
    Scenario.readersMid.pcs 0 = GetPc.sourceGet ∧
    Scenario.readersMid.pcs 1 = GetPc.cacheLock ∧
    Concurrent.step (fun k => (NewCoherencyStorage (MemoryStorage.toIStorage String String).onFst
        (MemoryStorage.toIStorage String String).onSnd).GetStep (Scenario.readers k).ctx "k"
        (Scenario.readers k).timeout) 1 Scenario.readersMid = none ∧
    (∀ i j, (Scenario.readersMid.pcs i).holdsLock = true →
      (Scenario.readersMid.pcs j).holdsLock = true → i = j) ∧
    (∀ i j v v1, Scenario.readersMid.pcs i = GetPc.cacheSet v →
      Scenario.readersMid.pcs j = GetPc.cacheSet v1 → i = j) :=
  ⟨by rfl, by rfl, by rfl, by rfl,
    C15_gets_populate_one_at_a_time (MemoryStorage.toIStorage String String)
      (MemoryStorage.toIStorage String String) "k" (fun m => m.lockMap "k" = some true)
      (fun _ _ _ h => MemoryStorage.Lock_excludes h)
      (fun _ _ _ _ _ h hheld => (congrFun (MemoryStorage.Get_locks h) "k").trans hheld)
      (fun _ _ _ _ _ _ h hheld => (congrFun (MemoryStorage.Set_locks h) "k").trans hheld)
      Scenario.readers (NewMemoryStorage String String, NewMemoryStorage String String)
      [0, 0, 1] Scenario.readersMid (by rfl)⟩

/-- C16: for every number of concurrent `Set` calls to the same key with non-nil values (distinct
or not) on a `CoherencyStorage` over two `MemoryStorage`s, whatever the stores held before, and
for every interleaving of their steps (the locks, the writes to the source and the writes to
the cache), once all calls have returned: when the signals of the calls were live for the whole
call, every call returned a nil error; and when at least one call returned a nil error, a `Get`
of that key with a signal that is live for the whole call returns, with a nil error, a non-nil
value that is the value of one of the calls. -/
theorem C16_concurrent_sets_leave_a_written_value (n : Nat) (key : KT)
    (calls : Nat → SetCall VT) (w0 : MemoryStorage KT VT × MemoryStorage KT VT)
    (schedule : List Nat) (cfg : Concurrent SetPc (MemoryStorage KT VT × MemoryStorage KT VT))
    (own : BaseStorage KT) (ctxG : Context) (timeoutG : Duration)
    (hvalue : ∀ i, i < n → (calls i).value ≠ none)
    (hschedule : ∀ i ∈ schedule, i < n)
    (hrun : Concurrent.run (fun k => (NewCoherencyStorage (MemoryStorage.toIStorage KT VT).onFst
        (MemoryStorage.toIStorage KT VT).onSnd).SetStep (calls k).ctx key (calls k).value
        (calls k).timeout) schedule { world := w0, pcs := fun _ => SetPc.sourceLock } = some cfg)
    (hdone : ∀ i, i < n → ∃ e, cfg.pcs i = SetPc.returned e)
    (hG : ctxG.live timeoutG) :
    ((∀ i, i < n → (calls i).ctx.live (calls i).timeout) →
      ∀ i, i < n → cfg.pcs i = SetPc.returned none) ∧
    ((∃ i, i < n ∧ cfg.pcs i = SetPc.returned none) →
      ∃ j v, j < n ∧ (calls j).value = some v ∧
        (Coherent (MemoryStorage.toIStorage KT VT) (MemoryStorage.toIStorage KT VT)).Get
            ctxG key timeoutG { toBaseStorage := own, world := cfg.world }
          = Outcome.ok ((some v, none), { toBaseStorage := own, world := cfg.world })) := by
  constructor
  · intro hlive i hi
    have hstart : SetsErrorFree n
        ({ world := w0, pcs := fun _ => SetPc.sourceLock } :
          Concurrent SetPc (MemoryStorage KT VT × MemoryStorage KT VT)) := by
      intro i _ e he
      simp at he
    have hnoerr := SetsErrorFree_run n key calls hlive schedule _ cfg hschedule hstart hrun
    obtain ⟨e, he⟩ := hdone i hi
    have he0 : e = none := hnoerr i hi e (Or.inr (Or.inr he))
    rw [he, he0]
  · rintro ⟨i, hi, hok⟩
    have hstart : SetsConsistent n key calls
        { world := w0, pcs := fun _ => SetPc.sourceLock } := by
      rintro ⟨i, _, hi⟩
      simp [SetPc.wroteCache] at hi
    have hheld := SetsConsistent_run n key calls schedule _ cfg hschedule hstart hrun
    obtain ⟨j, hj, hjv⟩ := hheld ⟨i, hi, by rw [hok]; rfl⟩
    obtain ⟨v, hv⟩ := Option.ne_none_iff_exists'.mp (hvalue j hj)
    refine ⟨j, v, hj, hv, ?_⟩
    refine CoherencyStorage.Get_of_cache
      (NewCoherencyStorage (MemoryStorage.toIStorage KT VT).onFst
        (MemoryStorage.toIStorage KT VT).onSnd) ctxG key timeoutG _ (some v) none _ ?_ rfl
    rw [hv] at hjv
    simp [NewCoherencyStorage, IStorage.onFst, MemoryStorage.toIStorage, MemoryStorage.Get,
      hG 0, hjv]

/-- Witness of C16: two writers of `TestConcurrentOperations`; writer 1 writes the source last,
writer 0 writes the cache last, and `Get` returns the value of writer 0. -/
theorem C16_concurrent_sets_leave_a_written_value_witness :
    (∀ i, i < 2 → (Scenario.writers i).value ≠ none) ∧
    (∀ i ∈ Scenario.interleaving, i < 2) ∧
    Concurrent.run (fun k => (NewCoherencyStorage (MemoryStorage.toIStorage String Nat).onFst
        (MemoryStorage.toIStorage String Nat).onSnd).SetStep (Scenario.writers k).ctx "same_key"
        (Scenario.writers k).value (Scenario.writers k).timeout) Scenario.interleaving
        Scenario.writersStart = some Scenario.writersDone ∧
    (∀ i, i < 2 → ∃ e, Scenario.writersDone.pcs i = SetPc.returned e) ∧
    Scenario.ctx.live (Millisecond * 100) ∧
    (∀ i, i < 2 → (Scenario.writers i).ctx.live (Scenario.writers i).timeout) ∧
    (∀ i, i < 2 → Scenario.writersDone.pcs i = SetPc.returned none) ∧
    Scenario.writersDone.world.2.cache "same_key" = some (some 100) ∧
    (Coherent (MemoryStorage.toIStorage String Nat) (MemoryStorage.toIStorage String Nat)).Get
        Scenario.ctx "same_key" (Millisecond * 100)
        { toBaseStorage := ⟨fun _ => none⟩, world := Scenario.writersDone.world }
      = Outcome.ok ((some 0, none),
          { toBaseStorage := ⟨fun _ => none⟩, world := Scenario.writersDone.world }) ∧
    ∃ j v, j < 2 ∧ (Scenario.writers j).value = some v ∧
      (Coherent (MemoryStorage.toIStorage String Nat) (MemoryStorage.toIStorage String Nat)).Get
          Scenario.ctx "same_key" (Millisecond * 100)
          { toBaseStorage := ⟨fun _ => none⟩, world := Scenario.writersDone.world }
        = Outcome.ok ((some v, none),
            { toBaseStorage := ⟨fun _ => none⟩, world := Scenario.writersDone.world }) :=
  ⟨fun _ _ => by simp [Scenario.writers], by decide, by rfl,
    fun i hi => by
      match i, hi with
      | 0, _ => exact ⟨none, rfl⟩
      | 1, _ => exact ⟨none, rfl⟩,
    Scenario.ctx_live (by decide),
    fun _ _ => Scenario.ctx_live (show Millisecond < Millisecond * 100 by decide),
    (C16_concurrent_sets_leave_a_written_value 2 "same_key" Scenario.writers
      (NewMemoryStorage String Nat, NewMemoryStorage String Nat) Scenario.interleaving
      Scenario.writersDone ⟨fun _ => none⟩ Scenario.ctx (Millisecond * 100)
      (fun _ _ => by simp [Scenario.writers]) (by decide) (by rfl)
      (fun i hi => by
        match i, hi with
        | 0, _ => exact ⟨none, rfl⟩
        | 1, _ => exact ⟨none, rfl⟩)
      (Scenario.ctx_live (by decide))).1
      (fun _ _ => Scenario.ctx_live (show Millisecond < Millisecond * 100 by decide)),
    by rfl, by rfl,
    (C16_concurrent_sets_leave_a_written_value 2 "same_key" Scenario.writers
      (NewMemoryStorage String Nat, NewMemoryStorage String Nat) Scenario.interleaving
      Scenario.writersDone ⟨fun _ => none⟩ Scenario.ctx (Millisecond * 100)
      (fun _ _ => by simp [Scenario.writers]) (by decide) (by rfl)
      (fun i hi => by
        match i, hi with
        | 0, _ => exact ⟨none, rfl⟩
        | 1, _ => exact ⟨none, rfl⟩)
      (Scenario.ctx_live (by decide))).2 ⟨0, by decide, rfl⟩⟩

/-- C17: for every pair of backends, every key and every outcome with which the operation
returns (a value, absent, or an error of any backend call, a cancelled or expired signal
included), each per-key lock that `CoherencyStorage.Get`, `Set` or `Del` takes is released
before the operation returns.  First for arbitrary backends with a recorder in front of each:
starting with no lock held, no lock is held after the calls of the operation, every `Lock` has
been followed by the `Unlock` of the same backend and key.  Then for two `MemoryStorage`s and
their mutexes: starting from a state in which no mutex is held in any lock table, no mutex is
held in the state in which the operation returns. -/
theorem C17_locks_released_on_return {W : Type} (cache source : IStorage KT VT W)
    (ctx : Context) (key : KT) (value : Option VT) (timeout : Duration)
    (s : CoherencyState KT (W × List (Call KT)))
    (p : CoherencyState KT (MemoryStorage KT VT × MemoryStorage KT VT))
    (hlog : s.world.2 = []) (hfree : p.noLockHeld) :
    ((∀ r s1, (Recorded cache source).Get ctx key timeout s = Outcome.ok (r, s1) →
        heldLocks s1.world.2 = []) ∧
      (∀ r s1, (Recorded cache source).Set ctx key value timeout s = Outcome.ok (r, s1) →
        heldLocks s1.world.2 = []) ∧
      (∀ r s1, (Recorded cache source).Del ctx key timeout s = Outcome.ok (r, s1) →
        heldLocks s1.world.2 = [])) ∧
    ((∀ r p1, (Coherent (MemoryStorage.toIStorage KT VT) (MemoryStorage.toIStorage KT VT)).Get
          ctx key timeout p = Outcome.ok (r, p1) → p1.noLockHeld) ∧
      (∀ r p1, (Coherent (MemoryStorage.toIStorage KT VT) (MemoryStorage.toIStorage KT VT)).Set
          ctx key value timeout p = Outcome.ok (r, p1) → p1.noLockHeld) ∧
      (∀ r p1, (Coherent (MemoryStorage.toIStorage KT VT) (MemoryStorage.toIStorage KT VT)).Del
          ctx key timeout p = Outcome.ok (r, p1) → p1.noLockHeld)) := by
  refine ⟨⟨?_, ?_, ?_⟩, ⟨?_, ?_, ?_⟩⟩
  · intro r s1 h
    obtain ⟨_, ⟨w1, _, _, hl⟩ | ⟨w1, between, _, hl, hb⟩⟩ :=
      Recorded_Get_trace cache source ctx key timeout s s1 h
    · rw [hl, hlog]
      simp [heldLocks, Call.onHeld]
    · rcases hb with ⟨rfl, _⟩ | ⟨e, rfl, rfl⟩ | ⟨e, rfl, rfl⟩ | ⟨rfl, hr⟩ <;>
      · rw [hl, hlog]
        simp [heldLocks, Call.onHeld]
  · intro r s1 h
    rcases Recorded_Set_trace cache source ctx key timeout s s1 h with ⟨e, rfl, hl⟩ | hl <;>
    · rw [hl, hlog]
      simp [heldLocks, Call.onHeld]
  · intro r s1 h
    rcases Recorded_Del_trace cache source ctx key timeout s s1 h with ⟨e, rfl, hl⟩ | hl <;>
    · rw [hl, hlog]
      simp [heldLocks, Call.onHeld]
  · intro r p1 h
    exact CoherencyState.noLockHeld_Get ctx key timeout p p1 r hfree h
  · intro r p1 h
    exact CoherencyState.noLockHeld_Set ctx key value timeout p p1 r hfree h
  · intro r p1 h
    exact CoherencyState.noLockHeld_Del ctx key timeout p p1 r hfree h

/-- Witness of C17: two `MemoryStorage`s; with recorders, a `Set` with an expired signal, which
stops at the error of the source; without, a `Get` that misses and goes through the lock of
the cache. -/
theorem C17_locks_released_on_return_witness :
    Scenario.freshRecorded.world.2 = [] ∧ Scenario.fresh.noLockHeld ∧
    ((Recorded (MemoryStorage.toIStorage String String).onFst
        (MemoryStorage.toIStorage String String).onSnd).Set Scenario.expired "k" (some "v")
        (Millisecond * 100) Scenario.freshRecorded
      = Outcome.ok (some Error.DeadlineExceeded, Scenario.afterExpiredSet) ∧
      heldLocks Scenario.afterExpiredSet.world.2 = []) ∧
    ((Coherent (MemoryStorage.toIStorage String String)
        (MemoryStorage.toIStorage String String)).Get Scenario.ctx "k"
        (Millisecond * 100) Scenario.fresh
      = Outcome.ok ((none, none), Scenario.afterMiss) ∧
      Scenario.afterMiss.world.1.lockMap "k" = some false ∧
      Scenario.afterMiss.noLockHeld) :=
  ⟨rfl, ⟨fun _ h => (nomatch h), fun _ h => (nomatch h), fun _ h => (nomatch h)⟩,
    ⟨rfl, (C17_locks_released_on_return (MemoryStorage.toIStorage String String).onFst
      (MemoryStorage.toIStorage String String).onSnd Scenario.expired "k" (some "v")
      (Millisecond * 100) Scenario.freshRecorded Scenario.fresh rfl
      ⟨fun _ h => (nomatch h), fun _ h => (nomatch h), fun _ h => (nomatch h)⟩).1.2.1 _ _ (by rfl)⟩,
    ⟨rfl, rfl, (C17_locks_released_on_return (MemoryStorage.toIStorage String String).onFst
      (MemoryStorage.toIStorage String String).onSnd Scenario.ctx "k" (some "v")
      (Millisecond * 100) Scenario.freshRecorded Scenario.fresh rfl
      ⟨fun _ h => (nomatch h), fun _ h => (nomatch h), fun _ h => (nomatch h)⟩).2.1 _ _ (by rfl)⟩⟩

/-- C18: a `MemoryStorage` works on its map first and looks at the signal afterwards.  For every
key, value and contents, when the signal has already fired with error `e` (`DeadlineExceeded`
or `Canceled`): `Set` returns `e` and the value is stored under the key all the same, `Del`
returns `e` and the key is removed all the same, and `Get` returns a nil value with `e`,
whether the key is present or not. -/
theorem C18_memory_storage_checks_signal_last (key : KT) (value : Option VT) (ctx : Context)
    (timeout : Duration) (m : MemoryStorage KT VT) (e : Error) (hfired : ctx.err = some e) :
    ((m.Set ctx key value timeout).1 = some e ∧
      (m.Set ctx key value timeout).2.cache key = some value) ∧
    ((m.Del ctx key timeout).1 = some e ∧ (m.Del ctx key timeout).2.cache key = none) ∧
    m.Get ctx key timeout = ((none, some e), m) := by
  refine ⟨⟨?_, ?_⟩, ⟨?_, ?_⟩, ?_⟩
  · simp [MemoryStorage.Set, hfired]
  · simp [MemoryStorage.Set, hfired]
  · simp [MemoryStorage.Del, hfired]
  · simp [MemoryStorage.Del, hfired]
  · simp [MemoryStorage.Get, hfired]

/-- Witness of C18: the store that holds `"k" ↦ "v"`, and a signal that was cancelled. -/
theorem C18_memory_storage_checks_signal_last_witness :
    Scenario.cancelled.err = some Error.Canceled ∧
    Scenario.bothHold.world.1.cache "k" = some (some "v") ∧
    ((Scenario.bothHold.world.1.Set Scenario.cancelled "k" (some "w") (Millisecond * 100)).1
        = some Error.Canceled ∧
      (Scenario.bothHold.world.1.Set Scenario.cancelled "k" (some "w")
        (Millisecond * 100)).2.cache "k" = some (some "w")) ∧
    ((Scenario.bothHold.world.1.Del Scenario.cancelled "k" (Millisecond * 100)).1
        = some Error.Canceled ∧
      (Scenario.bothHold.world.1.Del Scenario.cancelled "k" (Millisecond * 100)).2.cache "k"
        = none) ∧
    Scenario.bothHold.world.1.Get Scenario.cancelled "k" (Millisecond * 100)
      = ((none, some Error.Canceled), Scenario.bothHold.world.1) :=
  ⟨rfl, rfl,
    C18_memory_storage_checks_signal_last "k" (some "w") Scenario.cancelled (Millisecond * 100)
      Scenario.bothHold.world.1 Error.Canceled rfl⟩

/-- C19: a `Del` that fails is not undone and leaves the two tiers apart.  For every
`CoherencyStorage` over two `MemoryStorage`s that holds `key ↦ value` in both cache and source
(the source's lock for the key free): a `Del(key)` with a signal that has already fired with
error `e` returns `e`, removes the key from the source and leaves it in the cache, so that a
later `Get(key)` with a signal that is live for the whole call returns the deleted value,
although the source, which had the key before, no longer has it. -/
theorem C19_failed_del_leaves_tiers_apart (key : KT) (value : VT) (ctx : Context)
    (timeout : Duration) (e : Error)
    (s : CoherencyState KT (MemoryStorage KT VT × MemoryStorage KT VT))
    (hfired : ctx.err = some e)
    (hcache : s.world.1.cache key = some (some value))
    (hsource : s.world.2.cache key = some (some value))
    (hsfree : s.world.2.lockMap key ≠ some true) :
    ∃ s1,
      (Coherent (MemoryStorage.toIStorage KT VT) (MemoryStorage.toIStorage KT VT)).Del
          ctx key timeout s = Outcome.ok (some e, s1) ∧
      s1.world.2.cache key = none ∧
      s1.world.1.cache key = some (some value) ∧
      ∀ (ctxG : Context) (timeoutG : Duration), ctxG.live timeoutG →
        s.world.2.Get ctxG key timeoutG = ((some value, none), s.world.2) ∧
        s1.world.2.Get ctxG key timeoutG = ((none, none), s1.world.2) ∧
        (Coherent (MemoryStorage.toIStorage KT VT) (MemoryStorage.toIStorage KT VT)).Get
            ctxG key timeoutG s1 = Outcome.ok ((some value, none), s1) := by
  have hsub : (ctx.WithTimeout timeout 1).err = some e := Context.WithTimeout_done hfired
  refine ⟨{ s with world := (s.world.1,
      { lockMap := Function.update (Function.update s.world.2.lockMap key (some true)) key
          (some false),
        cache := Function.update s.world.2.cache key none }) }, ?_, ?_, hcache, ?_⟩
  · refine CoherencyStorage.Del_of_source_error
      (NewCoherencyStorage (MemoryStorage.toIStorage KT VT).onFst
        (MemoryStorage.toIStorage KT VT).onSnd) ctx key timeout s e
      (s.world.1,
        { s.world.2 with lockMap := Function.update s.world.2.lockMap key (some true) })
      (s.world.1,
        { lockMap := Function.update s.world.2.lockMap key (some true),
          cache := Function.update s.world.2.cache key none })
      _ ?_ ?_ ?_
    · simp only [NewCoherencyStorage, IStorage.onSnd, MemoryStorage.toIStorage,
        BaseStorage.Lock]
      rfl
    · simp [NewCoherencyStorage, IStorage.onSnd, MemoryStorage.toIStorage, MemoryStorage.Del,
        hsub]
    · simp [NewCoherencyStorage, IStorage.onSnd, MemoryStorage.toIStorage, BaseStorage.Unlock]
  · simp
  · intro ctxG timeoutG hG
    have hctxG := Context.err_of_live hG
    have hsubG := hG 0
    refine ⟨by simp [MemoryStorage.Get, hctxG, hsource], by simp [MemoryStorage.Get, hctxG], ?_⟩
    refine CoherencyStorage.Get_of_cache
      (NewCoherencyStorage (MemoryStorage.toIStorage KT VT).onFst
        (MemoryStorage.toIStorage KT VT).onSnd) ctxG key timeoutG _ (some value) none _ ?_ rfl
    simp [NewCoherencyStorage, IStorage.onFst, MemoryStorage.toIStorage, MemoryStorage.Get,
      hsubG, hcache]

/-- Witness of C19: both stores hold `"k" ↦ "v"` and the signal has expired. -/
theorem C19_failed_del_leaves_tiers_apart_witness :
    Scenario.expired.err = some Error.DeadlineExceeded ∧
    Scenario.bothHold.world.1.cache "k" = some (some "v") ∧
    Scenario.bothHold.world.2.cache "k" = some (some "v") ∧
    Scenario.bothHold.world.2.lockMap "k" ≠ some true ∧
    ∃ s1,
      (Coherent (MemoryStorage.toIStorage String String)
          (MemoryStorage.toIStorage String String)).Del Scenario.expired "k"
          (Millisecond * 100) Scenario.bothHold
        = Outcome.ok (some Error.DeadlineExceeded, s1) ∧
      s1.world.2.cache "k" = none ∧
      s1.world.1.cache "k" = some (some "v") ∧
      ∀ (ctxG : Context) (timeoutG : Duration), ctxG.live timeoutG →
        Scenario.bothHold.world.2.Get ctxG "k" timeoutG
          = ((some "v", none), Scenario.bothHold.world.2) ∧
        s1.world.2.Get ctxG "k" timeoutG = ((none, none), s1.world.2) ∧
        (Coherent (MemoryStorage.toIStorage String String)
            (MemoryStorage.toIStorage String String)).Get ctxG "k" timeoutG s1
          = Outcome.ok ((some "v", none), s1) :=
  ⟨rfl, rfl, rfl, by decide,
    C19_failed_del_leaves_tiers_apart "k" "v" Scenario.expired (Millisecond * 100)
      Error.DeadlineExceeded Scenario.bothHold rfl rfl rfl (by decide)⟩

end Claims

end CoherencyCache
